import Mathlib

/-!
# Koda short-link backend: rate limiter, destination cache and link store

A shallow embedding of the resolution-and-protection pipeline of the backend
(`internal/middleware`, `internal/service`, `internal/repository`,
`internal/utils`), followed by the properties proved about it.

Conventions of the embedding

* Instants and durations are natural numbers in one unit, milliseconds, the
  resolution of the ephemeral store's expiry clock. The `EXPIRE` of the rate
  limiter is sent in whole seconds, and the two round trips of the limiter to
  the store (`GET`, then the pipeline) have an instant each.
* The Redis instance is split in two typed views that the code never mixes:
  the counters under the keys `ratelimit:...` and the destination strings under
  the keys `link:...:destination`.
* Go `int`/`int64` values are integers; none of the functions below performs
  arithmetic that could leave the 64-bit range in a realistic run.
* A call that can fail for reasons outside the program (network, driver) takes
  its failure from an explicit record of faults.
-/

namespace Koda

/-! ## Time -/

/-- The constant `time.Hour`, in milliseconds. Instants and durations are
plain natural numbers throughout, counted in milliseconds. -/
def Hour : Nat := 3600000

/-! ## The counting store (Redis keys `ratelimit:...`) -/

/-- One Redis key holding an integer, with its optional time to live
(`expiry = none`: the key never expires). -/
structure Counter where
  count : Int
  expiry : Option Nat
deriving DecidableEq, Repr

/-- The counters by key. -/
abbrev CounterStore := String → Option Counter

/-- A key is visible at `now` when it has no expiry or its expiry lies ahead. -/
def Counter.live (e : Counter) (now : Nat) : Bool :=
  match e.expiry with
  | none => true
  | some t => decide (now < t)

/-- The entry a Redis command sees at `now`: expired keys are gone. -/
def CounterStore.lookup (s : CounterStore) (key : String) (now : Nat) : Option Counter :=
  match s key with
  | some e => if e.live now then some e else none
  | none => none

/-- The error value of a Redis read. -/
inductive RedisErr where
  | ok
  | nil
  | other
deriving DecidableEq, Repr

/-- Faults of the ephemeral store during one request: `getErr` makes `GET` fail
with an error other than `redis.Nil`; `execErr` makes `pipe.Exec` report an
error, in which case `incrApplied` and `expireApplied` say which of the queued
commands still took effect. -/
structure RedisFaults where
  getErr : Bool
  execErr : Bool
  incrApplied : Bool
  expireApplied : Bool
deriving DecidableEq, Repr

/-- The store answering every command. -/
def noRedisFaults : RedisFaults :=
  { getErr := false, execErr := false, incrApplied := true, expireApplied := true }

/-- The call `redisClient.Get(ctx, key).Int()`: the parsed count and the error; the
count is 0 whenever the error is not `ok`. -/
def redisGetInt (f : RedisFaults) (s : CounterStore) (key : String) (now : Nat) :
    Int × RedisErr :=
  if f.getErr then (0, RedisErr.other)
  else match s.lookup key now with
    | some e => (e.count, RedisErr.ok)
    | none => (0, RedisErr.nil)

/-- The command `INCR key`: a missing key counts from 0 and gets no expiry. -/
def redisIncr (s : CounterStore) (key : String) (now : Nat) : CounterStore :=
  match s.lookup key now with
  | some e => Function.update s key (some { e with count := e.count + 1 })
  | none => Function.update s key (some { count := 1, expiry := none })

/-- The argument go-redis gives `EXPIRE` for the duration `d` (its `formatSec`):
the whole seconds of `d`, the fraction cut off, and 1 for a positive duration
below one second. -/
def formatSec (d : Nat) : Nat :=
  if 0 < d ∧ d < 1000 then 1 else d / 1000

/-- The time to live, in milliseconds, that `Expire(ctx, key, d)` gives a key. -/
def expireSpan (d : Nat) : Nat := 1000 * formatSec d

/-- The call `Expire(ctx, key, d)`, which sends `EXPIRE key (formatSec d)`: the
expiry of a visible key becomes `now + expireSpan d` (with a span of 0 the key
is expired at once, which is how Redis deletes it). -/
def redisExpire (s : CounterStore) (key : String) (d : Nat) (now : Nat) : CounterStore :=
  match s.lookup key now with
  | some e => Function.update s key (some { e with expiry := some (now + expireSpan d) })
  | none => s

/-! ## Request context and the rate limiter (`internal/middleware/ratelimit.go`) -/

/-- The part of `gin.Context` the middleware reads and writes: the request's
origin, header and matched route, and the keys `user_id` and `user_email`. -/
structure Ctx where
  clientIP : String
  authHeader : String
  fullPath : String
  userID : Option Int
  userEmail : Option String
deriving DecidableEq, Repr

/-- What a middleware does with the request: `next` is `c.Next()`, `abort` is
`response.Error(c, status, message, nil)` followed by `c.Abort()`. -/
inductive Outcome where
  | next
  | abort (status : Nat) (message : String)
deriving DecidableEq, Repr

/-- The struct `RateLimiter` without its client handle; `window` is the
`time.Duration` in milliseconds. -/
structure RateLimiter where
  maxRequests : Int
  window : Nat
deriving DecidableEq, Repr

/-- What one pass through the limiter leaves behind: the decision, the store,
the key the request was counted under and whether `pipe.Exec` reported an
error. -/
structure LimitResult where
  outcome : Outcome
  store : CounterStore
  key : String
  pipeErr : Bool

/-- The identity of the caller: `c.ClientIP()`, replaced by `user:<id>` when the
context holds `user_id`. -/
def identifier (c : Ctx) : String :=
  match c.userID with
  | some uid => "user:" ++ toString uid
  | none => c.clientIP

/-- The key of `Limit`: `fmt.Sprintf("ratelimit:%s", identifier)`. -/
def limitKey (c : Ctx) : String :=
  "ratelimit:" ++ identifier c

/-- The key of `LimitByEndpoint`:
`fmt.Sprintf("ratelimit:%s:%s", identifier, endpoint)`. -/
def endpointKey (c : Ctx) : String :=
  "ratelimit:" ++ identifier c ++ ":" ++ c.fullPath

/-- The pipeline of the limiter: `INCR key`, then `EXPIRE key window` when the
count read was 0, then `Exec`. Returns the store and whether `Exec` failed. -/
def runPipeline (f : RedisFaults) (s : CounterStore) (key : String) (count : Int)
    (window : Nat) (now : Nat) : CounterStore × Bool :=
  if f.execErr then
    let s1 := if f.incrApplied then redisIncr s key now else s
    let s2 := if count = 0 ∧ f.expireApplied then redisExpire s1 key window now else s1
    (s2, true)
  else
    let s1 := redisIncr s key now
    let s2 := if count = 0 then redisExpire s1 key window now else s1
    (s2, false)

/-- The body shared by `Limit` and `LimitByEndpoint`, which differ only in the
key, the limit, the window and the message of the 429 response. The handler
makes two round trips to the store: `GET` is answered at `now`, the pipeline
runs at `later`. -/
def countRequestAt (maxRequests : Int) (window : Nat) (message : String) (key : String)
    (f : RedisFaults) (now later : Nat) (s : CounterStore) : LimitResult :=
  let (count, err) := redisGetInt f s key now
  if err ≠ RedisErr.ok ∧ err ≠ RedisErr.nil then
    { outcome := Outcome.next, store := s, key := key, pipeErr := false }
  else if count ≥ maxRequests then
    { outcome := Outcome.abort 429 message, store := s, key := key, pipeErr := false }
  else
    let (s', failed) := runPipeline f s key count window later
    { outcome := Outcome.next, store := s', key := key, pipeErr := failed }

/-- The same body with both round trips at the instant `now`. -/
def countRequest (maxRequests : Int) (window : Nat) (message : String) (key : String)
    (f : RedisFaults) (now : Nat) (s : CounterStore) : LimitResult :=
  countRequestAt maxRequests window message key f now now s

/-- The 429 message of `Limit`. -/
def limitMessage : String := "Rate limit exceeded. Please try again later."

/-- The 429 message of `LimitByEndpoint`. -/
def endpointMessage : String := "Rate limit exceeded for this endpoint"

/-- The handler returned by `RateLimiter.Limit`, its `GET` answered at `now` and
its pipeline run at `later`. -/
def RateLimiter.LimitAt (r : RateLimiter) (f : RedisFaults) (now later : Nat)
    (s : CounterStore) (c : Ctx) : LimitResult :=
  countRequestAt r.maxRequests r.window limitMessage (limitKey c) f now later s

/-- The handler returned by `RateLimiter.Limit`, with both round trips at the
instant `now`. -/
def RateLimiter.Limit (r : RateLimiter) (f : RedisFaults) (now : Nat) (s : CounterStore)
    (c : Ctx) : LimitResult :=
  countRequest r.maxRequests r.window limitMessage (limitKey c) f now s

/-- The handler returned by `RateLimiter.LimitByEndpoint maxRequests window`. -/
def RateLimiter.LimitByEndpoint (_r : RateLimiter) (maxRequests : Int) (window : Nat)
    (f : RedisFaults) (now : Nat) (s : CounterStore) (c : Ctx) : LimitResult :=
  countRequest maxRequests window endpointMessage (endpointKey c) f now s

/-- Sequential requests of one caller through `Limit` at the instants `ts`, each
with both round trips at its instant, the store answering every command: the
decisions paired with their instants, and the final store. -/
def serve (r : RateLimiter) (c : Ctx) : CounterStore → List Nat → List (Nat × Outcome) × CounterStore
  | s, [] => ([], s)
  | s, t :: ts =>
    let res := r.Limit noRedisFaults t s c
    let rest := serve r c res.store ts
    ((t, res.outcome) :: rest.1, rest.2)

/-- The number of requests of a served schedule that were let through at an
instant of the closed interval from `a` to `b`. -/
def allowedIn (a b : Nat) (log : List (Nat × Outcome)) : Nat :=
  (log.filter (fun p => decide (p.2 = Outcome.next) && decide (a ≤ p.1) && decide (p.1 ≤ b))).length

/-- The count a request reads for `key` at `now`: the value of a visible key,
0 for a key that is absent or expired. -/
def CounterStore.countAt (s : CounterStore) (key : String) (now : Nat) : Int :=
  match s.lookup key now with
  | some e => e.count
  | none => 0

/-! ## Authentication middleware and the routes (`auth.go`, `cmd/api/main.go`) -/

/-- The fields of `utils.JWTClaims` the middleware copies into the context. -/
structure JWTClaims where
  UserID : Int
  Email : String
deriving DecidableEq, Repr

/-- The call `strings.Split(s, sep)` for a one-character separator, on the
characters of the string. -/
def splitOnChar (sep : Char) : List Char → List (List Char)
  | [] => [[]]
  | ch :: cs =>
    if ch = sep then [] :: splitOnChar sep cs
    else match splitOnChar sep cs with
      | [] => [[ch]]
      | p :: ps => (ch :: p) :: ps

/-- The bearer token of an `Authorization` header: the second of exactly two
space-separated parts whose first is `Bearer`. -/
def bearerToken (authHeader : String) : Option String :=
  match splitOnChar ' ' authHeader.toList with
  | [p0, p1] => if String.mk p0 = "Bearer" then some (String.mk p1) else none
  | _ => none

/-- The handler of `AuthMiddleware.RequireAuth`; `validate` is
`jwtUtil.ValidateToken`, giving the claims of a valid token and `none` for a
token it rejects. The helper `response.Unauthorized` answers 401. -/
def RequireAuth (validate : String → Option JWTClaims) (c : Ctx) : Outcome × Ctx :=
  if c.authHeader = "" then (Outcome.abort 401 "Missing authorization header", c)
  else match bearerToken c.authHeader with
    | none => (Outcome.abort 401 "Invalid authorization header format", c)
    | some token =>
      match validate token with
      | none => (Outcome.abort 401 "Invalid or expired token", c)
      | some claims =>
        (Outcome.next, { c with userID := some claims.UserID, userEmail := some claims.Email })

/-- The handler of `AuthMiddleware.OptionalAuth`. -/
def OptionalAuth (validate : String → Option JWTClaims) (c : Ctx) : Outcome × Ctx :=
  if c.authHeader ≠ "" then
    match bearerToken c.authHeader with
    | some token =>
      match validate token with
      | some claims =>
        (Outcome.next, { c with userID := some claims.UserID, userEmail := some claims.Email })
      | none => (Outcome.next, c)
    | none => (Outcome.next, c)
  else (Outcome.next, c)

/-- The handlers `main` installs, in the vocabulary of its route table. -/
inductive Handler where
  | recovery
  | logger
  | cors
  | rateLimit
  | requireAuth
  | optionalAuth
  | endpoint (name : String)
deriving DecidableEq, Repr

/-- One registered route: method, full path and the chain gin runs for it
(router middleware, then group middleware, then the handlers of the route). -/
structure Route where
  method : String
  path : String
  chain : List Handler
deriving DecidableEq, Repr

/-- The middleware of `router.Use(...)`: `gin.Recovery()`, `middleware.Logger()`,
`middleware.CORS()`. -/
def routerChain : List Handler := [Handler.recovery, Handler.logger, Handler.cors]

/-- The middleware of the group `/api/v1`: the router's, then
`api.Use(rateLimiter.Limit())`. -/
def apiChain : List Handler := routerChain ++ [Handler.rateLimit]

/-- The routes `main` registers under `/api/v1`. -/
def apiRoutes : List Route :=
  [ ⟨"POST", "/api/v1/auth/register", apiChain ++ [Handler.endpoint "Register"]⟩,
    ⟨"POST", "/api/v1/auth/login", apiChain ++ [Handler.endpoint "Login"]⟩,
    ⟨"POST", "/api/v1/auth/refresh", apiChain ++ [Handler.endpoint "RefreshToken"]⟩,
    ⟨"POST", "/api/v1/auth/logout",
      apiChain ++ [Handler.requireAuth, Handler.endpoint "Logout"]⟩,
    ⟨"POST", "/api/v1/links", apiChain ++ [Handler.optionalAuth, Handler.endpoint "CreateLink"]⟩,
    ⟨"GET", "/api/v1/links", apiChain ++ [Handler.requireAuth, Handler.endpoint "GetUserLinks"]⟩,
    ⟨"GET", "/api/v1/links/:shortCode",
      apiChain ++ [Handler.requireAuth, Handler.endpoint "GetLinkByShortCode"]⟩,
    ⟨"PUT", "/api/v1/links/:shortCode",
      apiChain ++ [Handler.requireAuth, Handler.endpoint "UpdateLink"]⟩,
    ⟨"DELETE", "/api/v1/links/:shortCode",
      apiChain ++ [Handler.requireAuth, Handler.endpoint "DeleteLink"]⟩,
    ⟨"GET", "/api/v1/dashboard/stats",
      apiChain ++ [Handler.requireAuth, Handler.endpoint "GetDashboardStats"]⟩ ]

/-- The routes `main` registers on the router itself. -/
def rootRoutes : List Route :=
  [ ⟨"GET", "/:shortCode", routerChain ++ [Handler.endpoint "Redirect"]⟩,
    ⟨"GET", "/health", routerChain ++ [Handler.endpoint "health"]⟩ ]

/-- The state of one request travelling down its chain: the context, the
counting store, the key the limiter counted it under (if it ran), the
endpoint reached (if any) and the response of an aborting middleware. -/
structure ChainState where
  ctx : Ctx
  store : CounterStore
  counted : Option String
  reached : Option String
  aborted : Option Outcome

/-- A context as gin hands it to the first handler: no keys set. -/
def newContext (clientIP authHeader fullPath : String) : Ctx :=
  { clientIP := clientIP, authHeader := authHeader, fullPath := fullPath,
    userID := none, userEmail := none }

/-- One handler of the chain. Modelled from the spec: `middleware.Logger` and
`middleware.CORS` are not among the sources and the spec leaves transport
concerns out of scope, so they (and `gin.Recovery`) pass the request on
without touching the context keys. -/
def runHandler (r : RateLimiter) (validate : String → Option JWTClaims) (now : Nat)
    (h : Handler) (st : ChainState) : ChainState :=
  match h with
  | Handler.recovery => st
  | Handler.logger => st
  | Handler.cors => st
  | Handler.rateLimit =>
    let res := r.Limit noRedisFaults now st.store st.ctx
    { st with
      store := res.store
      counted := some res.key
      aborted := if res.outcome = Outcome.next then none else some res.outcome }
  | Handler.requireAuth =>
    let res := RequireAuth validate st.ctx
    { st with ctx := res.2, aborted := if res.1 = Outcome.next then none else some res.1 }
  | Handler.optionalAuth =>
    let res := OptionalAuth validate st.ctx
    { st with ctx := res.2, aborted := if res.1 = Outcome.next then none else some res.1 }
  | Handler.endpoint name => { st with reached := some name }

/-- The chain of a route, handler after handler, until one of them aborts. -/
def runChain (r : RateLimiter) (validate : String → Option JWTClaims) (now : Nat) :
    List Handler → ChainState → ChainState
  | [], st => st
  | h :: hs, st =>
    let st' := runHandler r validate now h st
    match st'.aborted with
    | some _ => st'
    | none => runChain r validate now hs st'

/-- A request served by `route`: the chain run on a fresh context. -/
def serveRoute (r : RateLimiter) (validate : String → Option JWTClaims) (now : Nat)
    (s : CounterStore) (route : Route) (clientIP authHeader : String) : ChainState :=
  runChain r validate now route.chain
    { ctx := newContext clientIP authHeader route.path, store := s, counted := none,
      reached := none, aborted := none }

/-- The limiter `main` constructs: `NewRateLimiter(redisClient, 100, time.Minute)`. -/
def mainRateLimiter : RateLimiter := { maxRequests := 100, window := 60000 }

/-- A validator accepting the single token `tok7`, issued to user 7. -/
def demoValidate (token : String) : Option JWTClaims :=
  if token = "tok7" then some { UserID := 7, Email := "u7@example.com" } else none

/-- The route `PUT /api/v1/links/:shortCode` of `apiRoutes`. -/
def putLinkRoute : Route :=
  ⟨"PUT", "/api/v1/links/:shortCode",
    apiChain ++ [Handler.requireAuth, Handler.endpoint "UpdateLink"]⟩

/-- A caller at 10.0.0.1 without credentials. -/
def demoCtx : Ctx := ⟨"10.0.0.1", "", "/api/v1/links", none, none⟩

/-- A store in which the key of `demoCtx` holds 3 and expires at 160. -/
def demoFullStore : CounterStore :=
  fun k => if k = "ratelimit:10.0.0.1" then some ⟨3, some 160⟩ else none

/-! ## Text helpers of the Go standard library -/

/-- The predicate `unicode.IsSpace`. -/
def isSpace (ch : Char) : Bool :=
  let n := ch.toNat
  (9 ≤ n && n ≤ 13) || n == 32 || n == 0x85 || n == 0xA0 || n == 0x1680 ||
  (0x2000 ≤ n && n ≤ 0x200A) || n == 0x2028 || n == 0x2029 || n == 0x202F ||
  n == 0x205F || n == 0x3000

/-- The function `strings.TrimSpace`. -/
def TrimSpace (s : String) : String :=
  String.mk ((s.toList.dropWhile isSpace).reverse.dropWhile isSpace).reverse

/-- What the program takes from libraries as given: `urlString` is `url.Parse`
followed by `URL.String` (`none` when the parse fails), `timeParse` is
`time.Parse(time.RFC3339, _)` (`none` when it fails), `lowerRune` is
`unicode.ToLower` outside the ASCII range. -/
structure Externals where
  urlString : String → Option String
  timeParse : String → Option Nat
  lowerRune : Char → Char

/-! ## Validation and short codes (`internal/utils`) -/

/-- The function `NormalizeURL` of `validator.go`. -/
def NormalizeURL (x : Externals) (urlString : String) : Option String :=
  let trimmed := TrimSpace urlString
  let withScheme :=
    if !("http://".toList.isPrefixOf trimmed.toList) && !("https://".toList.isPrefixOf trimmed.toList)
    then "https://" ++ trimmed else trimmed
  x.urlString withScheme

/-- The constant `DefaultShortCodeLength`. -/
def DefaultShortCodeLength : Int := 6

/-- The constant `charset`. -/
def charset : String := "abcdefghijklmnopqrstuvwxyzABCDEFGHIJKLMNOPQRSTUVWXYZ0123456789"

/-- The byte `charset[k]`. -/
def charsetAt (k : Fin 62) : Char := charset.toList.getD k.val 'a'

/-- The loop of `GenerateShortCode`: `n` characters drawn from position `pos` of
the random source on; the first failing draw ends the loop with its error. -/
def drawChars (rand : Nat → Except String (Fin 62)) : Nat → Nat → Except String (List Char)
  | 0, _ => Except.ok []
  | n + 1, pos =>
    match rand pos with
    | Except.error e => Except.error e
    | Except.ok k =>
      match drawChars rand n (pos + 1) with
      | Except.error e => Except.error e
      | Except.ok cs => Except.ok (charsetAt k :: cs)

/-- The function `GenerateShortCode`; `rand i` is the result of the `i`-th call
of `rand.Int(rand.Reader, 62)` and `pos` the number of calls made so far. -/
def GenerateShortCode (rand : Nat → Except String (Fin 62)) (pos : Nat) (length : Int) :
    Except String String :=
  let len := if length ≤ 0 then DefaultShortCodeLength else length
  match drawChars rand len.toNat pos with
  | Except.error e => Except.error e
  | Except.ok cs => Except.ok (String.mk cs)

/-- The function `isAlphanumeric`. -/
def isAlphanumeric (ch : Char) : Bool :=
  ('a' ≤ ch && ch ≤ 'z') || ('A' ≤ ch && ch ≤ 'Z') || ('0' ≤ ch && ch ≤ '9')

/-- The function `IsValidCustomSlug`; `len(slug)` counts bytes. -/
def IsValidCustomSlug (slug : String) : Bool :=
  if slug.utf8ByteSize < 3 || slug.utf8ByteSize > 20 then false
  else slug.toList.all isAlphanumeric

/-- The function `strings.ToLower`. -/
def ToLower (x : Externals) (s : String) : String :=
  String.mk (s.toList.map (fun ch => if ch.toNat < 128 then ch.toLower else x.lowerRune ch))

/-- The function `SanitizeCustomSlug`. -/
def SanitizeCustomSlug (x : Externals) (slug : String) : String :=
  ToLower x (TrimSpace slug)

/-! ## Links and their store (`internal/models`, `internal/repository`) -/

/-- The struct `models.ShortLink`. -/
structure ShortLink where
  ID : Int
  ShortCode : String
  Destination : String
  UserID : Option Int
  Title : Option String
  Description : Option String
  IsActive : Bool
  ClickCount : Int
  CreatedAt : Nat
  UpdatedAt : Nat
  ExpiresAt : Option Nat
deriving DecidableEq, Repr

/-- The struct `models.CreateLinkRequest`. -/
structure CreateLinkRequest where
  Destination : String
  CustomSlug : Option String
  Title : Option String
  Description : Option String
  ExpiresAt : Option String
deriving DecidableEq, Repr

/-- The struct `models.UpdateLinkRequest`. -/
structure UpdateLinkRequest where
  Destination : Option String
  Title : Option String
  Description : Option String
  IsActive : Option Bool
  ExpiresAt : Option String
deriving DecidableEq, Repr

/-- The struct `models.LinkResponse`. -/
structure LinkResponse where
  ID : Int
  ShortCode : String
  ShortURL : String
  Destination : String
  Title : Option String
  Description : Option String
  IsActive : Bool
  ClickCount : Int
  CreatedAt : Nat
  ExpiresAt : Option Nat
deriving DecidableEq, Repr

/-- The method `ShortLink.ToResponse`. -/
def ShortLink.ToResponse (l : ShortLink) (baseURL : String) : LinkResponse :=
  { ID := l.ID, ShortCode := l.ShortCode, ShortURL := baseURL ++ "/" ++ l.ShortCode,
    Destination := l.Destination, Title := l.Title, Description := l.Description,
    IsActive := l.IsActive, ClickCount := l.ClickCount, CreatedAt := l.CreatedAt,
    ExpiresAt := l.ExpiresAt }

/-- The table `short_links`: its rows in insertion order, the next value of
the `id` sequence, and whether the schema declares `short_code` unique. -/
structure LinkStore where
  rows : List ShortLink
  nextID : Int
  uniqueCodes : Bool
deriving DecidableEq, Repr

/-- Faults of the two stores during one call of the link service:
`existsErr i` fails the `i`-th call of `ShortCodeExists`, the other flags fail
the query or command they name (`clickInsertErr` the insert of the click row,
`incrErr` the call of `IncrementClickCount`, `counterErr` the `INCR` of the
ephemeral click counter). -/
structure Faults where
  existsErr : Nat → Bool
  findErr : Bool
  insertErr : Bool
  updateErr : Bool
  deleteErr : Bool
  cacheGetErr : Bool
  cacheSetErr : Bool
  cacheDelErr : Bool
  clickInsertErr : Bool
  incrErr : Bool
  counterErr : Bool

/-- Both stores answering every call. -/
def noFaults : Faults :=
  { existsErr := fun _ => false, findErr := false, insertErr := false, updateErr := false,
    deleteErr := false, cacheGetErr := false, cacheSetErr := false, cacheDelErr := false,
    clickInsertErr := false, incrErr := false, counterErr := false }

/-- The method `ShortLinkRepository.ShortCodeExists`, as the `i`-th existence
check of a call: the flag and whether the query failed; `exists` keeps its
zero value when the query fails. -/
def LinkStore.ShortCodeExists (db : LinkStore) (f : Faults) (i : Nat) (shortCode : String) :
    Bool × Bool :=
  if f.existsErr i then (false, true)
  else (db.rows.any (fun l => decide (l.ShortCode = shortCode)), false)

/-- The method `ShortLinkRepository.FindByShortCode`: the first row with the
code, `short link not found` when there is none, the driver's error when the
query fails. -/
def LinkStore.FindByShortCode (db : LinkStore) (f : Faults) (shortCode : String) :
    Except String ShortLink :=
  if f.findErr then Except.error "driver: bad connection"
  else match db.rows.find? (fun l => decide (l.ShortCode = shortCode)) with
    | some l => Except.ok l
    | none => Except.error "short link not found"

/-- The method `ShortLinkRepository.Create`: the `INSERT ... RETURNING`, giving the
stored row and the new table. Modelled from the spec: the schema of `short_links`
is not among the sources; the new row takes the next `id`, the current time as
`created_at` and `updated_at` and 0 as `click_count`, and the insert is refused
when the schema declares `short_code` unique and the code is already stored. -/
def LinkStore.Create (db : LinkStore) (f : Faults) (now : Nat) (link : ShortLink) :
    Except String (ShortLink × LinkStore) :=
  if f.insertErr then Except.error "driver: bad connection"
  else if db.uniqueCodes && db.rows.any (fun l => decide (l.ShortCode = link.ShortCode)) then
    Except.error "pq: duplicate key value violates unique constraint"
  else
    let stored := { link with ID := db.nextID, CreatedAt := now, UpdatedAt := now, ClickCount := 0 }
    Except.ok (stored, { db with rows := db.rows ++ [stored], nextID := db.nextID + 1 })

/-- The method `ShortLinkRepository.Update`: the `UPDATE ... WHERE id = $6`. -/
def LinkStore.Update (db : LinkStore) (f : Faults) (now : Nat) (link : ShortLink) :
    Except String LinkStore :=
  if f.updateErr then Except.error "driver: bad connection"
  else if db.rows.any (fun l => decide (l.ID = link.ID)) then
    Except.ok { db with rows := db.rows.map (fun l =>
      if l.ID = link.ID then
        { l with Destination := link.Destination, Title := link.Title,
                 Description := link.Description, IsActive := link.IsActive,
                 ExpiresAt := link.ExpiresAt, UpdatedAt := now }
      else l) }
  else Except.error "short link not found"

/-- The method `ShortLinkRepository.Delete`: the
`DELETE ... WHERE id = $1 AND user_id = $2`. -/
def LinkStore.Delete (db : LinkStore) (f : Faults) (id : Int) (userID : Int) :
    Except String LinkStore :=
  if f.deleteErr then Except.error "driver: bad connection"
  else if db.rows.any (fun l => decide (l.ID = id) && decide (l.UserID = some userID)) then
    Except.ok { db with rows := db.rows.filter (fun l =>
      !(decide (l.ID = id) && decide (l.UserID = some userID))) }
  else Except.error "short link not found or unauthorized"

/-! ## The destination cache (Redis keys `link:...:destination`) -/

/-- One cached string with its optional time to live. -/
structure CacheEntry where
  value : String
  expiry : Option Nat
deriving DecidableEq, Repr

/-- The cached strings by key. -/
abbrev Cache := String → Option CacheEntry

/-- The key `fmt.Sprintf("link:%s:destination", shortCode)`. -/
def cacheKey (shortCode : String) : String :=
  "link:" ++ shortCode ++ ":destination"

/-- The entry visible under `key` at `now`. -/
def Cache.lookup (cache : Cache) (key : String) (now : Nat) : Option CacheEntry :=
  match cache key with
  | some e =>
    (match e.expiry with
     | none => some e
     | some t => if now < t then some e else none)
  | none => none

/-- The call `redisClient.Get(ctx, key).Result()`: the value when `err == nil`. -/
def cacheGet (f : Faults) (cache : Cache) (key : String) (now : Nat) : Option String :=
  if f.cacheGetErr then none
  else (cache.lookup key now).map (fun e => e.value)

/-- The call `redisClient.Set(ctx, key, value, ttl)`, its result ignored. -/
def cacheSet (f : Faults) (cache : Cache) (key value : String) (ttl now : Nat) : Cache :=
  if f.cacheSetErr then cache
  else Function.update cache key (some { value := value, expiry := some (now + ttl) })

/-- The call `redisClient.Del(ctx, key)`, its result ignored. -/
def cacheDel (f : Faults) (cache : Cache) (key : String) : Cache :=
  if f.cacheDelErr then cache
  else Function.update cache key none

/-! ## The link service (`internal/service/link_service.go`) -/

/-- The durable store and the cache the service works on. -/
structure World where
  db : LinkStore
  cache : Cache

/-- The struct `LinkService` without its handles. -/
structure LinkService where
  baseURL : String
deriving DecidableEq, Repr

/-- The retry loop of `CreateLink`: attempt `i` draws a code of 6 characters and
checks it; the first code reported absent ends the loop. The result is the
value of `shortCode` after the loop (empty when every attempt collided), or
the error of the random source. -/
def randomCode (f : Faults) (rand : Nat → Except String (Fin 62)) (db : LinkStore) :
    Nat → Nat → Except String String
  | _, 0 => Except.ok ""
  | i, fuel + 1 =>
    match GenerateShortCode rand (6 * i) 6 with
    | Except.error e => Except.error e
    | Except.ok code =>
      if !(db.ShortCodeExists f i code).1 then Except.ok code
      else randomCode f rand db (i + 1) fuel

/-- The code selection of `CreateLink` (lines 38 to 65). -/
def selectCode (x : Externals) (f : Faults) (rand : Nat → Except String (Fin 62))
    (db : LinkStore) (customSlug : Option String) : Except String String :=
  match customSlug with
  | some slug =>
    if slug ≠ "" then
      if !IsValidCustomSlug slug then
        Except.error "invalid custom slug: must be 3-20 alphanumeric characters"
      else
        let shortCode := SanitizeCustomSlug x slug
        if (db.ShortCodeExists f 0 shortCode).1 then Except.error "custom slug already taken"
        else Except.ok shortCode
    else
      match randomCode f rand db 0 5 with
      | Except.error e => Except.error e
      | Except.ok shortCode =>
        if shortCode = "" then Except.error "failed to generate unique short code"
        else Except.ok shortCode
  | none =>
    match randomCode f rand db 0 5 with
    | Except.error e => Except.error e
    | Except.ok shortCode =>
      if shortCode = "" then Except.error "failed to generate unique short code"
      else Except.ok shortCode

/-- The parse of an optional expiry (`req.ExpiresAt != nil && *req.ExpiresAt != ""`):
`ok none` when there is nothing to parse. -/
def parseExpiry (x : Externals) (expiresAt : Option String) : Except String (Option Nat) :=
  match expiresAt with
  | some str =>
    if str ≠ "" then
      match x.timeParse str with
      | some t => Except.ok (some t)
      | none => Except.error "invalid expiry date format"
    else Except.ok none
  | none => Except.ok none

/-- The method `LinkService.CreateLink`. -/
def LinkService.CreateLink (svc : LinkService) (x : Externals) (f : Faults)
    (rand : Nat → Except String (Fin 62)) (now : Nat) (w : World)
    (req : CreateLinkRequest) (userID : Option Int) : Except String LinkResponse × World :=
  match NormalizeURL x req.Destination with
  | none => (Except.error "invalid URL format", w)
  | some destination =>
    match selectCode x f rand w.db req.CustomSlug with
    | Except.error e => (Except.error e, w)
    | Except.ok shortCode =>
      match parseExpiry x req.ExpiresAt with
      | Except.error e => (Except.error e, w)
      | Except.ok expiresAt =>
        let link : ShortLink :=
          { ID := 0, ShortCode := shortCode, Destination := destination, UserID := userID,
            Title := req.Title, Description := req.Description, IsActive := true,
            ClickCount := 0, CreatedAt := 0, UpdatedAt := 0, ExpiresAt := expiresAt }
        match w.db.Create f now link with
        | Except.error _ => (Except.error "failed to create link", w)
        | Except.ok (stored, db') =>
          (Except.ok (stored.ToResponse svc.baseURL),
            { db := db', cache := cacheSet f w.cache (cacheKey shortCode) destination Hour now })

/-- The destination step of `UpdateLink` (lines 149 to 159): a requested
destination is normalised, replaces the current one and has the cache entry
of the code deleted; without one, destination and cache stay. -/
def updateDestination (x : Externals) (f : Faults) (cache : Cache) (shortCode : String)
    (current : String) (requested : Option String) : Except String (String × Cache) :=
  match requested with
  | some d =>
    match NormalizeURL x d with
    | none => Except.error "invalid URL format"
    | some destination => Except.ok (destination, cacheDel f cache (cacheKey shortCode))
  | none => Except.ok (current, cache)

/-- The method `LinkService.UpdateLink`; the assignments to the fields of `link`
are collected into the row handed to `Update`. -/
def LinkService.UpdateLink (_svc : LinkService) (x : Externals) (f : Faults) (now : Nat)
    (w : World) (shortCode : String) (userID : Int) (req : UpdateLinkRequest) :
    Except String Unit × World :=
  match w.db.FindByShortCode f shortCode with
  | Except.error _ => (Except.error "link not found", w)
  | Except.ok link =>
    if link.UserID ≠ some userID then (Except.error "unauthorized to update this link", w)
    else
      match updateDestination x f w.cache shortCode link.Destination req.Destination with
      | Except.error e => (Except.error e, w)
      | Except.ok (destination, cache1) =>
        let title := match req.Title with
          | some t => some t
          | none => link.Title
        let description := match req.Description with
          | some d => some d
          | none => link.Description
        let isActive := match req.IsActive with
          | some b => b
          | none => link.IsActive
        match parseExpiry x req.ExpiresAt with
        | Except.error e => (Except.error e, { w with cache := cache1 })
        | Except.ok parsed =>
          let expiresAt := match parsed with
            | some t => some t
            | none => link.ExpiresAt
          match w.db.Update f now
              { link with Destination := destination, Title := title, Description := description,
                          IsActive := isActive, ExpiresAt := expiresAt } with
          | Except.error _ => (Except.error "failed to update link", { w with cache := cache1 })
          | Except.ok db' => (Except.ok (), { db := db', cache := cache1 })

/-- The method `LinkService.DeleteLink`. -/
def LinkService.DeleteLink (_svc : LinkService) (f : Faults) (w : World)
    (shortCode : String) (userID : Int) : Except String Unit × World :=
  match w.db.FindByShortCode f shortCode with
  | Except.error _ => (Except.error "link not found", w)
  | Except.ok link =>
    if link.UserID ≠ some userID then (Except.error "unauthorized to delete this link", w)
    else
      match w.db.Delete f link.ID userID with
      | Except.error _ => (Except.error "failed to delete link", w)
      | Except.ok db' =>
        (Except.ok (), { db := db', cache := cacheDel f w.cache (cacheKey shortCode) })

/-- The method `LinkService.GetDestination`; `now` is both `time.Now()` and the
clock of the cache. -/
def LinkService.GetDestination (_svc : LinkService) (f : Faults) (now : Nat) (w : World)
    (shortCode : String) : Except String String × World :=
  match cacheGet f w.cache (cacheKey shortCode) now with
  | some cached => (Except.ok cached, w)
  | none =>
    match w.db.FindByShortCode f shortCode with
    | Except.error _ => (Except.error "link not found", w)
    | Except.ok link =>
      if !link.IsActive then (Except.error "link is inactive", w)
      else if (match link.ExpiresAt with
               | some t => decide (t < now)
               | none => false) then (Except.error "link has expired", w)
      else
        (Except.ok link.Destination,
          { w with cache := cacheSet f w.cache (cacheKey shortCode) link.Destination Hour now })

/-! ## Sequences of mutations -/

/-- The short codes of the stored links, in row order. -/
def LinkStore.codes (db : LinkStore) : List String :=
  db.rows.map (fun l => l.ShortCode)

/-- One mutating call of the link service with everything it is given. -/
inductive LinkOp where
  | create (f : Faults) (rand : Nat → Except String (Fin 62)) (now : Nat)
      (req : CreateLinkRequest) (userID : Option Int)
  | update (f : Faults) (now : Nat) (shortCode : String) (userID : Int)
      (req : UpdateLinkRequest)
  | delete (f : Faults) (shortCode : String) (userID : Int)

/-- The world a call leaves behind. -/
def LinkOp.run (svc : LinkService) (x : Externals) : LinkOp → World → World
  | LinkOp.create f rand now req userID, w => (svc.CreateLink x f rand now w req userID).2
  | LinkOp.update f now shortCode userID req, w =>
    (svc.UpdateLink x f now w shortCode userID req).2
  | LinkOp.delete f shortCode userID, w => (svc.DeleteLink f w shortCode userID).2

/-- No call of `ShortCodeExists` made by the operation fails. -/
def LinkOp.checksSucceed : LinkOp → Prop
  | LinkOp.create f _ _ _ _ => ∀ i, f.existsErr i = false
  | LinkOp.update _ _ _ _ _ => True
  | LinkOp.delete _ _ _ => True

/-- The calls of a list one after the other. -/
def runOps (svc : LinkService) (x : Externals) (ops : List LinkOp) (w : World) : World :=
  ops.foldl (fun acc op => op.run svc x acc) w

/-! ## Counting the calls of code selection -/

/-- The number of `GenerateShortCode` calls the retry loop of `CreateLink` makes
from attempt `i` on with `fuel` attempts left. -/
def randomAttempts (f : Faults) (rand : Nat → Except String (Fin 62)) (db : LinkStore) :
    Nat → Nat → Nat
  | _, 0 => 0
  | i, fuel + 1 =>
    match GenerateShortCode rand (6 * i) 6 with
    | Except.error _ => 1
    | Except.ok code =>
      if !(db.ShortCodeExists f i code).1 then 1
      else 1 + randomAttempts f rand db (i + 1) fuel

/-- The number of `ShortCodeExists` calls the retry loop of `CreateLink` makes. -/
def randomChecks (f : Faults) (rand : Nat → Except String (Fin 62)) (db : LinkStore) :
    Nat → Nat → Nat
  | _, 0 => 0
  | i, fuel + 1 =>
    match GenerateShortCode rand (6 * i) 6 with
    | Except.error _ => 0
    | Except.ok code =>
      if !(db.ShortCodeExists f i code).1 then 1
      else 1 + randomChecks f rand db (i + 1) fuel

/-- The number of `ShortCodeExists` calls the code selection of `CreateLink`
makes. -/
def existenceChecks (f : Faults) (rand : Nat → Except String (Fin 62)) (db : LinkStore)
    (customSlug : Option String) : Nat :=
  match customSlug with
  | some slug =>
    if slug ≠ "" then
      if !IsValidCustomSlug slug then 0 else 1
    else randomChecks f rand db 0 5
  | none => randomChecks f rand db 0 5

/-! ## Clicks (`models/click.go`, `click_repository.go`) -/

/-- The struct `models.Click`. -/
structure Click where
  ID : Int
  LinkID : Int
  IPAddress : String
  UserAgent : String
  Referer : Option String
  Country : Option String
  City : Option String
  DeviceType : Option String
  Browser : Option String
  OS : Option String
  ClickedAt : Nat
deriving DecidableEq, Repr

/-- The table `clicks`: its rows in insertion order and the next value of the
`id` sequence. -/
structure ClickStore where
  rows : List Click
  nextID : Int
deriving DecidableEq, Repr

/-- The method `ClickRepository.Create`: the `INSERT ... RETURNING id, clicked_at`.
Modelled from the spec: the schema of `clicks` is not among the sources; the new
row takes the next `id` and the current time as `clicked_at`. -/
def ClickStore.Create (cs : ClickStore) (f : Faults) (now : Nat) (click : Click) :
    Except String (Click × ClickStore) :=
  if f.clickInsertErr then Except.error "driver: bad connection"
  else
    let stored := { click with ID := cs.nextID, ClickedAt := now }
    Except.ok (stored, { rows := cs.rows ++ [stored], nextID := cs.nextID + 1 })

/-- The method `ShortLinkRepository.IncrementClickCount`: the
`UPDATE ... SET click_count = click_count + 1 WHERE id = $1`. -/
def LinkStore.IncrementClickCount (db : LinkStore) (f : Faults) (linkID : Int) :
    Except String LinkStore :=
  if f.incrErr then Except.error "driver: bad connection"
  else
    Except.ok { db with rows := db.rows.map (fun l =>
      if l.ID = linkID then { l with ClickCount := l.ClickCount + 1 } else l) }

/-- The analytics side of the stores: the table `clicks` and the ephemeral
counters under the Redis keys `link:...:clicks`. -/
structure Analytics where
  clicks : ClickStore
  counters : CounterStore

/-- The key `fmt.Sprintf("link:%s:clicks", shortCode)`. -/
def clicksKey (shortCode : String) : String :=
  "link:" ++ shortCode ++ ":clicks"

/-- The store calls of `RecordClick`, in the order of the source. -/
inductive RecordStep where
  | findLink
  | insertClick
  | incrementCount
  | incrementCounter
deriving DecidableEq, Repr

/-- What a call of `RecordClick` leaves behind: the returned error, the click
behind the pointer, both sides of the stores and the store calls that were
made. -/
structure RecordResult where
  result : Except String Unit
  click : Click
  world : World
  analytics : Analytics
  steps : List RecordStep

/-- The method `LinkService.RecordClick`. -/
def LinkService.RecordClick (_svc : LinkService) (f : Faults) (now : Nat) (w : World)
    (a : Analytics) (shortCode : String) (click : Click) : RecordResult :=
  match w.db.FindByShortCode f shortCode with
  | Except.error e =>
    { result := Except.error e, click := click, world := w, analytics := a,
      steps := [RecordStep.findLink] }
  | Except.ok link =>
    let click1 := { click with LinkID := link.ID }
    match a.clicks.Create f now click1 with
    | Except.error e =>
      { result := Except.error e, click := click1, world := w, analytics := a,
        steps := [RecordStep.findLink, RecordStep.insertClick] }
    | Except.ok (stored, clicks') =>
      let db' := match w.db.IncrementClickCount f link.ID with
        | Except.ok db1 => db1
        | Except.error _ => w.db
      let counters' :=
        if f.counterErr then a.counters else redisIncr a.counters (clicksKey shortCode) now
      { result := Except.ok (), click := stored, world := { w with db := db' },
        analytics := { clicks := clicks', counters := counters' },
        steps := [RecordStep.findLink, RecordStep.insertClick, RecordStep.incrementCount,
          RecordStep.incrementCounter] }

/-! ## The redirect handler (`internal/handler/redirect_handler.go`) -/

/-- The struct `utils.DeviceInfo`. -/
structure DeviceInfo where
  DeviceType : String
  Browser : String
  OS : String
deriving DecidableEq, Repr

/-- What `Redirect` reads from the request: the path parameter `shortCode`, the
`User-Agent` and `Referer` headers and the client's address. -/
structure RedirectRequest where
  shortCode : String
  userAgent : String
  referer : String
  clientIP : String
deriving DecidableEq, Repr

/-- The response written to the context: `message` is `response.NotFound(c, text)`
(the 404 of the handler's annotation), `redirect` is `c.Redirect(status, location)`. -/
inductive Response where
  | message (status : Nat) (text : String)
  | redirect (status : Nat) (location : String)
deriving DecidableEq, Repr

/-- What a call of `Redirect` leaves behind: the response, the click handed to
the recording goroutine (`none` when no goroutine was started), the lines the
goroutine logged and both sides of the stores once it has finished. -/
structure RedirectResult where
  response : Response
  recording : Option Click
  logs : List String
  world : World
  analytics : Analytics

/-- The click `Redirect` builds from the request and the parsed user agent. -/
def buildClick (deviceInfo : DeviceInfo) (req : RedirectRequest) : Click :=
  { ID := 0, LinkID := 0, IPAddress := req.clientIP, UserAgent := req.userAgent,
    Referer := if req.referer ≠ "" then some req.referer else none,
    Country := none, City := none, DeviceType := some deviceInfo.DeviceType,
    Browser := some deviceInfo.Browser, OS := some deviceInfo.OS, ClickedAt := 0 }

/-- The goroutine of `Redirect` with its deferred `recover`: `panic = some v` is a
run in which `RecordClick` panics with value `v` (taken to strike before any
store call); otherwise `RecordClick` runs under the faults `g`. The result is
the logged lines and the stores the goroutine leaves. -/
def recordTask (svc : LinkService) (g : Faults) (panic : Option String) (now : Nat)
    (w : World) (a : Analytics) (shortCode : String) (click : Click) :
    List String × World × Analytics :=
  match panic with
  | some v => (["Panic in analytics logging: " ++ v], w, a)
  | none =>
    let r := svc.RecordClick g now w a shortCode click
    match r.result with
    | Except.error e =>
      (["Failed to record click for " ++ shortCode ++ ": " ++ e], r.world, r.analytics)
    | Except.ok _ => ([], r.world, r.analytics)

/-- The method `RedirectHandler.Redirect`; `parseUserAgent` is `utils.ParseUserAgent`,
`f` the faults met by `GetDestination`, `g` and `panic` the fate of the recording
goroutine. -/
def Redirect (svc : LinkService) (parseUserAgent : String → DeviceInfo) (f g : Faults)
    (panic : Option String) (now : Nat) (w : World) (a : Analytics)
    (req : RedirectRequest) : RedirectResult :=
  match svc.GetDestination f now w req.shortCode with
  | (Except.error _, w1) =>
    { response := Response.message 404 "Link not found or expired", recording := none,
      logs := [], world := w1, analytics := a }
  | (Except.ok destination, w1) =>
    let click := buildClick (parseUserAgent req.userAgent) req
    let task := recordTask svc g panic now w1 a req.shortCode click
    { response := Response.redirect 302 destination, recording := some click,
      logs := task.1, world := task.2.1, analytics := task.2.2 }

/-! ## User agents (`internal/utils/useragent.go`) -/

/-- Whether the characters `sub` occur consecutively in the list. -/
def containsChars (sub : List Char) : List Char → Bool
  | [] => sub.isEmpty
  | c :: cs => sub.isPrefixOf (c :: cs) || containsChars sub cs

/-- The function `strings.Contains`. -/
def Contains (s substr : String) : Bool :=
  containsChars substr.toList s.toList

/-- The function `detectDeviceType`. -/
def detectDeviceType (x : Externals) (userAgent : String) : String :=
  let ua := ToLower x userAgent
  if Contains ua "mobile" || Contains ua "android" || Contains ua "iphone" ||
      Contains ua "ipod" then "mobile"
  else if Contains ua "tablet" || Contains ua "ipad" then "tablet"
  else "desktop"

/-- The map `browsers` of `detectBrowser`, in the order of its literal. -/
def browsers : List (String × String) :=
  [("edg/", "Edge"), ("chrome/", "Chrome"), ("safari/", "Safari"), ("firefox/", "Firefox"),
   ("opera/", "Opera"), ("opr/", "Opera"), ("trident/", "Internet Explorer")]

/-- The loop `for key, browser := range browsers` of `detectBrowser` over the
entries in the order the runtime hands them out, on the lower-cased user
agent. -/
def scanBrowsers (ua : String) : List (String × String) → String
  | [] => "Unknown"
  | (key, browser) :: rest =>
    if Contains ua key then
      if browser = "Safari" ∧ Contains ua "chrome/" then "Chrome" else browser
    else scanBrowsers ua rest

/-- The function `detectBrowser`; `order` is the order in which the range loop
visits the entries of the map `browsers`, any permutation of them. -/
def detectBrowser (x : Externals) (order : List (String × String)) (userAgent : String) :
    String :=
  scanBrowsers (ToLower x userAgent) order

/-- The function `detectOS`. -/
def detectOS (x : Externals) (userAgent : String) : String :=
  let ua := ToLower x userAgent
  if Contains ua "windows nt 10.0" then "Windows 10"
  else if Contains ua "windows nt 6.3" then "Windows 8.1"
  else if Contains ua "windows nt 6.2" then "Windows 8"
  else if Contains ua "windows nt 6.1" then "Windows 7"
  else if Contains ua "windows" then "Windows"
  else if Contains ua "mac os x" then "macOS"
  else if Contains ua "android" then "Android"
  else if Contains ua "iphone" || Contains ua "ipad" || Contains ua "ipod" then "iOS"
  else if Contains ua "linux" then "Linux"
  else "Unknown"

/-- The function `ParseUserAgent`. -/
def ParseUserAgent (x : Externals) (order : List (String × String)) (userAgent : String) :
    DeviceInfo :=
  { DeviceType := detectDeviceType x userAgent,
    Browser := detectBrowser x order userAgent,
    OS := detectOS x userAgent }

/-! ## Sequences of service calls -/

/-- The stored links have pairwise distinct ids, all below the next value of
the sequence. -/
def LinkStore.WF (db : LinkStore) : Prop :=
  (db.rows.map (fun l => l.ID)).Nodup ∧ ∀ l ∈ db.rows, l.ID < db.nextID

/-- The click counter of the stored link with the given id. -/
def LinkStore.countOf (db : LinkStore) (id : Int) : Option Int :=
  (db.rows.find? (fun l => decide (l.ID = id))).map (fun l => l.ClickCount)

/-- One call of the link service that touches the link store. -/
inductive ServiceOp where
  | mutate (op : LinkOp)
  | resolve (f : Faults) (now : Nat) (shortCode : String)
  | record (f : Faults) (now : Nat) (shortCode : String) (click : Click)

/-- The stores a call leaves behind. -/
def ServiceOp.run (svc : LinkService) (x : Externals) :
    ServiceOp → World × Analytics → World × Analytics
  | ServiceOp.mutate op, s => (op.run svc x s.1, s.2)
  | ServiceOp.resolve f now shortCode, s => ((svc.GetDestination f now s.1 shortCode).2, s.2)
  | ServiceOp.record f now shortCode click, s =>
    ((svc.RecordClick f now s.1 s.2 shortCode click).world,
      (svc.RecordClick f now s.1 s.2 shortCode click).analytics)

/-- The calls of a list one after the other. -/
def runService (svc : LinkService) (x : Externals) (ops : List ServiceOp)
    (s : World × Analytics) : World × Analytics :=
  ops.foldl (fun acc op => op.run svc x acc) s

/-- Every stored link of `db'` whose id was already issued in `db` is a link of
`db` whose click counter is related by `rel` to the new one, and the sequence
of ids has not moved back. -/
def LinkStore.countsRelated (rel : Int → Int → Prop) (db db' : LinkStore) : Prop :=
  db.nextID ≤ db'.nextID ∧
  ∀ l' ∈ db'.rows, l'.ID < db.nextID →
    ∃ l ∈ db.rows, l.ID = l'.ID ∧ rel l.ClickCount l'.ClickCount

/-! ## Dashboard growth (`ShortLinkRepository.GetDashboardStats`, lines 262 to 281) -/

/-- A division that is undefined for the divisor 0. -/
def checkedDiv (a b : ℚ) : Option ℚ :=
  if b = 0 then none else some (a / b)

/-- The growth step of `GetDashboardStats` in exact arithmetic: the field
`VisitsGrowth` keeps its zero value unless `lastWeekVisits > 0`, in which case it
becomes `((thisWeekVisits - lastWeekVisits) / lastWeekVisits) * 100`; `none` stands
for a division by zero. -/
def visitsGrowth (thisWeekVisits lastWeekVisits : Int) : Option ℚ :=
  if lastWeekVisits > 0 then
    (checkedDiv ((thisWeekVisits : ℚ) - (lastWeekVisits : ℚ)) (lastWeekVisits : ℚ)).map
      (fun q => q * 100)
  else some 0

/-! ## Interleaved calls of the link service

The methods of `LinkService` hold no lock and open no transaction: between two
of their calls to the store or to the cache another request may run. Each
method is cut here at those calls; a step is one call together with the local
code that precedes and follows it. -/

/-- Where a running `UpdateLink` stands: before the read of the row; with the
row read and the owner checked; with the cache delete done and the row to
write assembled; returned. -/
inductive UpdatePC where
  | start
  | found (link : ShortLink)
  | staged (row : ShortLink)
  | done (result : Except String Unit)

/-- One step of `UpdateLink`: `FindByShortCode` with the owner check (lines 140 to
147); the destination step with `redisClient.Del`, the assignments and the
expiry parse (lines 149 to 179); `linkRepo.Update` (lines 181 to 185). -/
def updateStep (x : Externals) (f : Faults) (now : Nat) (shortCode : String) (userID : Int)
    (req : UpdateLinkRequest) : UpdatePC → World → UpdatePC × World
  | UpdatePC.start, w =>
    match w.db.FindByShortCode f shortCode with
    | Except.error _ => (UpdatePC.done (Except.error "link not found"), w)
    | Except.ok link =>
      if link.UserID ≠ some userID then
        (UpdatePC.done (Except.error "unauthorized to update this link"), w)
      else (UpdatePC.found link, w)
  | UpdatePC.found link, w =>
    match updateDestination x f w.cache shortCode link.Destination req.Destination with
    | Except.error e => (UpdatePC.done (Except.error e), w)
    | Except.ok (destination, cache1) =>
      let title := match req.Title with
        | some t => some t
        | none => link.Title
      let description := match req.Description with
        | some d => some d
        | none => link.Description
      let isActive := match req.IsActive with
        | some b => b
        | none => link.IsActive
      match parseExpiry x req.ExpiresAt with
      | Except.error e => (UpdatePC.done (Except.error e), { w with cache := cache1 })
      | Except.ok parsed =>
        let expiresAt := match parsed with
          | some t => some t
          | none => link.ExpiresAt
        (UpdatePC.staged
            { link with Destination := destination, Title := title, Description := description,
                        IsActive := isActive, ExpiresAt := expiresAt },
          { w with cache := cache1 })
  | UpdatePC.staged row, w =>
    match w.db.Update f now row with
    | Except.error _ => (UpdatePC.done (Except.error "failed to update link"), w)
    | Except.ok db' => (UpdatePC.done (Except.ok ()), { w with db := db' })
  | UpdatePC.done result, w => (UpdatePC.done result, w)

/-- Where a running `GetDestination` stands: before the cache read; after a
miss; with the row read and checked; returned. -/
inductive ReadPC where
  | start
  | missed
  | loaded (destination : String)
  | done (result : Except String String)

/-- One step of `GetDestination`: `redisClient.Get` (lines 213 to 216);
`FindByShortCode` with the checks of the row (lines 218 to 229); `redisClient.Set`
(lines 231 to 233). -/
def readStep (f : Faults) (now : Nat) (shortCode : String) : ReadPC → World → ReadPC × World
  | ReadPC.start, w =>
    match cacheGet f w.cache (cacheKey shortCode) now with
    | some cached => (ReadPC.done (Except.ok cached), w)
    | none => (ReadPC.missed, w)
  | ReadPC.missed, w =>
    match w.db.FindByShortCode f shortCode with
    | Except.error _ => (ReadPC.done (Except.error "link not found"), w)
    | Except.ok link =>
      if !link.IsActive then (ReadPC.done (Except.error "link is inactive"), w)
      else if (match link.ExpiresAt with
               | some t => decide (t < now)
               | none => false) then (ReadPC.done (Except.error "link has expired"), w)
      else (ReadPC.loaded link.Destination, w)
  | ReadPC.loaded destination, w =>
    (ReadPC.done (Except.ok destination),
      { w with cache := cacheSet f w.cache (cacheKey shortCode) destination Hour now })
  | ReadPC.done result, w => (ReadPC.done result, w)

/-- Whose step comes next when an `UpdateLink` and a `GetDestination` run at the
same time. -/
inductive RaceTurn where
  | update
  | read
deriving DecidableEq, Repr

/-- An `UpdateLink` and a `GetDestination` under way on one world. -/
structure UpdateRace where
  update : UpdatePC
  read : ReadPC
  world : World

/-- The next step of the call whose turn it is. -/
def UpdateRace.step (x : Externals) (f : Faults) (now : Nat) (shortCode : String)
    (userID : Int) (req : UpdateLinkRequest) (st : UpdateRace) : RaceTurn → UpdateRace
  | RaceTurn.update =>
    { st with update := (updateStep x f now shortCode userID req st.update st.world).1,
              world := (updateStep x f now shortCode userID req st.update st.world).2 }
  | RaceTurn.read =>
    { st with read := (readStep f now shortCode st.read st.world).1,
              world := (readStep f now shortCode st.read st.world).2 }

/-- The two calls started on `w` and stepped in the order of the schedule. -/
def runUpdateRace (x : Externals) (f : Faults) (now : Nat) (shortCode : String) (userID : Int)
    (req : UpdateLinkRequest) (w : World) (schedule : List RaceTurn) : UpdateRace :=
  schedule.foldl (fun st t => st.step x f now shortCode userID req t)
    { update := UpdatePC.start, read := ReadPC.start, world := w }

/-- Where a running `CreateLink` stands: before the code selection; with the
code selected; with the row inserted; returned. -/
inductive CreatePC where
  | start
  | chosen (shortCode destination : String)
  | stored (link : ShortLink) (shortCode destination : String)
  | done (result : Except String LinkResponse)

/-- One step of `CreateLink`: the normalisation and the code selection, which
for a custom slug is the one call of `ShortCodeExists` (lines 33 to 65); the
expiry parse and `linkRepo.Create` (lines 67 to 88); `redisClient.Set` and the
response (lines 90 to 94). -/
def createStep (svc : LinkService) (x : Externals) (f : Faults)
    (rand : Nat → Except String (Fin 62)) (now : Nat) (req : CreateLinkRequest)
    (userID : Option Int) : CreatePC → World → CreatePC × World
  | CreatePC.start, w =>
    match NormalizeURL x req.Destination with
    | none => (CreatePC.done (Except.error "invalid URL format"), w)
    | some destination =>
      match selectCode x f rand w.db req.CustomSlug with
      | Except.error e => (CreatePC.done (Except.error e), w)
      | Except.ok shortCode => (CreatePC.chosen shortCode destination, w)
  | CreatePC.chosen shortCode destination, w =>
    match parseExpiry x req.ExpiresAt with
    | Except.error e => (CreatePC.done (Except.error e), w)
    | Except.ok expiresAt =>
      match w.db.Create f now
          { ID := 0, ShortCode := shortCode, Destination := destination, UserID := userID,
            Title := req.Title, Description := req.Description, IsActive := true,
            ClickCount := 0, CreatedAt := 0, UpdatedAt := 0, ExpiresAt := expiresAt } with
      | Except.error _ => (CreatePC.done (Except.error "failed to create link"), w)
      | Except.ok (stored, db') => (CreatePC.stored stored shortCode destination, { w with db := db' })
  | CreatePC.stored link shortCode destination, w =>
    (CreatePC.done (Except.ok (link.ToResponse svc.baseURL)),
      { w with cache := cacheSet f w.cache (cacheKey shortCode) destination Hour now })
  | CreatePC.done result, w => (CreatePC.done result, w)

/-- Whose step comes next when two `CreateLink` calls run at the same time. -/
inductive CreateTurn where
  | first
  | second
deriving DecidableEq, Repr

/-- Two `CreateLink` calls under way on one world. -/
structure CreateRace where
  first : CreatePC
  second : CreatePC
  world : World

/-- The next step of the call whose turn it is; the calls carry the same
request and differ in the user. -/
def CreateRace.step (svc : LinkService) (x : Externals) (f : Faults)
    (rand : Nat → Except String (Fin 62)) (now : Nat) (req : CreateLinkRequest)
    (user1 user2 : Option Int) (st : CreateRace) : CreateTurn → CreateRace
  | CreateTurn.first =>
    { st with first := (createStep svc x f rand now req user1 st.first st.world).1,
              world := (createStep svc x f rand now req user1 st.first st.world).2 }
  | CreateTurn.second =>
    { st with second := (createStep svc x f rand now req user2 st.second st.world).1,
              world := (createStep svc x f rand now req user2 st.second st.world).2 }

/-- The two calls started on `w` and stepped in the order of the schedule. -/
def runCreateRace (svc : LinkService) (x : Externals) (f : Faults)
    (rand : Nat → Except String (Fin 62)) (now : Nat) (req : CreateLinkRequest)
    (user1 user2 : Option Int) (w : World) (schedule : List CreateTurn) : CreateRace :=
  schedule.foldl (fun st t => st.step svc x f rand now req user1 user2 t)
    { first := CreatePC.start, second := CreatePC.start, world := w }

/-- The lists of length `n` over two turns. -/
def turnLists {α : Type} (a b : α) : Nat → List (List α)
  | 0 => [[]]
  | n + 1 => (turnLists a b n).map (fun l => a :: l) ++ (turnLists a b n).map (fun l => b :: l)

/-- The orders in which two calls of three steps each can be interleaved. -/
def interleavings {α : Type} [DecidableEq α] (a b : α) : List (List α) :=
  (turnLists a b 6).filter (fun l => decide (l.count a = 3))

/-- The error text of a result, `none` for a success. -/
def failureOf {α : Type} : Except String α → Option String
  | Except.error e => some e
  | Except.ok _ => none

/-- The result of a returned `CreateLink`, `none` while it is under way. -/
def CreatePC.result : CreatePC → Option (Except String LinkResponse)
  | CreatePC.done r => some r
  | _ => none

/-- The result of a returned `UpdateLink`, `none` while it is under way. -/
def UpdatePC.result : UpdatePC → Option (Except String Unit)
  | UpdatePC.done r => some r
  | _ => none

/-- The result of a returned `GetDestination`, `none` while it is under way. -/
def ReadPC.result : ReadPC → Option (Except String String)
  | ReadPC.done r => some r
  | _ => none

/-! ## Sample data -/

/-- Library stand-ins for the samples: every URL parses to itself, no date
parses, runes outside ASCII have no lower case. -/
def demoX : Externals :=
  { urlString := fun u => some u, timeParse := fun _ => none, lowerRune := fun ch => ch }

/-- The service behind `https://kd.io`. -/
def demoSvc : LinkService := { baseURL := "https://kd.io" }

/-- A link of user 7 that was deactivated and whose expiry (50) has passed. -/
def staleLink : ShortLink :=
  { ID := 1, ShortCode := "abc123", Destination := "https://old.example", UserID := some 7,
    Title := none, Description := none, IsActive := false, ClickCount := 0, CreatedAt := 10,
    UpdatedAt := 20, ExpiresAt := some 50 }

/-- A world whose store holds `staleLink` and whose cache still maps its code
to the destination, until 3000. -/
def staleWorld : World :=
  { db := { rows := [staleLink], nextID := 2, uniqueCodes := true },
    cache := fun k =>
      if k = "link:abc123:destination" then some ⟨"https://old.example", some 3000⟩ else none }

/-- An active link of user 7 without expiry. -/
def liveLink : ShortLink :=
  { ID := 1, ShortCode := "abc123", Destination := "https://old.example", UserID := some 7,
    Title := none, Description := none, IsActive := true, ClickCount := 0, CreatedAt := 10,
    UpdatedAt := 10, ExpiresAt := none }

/-- A world whose store holds `liveLink`, with an empty cache. -/
def liveWorld : World :=
  { db := { rows := [liveLink], nextID := 2, uniqueCodes := true }, cache := fun _ => none }

/-- An empty store and an empty cache. -/
def emptyWorld : World :=
  { db := { rows := [], nextID := 1, uniqueCodes := true }, cache := fun _ => none }

/-- A request for `example.com/a` under the custom slug `Promo1`. -/
def demoCreate : CreateLinkRequest :=
  { Destination := "example.com/a", CustomSlug := some "Promo1", Title := none,
    Description := none, ExpiresAt := none }

/-- The response to `demoCreate` by user 7 at instant 100 on an empty store. -/
def demoResp : LinkResponse :=
  { ID := 1, ShortCode := "promo1", ShortURL := "https://kd.io/promo1",
    Destination := "https://example.com/a", Title := none, Description := none,
    IsActive := true, ClickCount := 0, CreatedAt := 100, ExpiresAt := none }

/-- An update of user 7 that sets a new destination and deactivates the link. -/
def deactivatingUpdate : UpdateLinkRequest :=
  { Destination := some "https://new.example", Title := none, Description := none,
    IsActive := some false, ExpiresAt := none }

/-- An update of user 7 that only sets a new destination. -/
def retargetingUpdate : UpdateLinkRequest :=
  { Destination := some "https://new.example", Title := none, Description := none,
    IsActive := none, ExpiresAt := none }

/-- A random source that always draws index 0. -/
def zeroRand : Nat → Except String (Fin 62) := fun _ => Except.ok 0

/-- No analytics yet: an empty table of clicks and no counters. -/
def emptyAnalytics : Analytics :=
  { clicks := { rows := [], nextID := 1 }, counters := fun _ => none }

/-- A request for the code of `liveLink` from a desktop browser. -/
def demoRedirect : RedirectRequest :=
  { shortCode := "abc123", userAgent := "Mozilla/5.0", referer := "", clientIP := "198.51.100.4" }

/-- A user-agent parser that knows nothing. -/
def demoParse : String → DeviceInfo :=
  fun _ => { DeviceType := "desktop", Browser := "Unknown", OS := "Unknown" }

/-- Library stand-ins that, like `url.Parse`, reject a URL with a space in it. -/
def strictX : Externals :=
  { urlString := fun u => if u.toList.contains ' ' then none else some u,
    timeParse := fun _ => none, lowerRune := fun ch => ch }

/-- A request whose destination has a space in the host and whose custom slug
is too short and not alphanumeric. -/
def badCreate : CreateLinkRequest :=
  { Destination := "exa mple.com", CustomSlug := some "a!", Title := none,
    Description := none, ExpiresAt := none }

/-- A store that already holds `aaaaaa`, the only code `zeroRand` generates. -/
def collidingWorld : World :=
  { db := { rows := [{ liveLink with ShortCode := "aaaaaa" }], nextID := 2, uniqueCodes := true },
    cache := fun _ => none }

/-- The click `Redirect` builds for `demoRedirect`. -/
def demoClick : Click := buildClick (demoParse demoRedirect.userAgent) demoRedirect

/-- A run in which the insert of the click row fails. -/
def clickInsertFails : Faults := { noFaults with clickInsertErr := true }

/-- The user agent of Edge 120 on Windows 10. -/
def edgeUA : String :=
  "Mozilla/5.0 (Windows NT 10.0; Win64; x64) AppleWebKit/537.36 (KHTML, like Gecko) Chrome/120.0.0.0 Safari/537.36 Edg/120.0.0.0"

/-- The user agent of Chrome 120 on an Android phone. -/
def chromeAndroidUA : String :=
  "Mozilla/5.0 (Linux; Android 10; K) AppleWebKit/537.36 (KHTML, like Gecko) Chrome/120.0.0.0 Mobile Safari/537.36"

/-- The user agent of the stock browser of Android 4. -/
def androidBrowserUA : String :=
  "Mozilla/5.0 (Linux; U; Android 4.0.3; de-de) AppleWebKit/534.30 (KHTML, like Gecko) Version/4.0 Mobile Safari/534.30"

/-- A user agent that names `Mobile Safari` without a version. -/
def bareMobileSafariUA : String :=
  "Mozilla/5.0 (Linux; U; Android 4.0.3) AppleWebKit/534.30 (KHTML, like Gecko) Mobile Safari"

/-- An order of the map `browsers` that visits `chrome/` first. -/
def chromeFirst : List (String × String) :=
  [("chrome/", "Chrome"), ("edg/", "Edge"), ("safari/", "Safari"), ("firefox/", "Firefox"),
   ("opera/", "Opera"), ("opr/", "Opera"), ("trident/", "Internet Explorer")]

/-- The counting store after the request of `demoCtx` at 0 through the limiter
with limit 3 and a window of one minute. -/
def openedStore : CounterStore :=
  (RateLimiter.Limit ⟨3, 60000⟩ noRedisFaults 0 (fun _ => none) demoCtx).store

/-- The counting store after a second request whose `GET` is answered at 59999 and
whose pipeline runs at 60000. -/
def racedStore : CounterStore :=
  (RateLimiter.LimitAt ⟨3, 60000⟩ noRedisFaults 59999 60000 openedStore demoCtx).store

/-- A world whose store holds the active `liveLink` and whose cache maps its code
to the destination, until 3000. -/
def cachedWorld : World :=
  { db := liveWorld.db, cache := staleWorld.cache }

/-- An update that only deactivates the link. -/
def switchOffUpdate : UpdateLinkRequest :=
  { Destination := none, Title := none, Description := none, IsActive := some false,
    ExpiresAt := none }

/-- The race of C24: the update steps twice (row read, cache entry deleted), the
resolution runs from its cache miss to its cache write, the update writes the row. -/
def staleSchedule : List RaceTurn :=
  [RaceTurn.update, RaceTurn.update, RaceTurn.read, RaceTurn.read, RaceTurn.read,
    RaceTurn.update]

/-- The race of C25: both calls check the slug before either inserts. -/
def doubleCheckSchedule : List CreateTurn :=
  [CreateTurn.first, CreateTurn.second, CreateTurn.first, CreateTurn.second, CreateTurn.first,
    CreateTurn.second]

/-! # Properties -/

/-! ## The rate limiter -/

theorem lookup_of_live {s : CounterStore} {key : String} {now : Nat} {e : Counter}
    (h : s key = some e) (hl : e.live now = true) : s.lookup key now = some e := by
  simp [CounterStore.lookup, h, hl]

theorem lookup_of_dead {s : CounterStore} {key : String} {now : Nat} {e : Counter}
    (h : s key = some e) (hl : e.live now = false) : s.lookup key now = none := by
  simp [CounterStore.lookup, h, hl]

theorem lookup_of_none {s : CounterStore} {key : String} {now : Nat}
    (h : s key = none) : s.lookup key now = none := by
  simp [CounterStore.lookup, h]

/-- A window of whole seconds is the time to live of the key. -/
theorem expireSpan_seconds (k : Nat) : expireSpan (1000 * k) = 1000 * k := by
  simp only [expireSpan, formatSec]
  split_ifs with h
  · omega
  · rw [Nat.mul_div_cancel_left k (by decide)]

/-- The time to live of the key: one second for a positive window below one
second, otherwise the whole seconds of the window. -/
theorem expireSpan_cases (d : Nat) :
    (0 < d → d < 1000 → expireSpan d = 1000) ∧
    (1000 ≤ d → expireSpan d = 1000 * (d / 1000)) ∧
    (1 ≤ d → 1000 ≤ expireSpan d) ∧ expireSpan 0 = 0 := by
  simp only [expireSpan, formatSec]
  refine ⟨?_, ?_, ?_, by decide⟩
  · intro h1 h2
    rw [if_pos ⟨h1, h2⟩]
  · intro h
    rw [if_neg (by omega)]
  · intro h
    split_ifs with hc
    · omega
    · have : 1 ≤ d / 1000 := by
        rw [Nat.le_div_iff_mul_le (by decide)]
        omega
      omega

/-- A request that finds no visible key is let through when the limit is
positive, and opens a window: the key holds 1 and expires after the whole
seconds of `window`. -/
theorem countRequest_fresh (maxRequests : Int) (window : Nat) (message key : String)
    (now : Nat) (s : CounterStore) (hmax : 1 ≤ maxRequests)
    (h : s.lookup key now = none) :
    (countRequest maxRequests window message key noRedisFaults now s).outcome = Outcome.next ∧
    (countRequest maxRequests window message key noRedisFaults now s).store
      = Function.update s key (some { count := 1, expiry := some (now + expireSpan window) }) := by
  have h0 : ¬ (0 : Int) ≥ maxRequests := by omega
  have h1 : CounterStore.lookup (Function.update s key (some (Counter.mk 1 none))) key now
      = some (Counter.mk 1 none) := by
    apply lookup_of_live
    · simp
    · rfl
  simp [countRequest, countRequestAt, redisGetInt, noRedisFaults, h, h0, runPipeline, redisIncr, redisExpire, h1]

/-- A request that reads a positive count below the limit is let through and
adds 1 to the count, leaving the expiry alone. -/
theorem countRequest_below (maxRequests : Int) (window : Nat) (message key : String)
    (now : Nat) (s : CounterStore) (e : Counter) (h : s.lookup key now = some e)
    (hlt : e.count < maxRequests) (hpos : e.count ≠ 0) :
    (countRequest maxRequests window message key noRedisFaults now s).outcome = Outcome.next ∧
    (countRequest maxRequests window message key noRedisFaults now s).store
      = Function.update s key (some { e with count := e.count + 1 }) := by
  have h0 : ¬ e.count ≥ maxRequests := by omega
  simp [countRequest, countRequestAt, redisGetInt, noRedisFaults, h, h0, runPipeline, redisIncr, hpos]

/-- A request that reads a count at or above the limit is answered 429 and
the store stays as it was. -/
theorem countRequest_full (maxRequests : Int) (window : Nat) (message key : String)
    (now : Nat) (s : CounterStore) (e : Counter) (h : s.lookup key now = some e)
    (hge : maxRequests ≤ e.count) :
    (countRequest maxRequests window message key noRedisFaults now s).outcome
      = Outcome.abort 429 message ∧
    (countRequest maxRequests window message key noRedisFaults now s).store = s := by
  simp [countRequest, countRequestAt, redisGetInt, noRedisFaults, h, hge]

theorem serve_append (r : RateLimiter) (c : Ctx) :
    ∀ (xs ys : List Nat) (s : CounterStore),
      serve r c s (xs ++ ys)
        = ((serve r c s xs).1 ++ (serve r c (serve r c s xs).2 ys).1,
           (serve r c (serve r c s xs).2 ys).2) := by
  intro xs
  induction xs with
  | nil => intro ys s; simp [serve]
  | cons x xs ih => intro ys s; simp [serve, ih]

/-- Inside an open window every request is let through while the count stays
within the limit, and the expiry of the window does not move. -/
theorem serve_fill (r : RateLimiter) (c : Ctx) (e : Nat) :
    ∀ (ts : List Nat) (k : Int) (s : CounterStore),
      s (limitKey c) = some ⟨k, some e⟩ → 1 ≤ k → k + ts.length ≤ r.maxRequests →
      (∀ t ∈ ts, t < e) →
      (serve r c s ts).1 = ts.map (fun t => (t, Outcome.next)) ∧
      (serve r c s ts).2 (limitKey c) = some ⟨k + ts.length, some e⟩ := by
  intro ts
  induction ts with
  | nil => intro k s hs _ _ _; simp [serve, hs]
  | cons t ts ih =>
    intro k s hs hk hle hlt
    have ht : t < e := hlt t (List.mem_cons_self t ts)
    have hlook : s.lookup (limitKey c) t = some ⟨k, some e⟩ :=
      lookup_of_live hs (by simp [Counter.live, ht])
    have hlen : ((t :: ts).length : Int) = (ts.length : Int) + 1 := by simp
    obtain ⟨ho, hst⟩ := countRequest_below r.maxRequests r.window limitMessage (limitKey c) t s
      ⟨k, some e⟩ hlook (by simp only; omega) (by simp only; omega)
    have hnext : (r.Limit noRedisFaults t s c).store (limitKey c) = some ⟨k + 1, some e⟩ := by
      simp [RateLimiter.Limit, hst]
    obtain ⟨h1, h2⟩ := ih (k + 1) (r.Limit noRedisFaults t s c).store hnext (by omega)
      (by omega) (fun x hx => hlt x (List.mem_cons_of_mem t hx))
    refine ⟨?_, ?_⟩
    · simp only [serve, List.map_cons, h1]
      simp [RateLimiter.Limit, ho]
    · simp only [serve, h2, hlen]
      congr 2
      omega

/-- C1 as stated fails: with limit 1 and a window of 1500 milliseconds the key
gets a time to live of one second, so it expires one second after the first
request; the request at 1200, inside the window of the limiter, is let
through, and the request at 1500, made once the window has elapsed since the
first one, is answered 429. -/
theorem window_cut_to_whole_seconds :
    (serve ⟨1, 1500⟩ demoCtx (fun _ => none) [0, 1200, 1500]).1
      = [(0, Outcome.next), (1200, Outcome.next), (1500, Outcome.abort 429 limitMessage)] := by
  decide

/-- C1, as the code has it. The key lives for E, the time to live `pipe.Expire`
gives it: the window W itself when W is a whole number of seconds, one second
for a positive W below one second, and otherwise W cut to whole seconds. With
limit N at least 1, for sequential requests that each make both round trips
to the store at one instant, starting from a store without the caller's
counter key: the first request (at `t0`) and the N-1 requests that follow it within E of
it (`ts`, N = length of `ts` + 1) are all let through, the (N+1)-th request,
still within E of the first (`tn`), is answered 429 with the rate-limit
message, and a request made once E has elapsed since the first one (`ta`) is
let through again. -/
theorem rateLimit_window_contract (r : RateLimiter) (c : Ctx) (s : CounterStore) (t0 : Nat)
    (ts : List Nat) (tn ta : Nat)
    (hmax : r.maxRequests = (ts.length : Int) + 1)
    (hs : s (limitKey c) = none)
    (hts : ∀ t ∈ ts, t0 ≤ t ∧ t < t0 + expireSpan r.window)
    (htn : t0 ≤ tn ∧ tn < t0 + expireSpan r.window)
    (hta : t0 + expireSpan r.window ≤ ta) :
    (serve r c s (t0 :: ts ++ [tn, ta])).1
      = (t0 :: ts).map (fun t => (t, Outcome.next))
        ++ [(tn, Outcome.abort 429 limitMessage), (ta, Outcome.next)] ∧
    (∀ k, r.window = 1000 * k → expireSpan r.window = r.window) ∧
    (0 < r.window → r.window < 1000 → expireSpan r.window = 1000) ∧
    (1000 ≤ r.window → expireSpan r.window = 1000 * (r.window / 1000)) := by
  refine ⟨?_, fun k hk => by rw [hk, expireSpan_seconds], (expireSpan_cases r.window).1,
    (expireSpan_cases r.window).2.1⟩
  obtain ⟨ho, hst⟩ := countRequest_fresh r.maxRequests r.window limitMessage (limitKey c) t0 s
    (by omega) (lookup_of_none hs)
  have hk1 : (r.Limit noRedisFaults t0 s c).store (limitKey c)
      = some ⟨1, some (t0 + expireSpan r.window)⟩ := by
    simp [RateLimiter.Limit, hst]
  obtain ⟨h1, h2⟩ := serve_fill r c (t0 + expireSpan r.window) ts 1 _ hk1 (le_refl _) (by omega)
    (fun t ht => (hts t ht).2)
  have hfull : CounterStore.lookup (serve r c (r.Limit noRedisFaults t0 s c).store ts).2
      (limitKey c) tn = some ⟨1 + ts.length, some (t0 + expireSpan r.window)⟩ :=
    lookup_of_live h2 (by simp [Counter.live, htn.2])
  obtain ⟨hdo, hds⟩ := countRequest_full r.maxRequests r.window limitMessage (limitKey c) tn
    _ _ hfull (by simp only; omega)
  have hdead : CounterStore.lookup (serve r c (r.Limit noRedisFaults t0 s c).store ts).2
      (limitKey c) ta = none :=
    lookup_of_dead h2 (by simp [Counter.live]; omega)
  obtain ⟨hao, _⟩ := countRequest_fresh r.maxRequests r.window limitMessage (limitKey c) ta
    _ (by omega) hdead
  have hsplit : t0 :: ts ++ [tn, ta] = t0 :: (ts ++ [tn, ta]) := rfl
  rw [hsplit]
  simp only [serve, serve_append, h1, List.map_cons, RateLimiter.Limit] at *
  simp [ho, hdo, hds, hao]

/-- The contract of C1 at limit 3 and a window of one minute: requests at 100,
110 and 60099 pass, the one at 60099 after them is rejected, the one at 60100
passes. -/
theorem rateLimit_window_contract_witness :
    (serve ⟨3, 60000⟩ demoCtx (fun _ => none)
        (100 :: [110, 60099] ++ [60099, 60100])).1
      = (100 :: [110, 60099]).map (fun t => (t, Outcome.next))
        ++ [(60099, Outcome.abort 429 limitMessage), (60100, Outcome.next)] :=
  (rateLimit_window_contract ⟨3, 60000⟩ demoCtx (fun _ => none) 100 [110, 60099] 60099 60100
    (by decide) rfl (by decide) (by decide) (by decide)).1

/-- C2. When the count the caller's key holds is at or above the limit and the
read itself does not fail, a request through `Limit`, and likewise through
`LimitByEndpoint`, is answered 429 and the counting store (count and expiry
of every key) is exactly what it was; more generally every request that is
not let through leaves the store as it was. -/
theorem denied_request_leaves_store (r : RateLimiter) (f : RedisFaults) (now : Nat)
    (s : CounterStore) (c : Ctx) (hf : f.getErr = false) :
    (r.maxRequests ≤ s.countAt (limitKey c) now →
      (r.Limit f now s c).outcome = Outcome.abort 429 limitMessage ∧
      (r.Limit f now s c).store = s) ∧
    (∀ (m : Int) (w : Nat), m ≤ s.countAt (endpointKey c) now →
      (r.LimitByEndpoint m w f now s c).outcome = Outcome.abort 429 endpointMessage ∧
      (r.LimitByEndpoint m w f now s c).store = s) ∧
    ((r.Limit f now s c).outcome ≠ Outcome.next → (r.Limit f now s c).store = s) ∧
    (∀ (m : Int) (w : Nat), (r.LimitByEndpoint m w f now s c).outcome ≠ Outcome.next →
      (r.LimitByEndpoint m w f now s c).store = s) := by
  refine ⟨?_, ?_, ?_, ?_⟩
  · intro h
    unfold CounterStore.countAt at h
    cases hl : s.lookup (limitKey c) now <;>
      simp_all [RateLimiter.Limit, countRequest, countRequestAt, redisGetInt]
  · intro m w h
    unfold CounterStore.countAt at h
    cases hl : s.lookup (endpointKey c) now <;>
      simp_all [RateLimiter.LimitByEndpoint, countRequest, countRequestAt, redisGetInt]
  · intro h
    simp only [RateLimiter.Limit, countRequest, countRequestAt] at h ⊢
    split_ifs at h ⊢ <;> simp_all
  · intro m w h
    simp only [RateLimiter.LimitByEndpoint, countRequest, countRequestAt] at h ⊢
    split_ifs at h ⊢ <;> simp_all

/-- C2 at a concrete store: the key holds 3 with limit 3, the request is
answered 429 and the store is untouched. -/
theorem denied_request_leaves_store_witness :
    (RateLimiter.Limit ⟨3, 60⟩ noRedisFaults 120 demoFullStore demoCtx).outcome
      = Outcome.abort 429 limitMessage ∧
    (RateLimiter.Limit ⟨3, 60⟩ noRedisFaults 120 demoFullStore demoCtx).store = demoFullStore :=
  (denied_request_leaves_store ⟨3, 60⟩ noRedisFaults 120 demoFullStore demoCtx rfl).1
    (by decide)

/-- C3. `Limit` fails open: a read of the counter that fails with an error other
than `redis.Nil` lets the request through, a failing increment/expire pipeline
lets it through, and the request is answered 429 exactly when the read gave
no such error and the count read is at or above the limit. -/
theorem limit_fails_open (r : RateLimiter) (f : RedisFaults) (now : Nat)
    (s : CounterStore) (c : Ctx) :
    ((redisGetInt f s (limitKey c) now).2 = RedisErr.other →
      (r.Limit f now s c).outcome = Outcome.next) ∧
    ((r.Limit f now s c).pipeErr = true → (r.Limit f now s c).outcome = Outcome.next) ∧
    ((r.Limit f now s c).outcome ≠ Outcome.next ↔
      (redisGetInt f s (limitKey c) now).2 ≠ RedisErr.other ∧
      r.maxRequests ≤ (redisGetInt f s (limitKey c) now).1) ∧
    ((r.Limit f now s c).outcome = Outcome.next ∨
      (r.Limit f now s c).outcome = Outcome.abort 429 limitMessage) := by
  simp only [RateLimiter.Limit, countRequest, countRequestAt, redisGetInt]
  cases hg : f.getErr <;> cases hl : s.lookup (limitKey c) now <;>
    simp <;> split_ifs <;> simp_all

/-! ## The burst bound of the fixed window -/

theorem serve_cons (r : RateLimiter) (c : Ctx) (s : CounterStore) (t : Nat) (ts : List Nat) :
    serve r c s (t :: ts)
      = ((t, (r.Limit noRedisFaults t s c).outcome)
            :: (serve r c (r.Limit noRedisFaults t s c).store ts).1,
          (serve r c (r.Limit noRedisFaults t s c).store ts).2) := rfl

theorem limit_fresh (r : RateLimiter) (c : Ctx) (s : CounterStore) (t : Nat)
    (hN : 1 ≤ r.maxRequests) (h : s.lookup (limitKey c) t = none) :
    (r.Limit noRedisFaults t s c).outcome = Outcome.next ∧
    (r.Limit noRedisFaults t s c).store (limitKey c) = some ⟨1, some (t + expireSpan r.window)⟩ := by
  obtain ⟨ho, hst⟩ := countRequest_fresh r.maxRequests r.window limitMessage (limitKey c) t s hN h
  exact ⟨ho, by simp [RateLimiter.Limit, hst]⟩

theorem limit_below (r : RateLimiter) (c : Ctx) (s : CounterStore) (t : Nat) (k : Int) (e : Nat)
    (hs : s (limitKey c) = some ⟨k, some e⟩) (ht : t < e) (hk : 1 ≤ k)
    (hlt : k < r.maxRequests) :
    (r.Limit noRedisFaults t s c).outcome = Outcome.next ∧
    (r.Limit noRedisFaults t s c).store (limitKey c) = some ⟨k + 1, some e⟩ := by
  have hlook : s.lookup (limitKey c) t = some ⟨k, some e⟩ :=
    lookup_of_live hs (by simp [Counter.live, ht])
  obtain ⟨ho, hst⟩ := countRequest_below r.maxRequests r.window limitMessage (limitKey c) t s
    ⟨k, some e⟩ hlook hlt (by simp only; omega)
  exact ⟨ho, by simp [RateLimiter.Limit, hst]⟩

theorem limit_full (r : RateLimiter) (c : Ctx) (s : CounterStore) (t : Nat) (k : Int) (e : Nat)
    (hs : s (limitKey c) = some ⟨k, some e⟩) (ht : t < e) (hge : r.maxRequests ≤ k) :
    (r.Limit noRedisFaults t s c).outcome = Outcome.abort 429 limitMessage ∧
    (r.Limit noRedisFaults t s c).store = s := by
  have hlook : s.lookup (limitKey c) t = some ⟨k, some e⟩ :=
    lookup_of_live hs (by simp [Counter.live, ht])
  exact countRequest_full r.maxRequests r.window limitMessage (limitKey c) t s ⟨k, some e⟩
    hlook hge

theorem allowedIn_cons_le (a b : Nat) (p : Nat × Outcome) (log : List (Nat × Outcome)) :
    allowedIn a b (p :: log) ≤ 1 + allowedIn a b log := by
  simp only [allowedIn, List.filter_cons]
  split_ifs
  · simp; omega
  · simp

theorem allowedIn_cons_skip (a b : Nat) (p : Nat × Outcome) (log : List (Nat × Outcome))
    (h : ¬ (p.2 = Outcome.next ∧ a ≤ p.1 ∧ p.1 ≤ b)) :
    allowedIn a b (p :: log) = allowedIn a b log := by
  simp only [allowedIn, List.filter_cons]
  split_ifs with hc
  · exfalso; apply h; simpa [and_assoc] using hc
  · rfl

/-- Requests made after the end of the interval are not counted in it. -/
theorem allowedIn_serve_late (r : RateLimiter) (c : Ctx) (a b : Nat) :
    ∀ (ts : List Nat) (s : CounterStore), (∀ t ∈ ts, b < t) →
      allowedIn a b (serve r c s ts).1 = 0 := by
  intro ts
  induction ts with
  | nil => intro s _; rfl
  | cons t ts ih =>
    intro s h
    rw [serve_cons, allowedIn_cons_skip]
    · exact ih _ (fun x hx => h x (List.mem_cons_of_mem t hx))
    · have := h t (List.mem_cons_self t ts)
      simp only [not_and]
      omega

/-- While the open window outlasts the interval, the requests let through in
the interval are at most the budget the window has left. -/
theorem cover_bound (r : RateLimiter) (c : Ctx) (a b : Nat) :
    ∀ (ts : List Nat), ts.Pairwise (· ≤ ·) → ∀ (k : Int) (e : Nat) (s : CounterStore),
      s (limitKey c) = some ⟨k, some e⟩ → 1 ≤ k → k ≤ r.maxRequests → b < e →
      (allowedIn a b (serve r c s ts).1 : Int) ≤ r.maxRequests - k := by
  intro ts
  induction ts with
  | nil => intro _ k e s _ _ _ _; simp [serve, allowedIn]; omega
  | cons t ts ih =>
    intro hsorted k e s hs hk hkN hbe
    rw [List.pairwise_cons] at hsorted
    obtain ⟨hle, hsorted'⟩ := hsorted
    by_cases htb : b < t
    · have h0 : allowedIn a b (serve r c s (t :: ts)).1 = 0 := by
        apply allowedIn_serve_late
        intro x hx
        rcases List.mem_cons.mp hx with rfl | hx
        · exact htb
        · have := hle x hx; omega
      omega
    · have hte : t < e := by omega
      by_cases hfull : r.maxRequests ≤ k
      · obtain ⟨ho, hst⟩ := limit_full r c s t k e hs hte hfull
        have hrec := ih hsorted' k e s hs hk hkN hbe
        rw [serve_cons, hst, allowedIn_cons_skip _ _ _ _ (by simp [ho])]
        exact hrec
      · obtain ⟨_, hst⟩ := limit_below r c s t k e hs hte hk (by omega)
        have hrec := ih hsorted' (k + 1) e _ hst (by omega) (by omega) hbe
        rw [serve_cons]
        have h1 := allowedIn_cons_le a b (t, (r.Limit noRedisFaults t s c).outcome)
          (serve r c (r.Limit noRedisFaults t s c).store ts).1
        simp only at h1 ⊢
        omega

/-- While the window that follows the open one outlasts the interval, the
requests let through in the interval are at most the budget left in the open
window plus one full budget. -/
theorem successor_bound (r : RateLimiter) (c : Ctx) (a b : Nat) (hN : 1 ≤ r.maxRequests) :
    ∀ (ts : List Nat), ts.Pairwise (· ≤ ·) → ∀ (k : Int) (e : Nat) (s : CounterStore),
      s (limitKey c) = some ⟨k, some e⟩ → 1 ≤ k → k ≤ r.maxRequests → b < e + expireSpan r.window →
      (allowedIn a b (serve r c s ts).1 : Int) ≤ (r.maxRequests - k) + r.maxRequests := by
  intro ts
  induction ts with
  | nil => intro _ k e s _ _ _ _; simp [serve, allowedIn]; omega
  | cons t ts ih =>
    intro hsorted k e s hs hk hkN hbe
    have hsorted0 := hsorted
    rw [List.pairwise_cons] at hsorted
    obtain ⟨hle, hsorted'⟩ := hsorted
    by_cases htb : b < t
    · have h0 : allowedIn a b (serve r c s (t :: ts)).1 = 0 := by
        apply allowedIn_serve_late
        intro x hx
        rcases List.mem_cons.mp hx with rfl | hx
        · exact htb
        · have := hle x hx; omega
      omega
    · by_cases hte : t < e
      · by_cases hfull : r.maxRequests ≤ k
        · obtain ⟨ho, hst⟩ := limit_full r c s t k e hs hte hfull
          have hrec := ih hsorted' k e s hs hk hkN hbe
          rw [serve_cons, hst, allowedIn_cons_skip _ _ _ _ (by simp [ho])]
          exact hrec
        · obtain ⟨_, hst⟩ := limit_below r c s t k e hs hte hk (by omega)
          have hrec := ih hsorted' (k + 1) e _ hst (by omega) (by omega) hbe
          rw [serve_cons]
          have h1 := allowedIn_cons_le a b (t, (r.Limit noRedisFaults t s c).outcome)
            (serve r c (r.Limit noRedisFaults t s c).store ts).1
          simp only at h1 ⊢
          omega
      · have hdead : s.lookup (limitKey c) t = none :=
          lookup_of_dead hs (by simp [Counter.live]; omega)
        obtain ⟨_, hst⟩ := limit_fresh r c s t hN hdead
        have hrec := cover_bound r c a b ts hsorted' 1 (t + expireSpan r.window) _ hst (le_refl _) hN
          (by omega)
        rw [serve_cons]
        have h1 := allowedIn_cons_le a b (t, (r.Limit noRedisFaults t s c).outcome)
          (serve r c (r.Limit noRedisFaults t s c).store ts).1
        simp only at h1 ⊢
        omega

/-- Every request keeps the caller's key either absent or holding a count
between 1 and the limit together with an expiry. -/
theorem limit_keeps_window (r : RateLimiter) (c : Ctx) (s : CounterStore) (t : Nat)
    (hN : 1 ≤ r.maxRequests)
    (hinv : s (limitKey c) = none ∨
      ∃ (k : Int) (e : Nat), s (limitKey c) = some ⟨k, some e⟩ ∧ 1 ≤ k ∧ k ≤ r.maxRequests) :
    (r.Limit noRedisFaults t s c).store (limitKey c) = none ∨
      ∃ (k : Int) (e : Nat), (r.Limit noRedisFaults t s c).store (limitKey c)
        = some ⟨k, some e⟩ ∧ 1 ≤ k ∧ k ≤ r.maxRequests := by
  right
  rcases hinv with hnone | ⟨k, e, hs, hk, hkN⟩
  · exact ⟨1, t + expireSpan r.window, (limit_fresh r c s t hN (lookup_of_none hnone)).2, le_refl _, hN⟩
  · by_cases hte : t < e
    · by_cases hfull : r.maxRequests ≤ k
      · refine ⟨k, e, ?_, hk, hkN⟩
        rw [(limit_full r c s t k e hs hte hfull).2]
        exact hs
      · exact ⟨k + 1, e, (limit_below r c s t k e hs hte hk (by omega)).2, by omega, by omega⟩
    · have hdead : s.lookup (limitKey c) t = none :=
        lookup_of_dead hs (by simp [Counter.live]; omega)
      exact ⟨1, t + expireSpan r.window, (limit_fresh r c s t hN hdead).2, le_refl _, hN⟩

/-- In a closed interval of the length of the window at most twice the limit
requests are let through. -/
theorem closed_interval_bound (r : RateLimiter) (c : Ctx) (a : Nat) (hN : 1 ≤ r.maxRequests)
    (hW : 1 ≤ r.window) :
    ∀ (ts : List Nat), ts.Pairwise (· ≤ ·) → ∀ (s : CounterStore),
      (s (limitKey c) = none ∨
        ∃ (k : Int) (e : Nat), s (limitKey c) = some ⟨k, some e⟩ ∧ 1 ≤ k ∧ k ≤ r.maxRequests) →
      (allowedIn a (a + expireSpan r.window) (serve r c s ts).1 : Int) ≤ 2 * r.maxRequests := by
  have hE : 1000 ≤ expireSpan r.window := (expireSpan_cases r.window).2.2.1 hW
  intro ts
  induction ts with
  | nil => intro _ s _; simp [serve, allowedIn]; omega
  | cons t ts ih =>
    intro hsorted s hinv
    have hsorted' := (List.pairwise_cons.mp hsorted).2
    by_cases hta : t < a
    · rw [serve_cons, allowedIn_cons_skip _ _ _ _ (by simp only [not_and]; omega)]
      exact ih hsorted' _ (limit_keeps_window r c s t hN hinv)
    · have hfresh : s.lookup (limitKey c) t = none →
          (allowedIn a (a + expireSpan r.window) (serve r c s (t :: ts)).1 : Int)
            ≤ 2 * r.maxRequests := by
        intro hdead
        obtain ⟨_, hst⟩ := limit_fresh r c s t hN hdead
        have hrec := successor_bound r c a (a + expireSpan r.window) hN ts hsorted' 1 (t + expireSpan r.window) _ hst
          (le_refl _) hN (by omega)
        rw [serve_cons]
        have h1 := allowedIn_cons_le a (a + expireSpan r.window) (t, (r.Limit noRedisFaults t s c).outcome)
          (serve r c (r.Limit noRedisFaults t s c).store ts).1
        simp only at h1 ⊢
        omega
      rcases hinv with hnone | ⟨k, e, hs, hk, hkN⟩
      · exact hfresh (lookup_of_none hnone)
      · by_cases hte : t < e
        · have := successor_bound r c a (a + expireSpan r.window) hN (t :: ts) hsorted k e s hs hk hkN
            (by omega)
          omega
        · exact hfresh (lookup_of_dead hs (by simp [Counter.live]; omega))

/-- In an interval shorter than the window fewer than twice the limit
requests are let through. -/
theorem short_interval_bound (r : RateLimiter) (c : Ctx) (a b : Nat) (hN : 1 ≤ r.maxRequests)
    (hb : b < a + expireSpan r.window) :
    ∀ (ts : List Nat), ts.Pairwise (· ≤ ·) → ∀ (s : CounterStore),
      (s (limitKey c) = none ∨
        ∃ (k : Int) (e : Nat), s (limitKey c) = some ⟨k, some e⟩ ∧ 1 ≤ k ∧ k ≤ r.maxRequests) →
      (allowedIn a b (serve r c s ts).1 : Int) + 1 ≤ 2 * r.maxRequests := by
  intro ts
  induction ts with
  | nil => intro _ s _; simp [serve, allowedIn]; omega
  | cons t ts ih =>
    intro hsorted s hinv
    have hsorted' := (List.pairwise_cons.mp hsorted).2
    by_cases hta : t < a
    · rw [serve_cons, allowedIn_cons_skip _ _ _ _ (by simp only [not_and]; omega)]
      exact ih hsorted' _ (limit_keeps_window r c s t hN hinv)
    · have hfresh : s.lookup (limitKey c) t = none →
          (allowedIn a b (serve r c s (t :: ts)).1 : Int) + 1 ≤ 2 * r.maxRequests := by
        intro hdead
        obtain ⟨_, hst⟩ := limit_fresh r c s t hN hdead
        have hrec := cover_bound r c a b ts hsorted' 1 (t + expireSpan r.window) _ hst
          (le_refl _) hN (by omega)
        rw [serve_cons]
        have h1 := allowedIn_cons_le a b (t, (r.Limit noRedisFaults t s c).outcome)
          (serve r c (r.Limit noRedisFaults t s c).store ts).1
        simp only at h1 ⊢
        omega
      rcases hinv with hnone | ⟨k, e, hs, hk, hkN⟩
      · exact hfresh (lookup_of_none hnone)
      · by_cases hte : t < e
        · have := successor_bound r c a b hN (t :: ts) hsorted k e s hs hk hkN (by omega)
          omega
        · exact hfresh (lookup_of_dead hs (by simp [Counter.live]; omega))

/-- A request that finds no visible key opens a window in which it and the
requests after it are let through as long as the limit allows. -/
theorem serve_open_window (r : RateLimiter) (c : Ctx) (s : CounterStore) (t : Nat)
    (ts : List Nat) (hdead : s.lookup (limitKey c) t = none)
    (hlen : (1 : Int) + ts.length ≤ r.maxRequests) (hts : ∀ x ∈ ts, x < t + expireSpan r.window) :
    (serve r c s (t :: ts)).1 = (t :: ts).map (fun x => (x, Outcome.next)) ∧
    (serve r c s (t :: ts)).2 (limitKey c) = some ⟨1 + ts.length, some (t + expireSpan r.window)⟩ := by
  obtain ⟨ho, hst⟩ := limit_fresh r c s t (by omega) hdead
  obtain ⟨h1, h2⟩ := serve_fill r c (t + expireSpan r.window) ts 1 _ hst (le_refl _) hlen hts
  rw [serve_cons]
  exact ⟨by simp [ho, h1], h2⟩

theorem allowedIn_all (a b : Nat) (ts : List Nat) (h : ∀ t ∈ ts, a ≤ t ∧ t ≤ b) :
    allowedIn a b (ts.map (fun x => (x, Outcome.next))) = ts.length := by
  induction ts with
  | nil => rfl
  | cons t ts ih =>
    have ht := h t (List.mem_cons_self t ts)
    have hrest := ih (fun x hx => h x (List.mem_cons_of_mem t hx))
    simp only [allowedIn, List.map_cons, List.filter_cons] at hrest ⊢
    simp [ht.1, ht.2, hrest]

theorem allowedIn_append (a b : Nat) (xs ys : List (Nat × Outcome)) :
    allowedIn a b (xs ++ ys) = allowedIn a b xs + allowedIn a b ys := by
  simp [allowedIn]

theorem pairwise_replicate_le (n a : Nat) : (List.replicate n a).Pairwise (· ≤ ·) := by
  induction n with
  | zero => simp
  | succ n ih =>
    rw [List.replicate_succ, List.pairwise_cons]
    exact ⟨fun x hx => le_of_eq (List.eq_of_mem_replicate hx).symm, ih⟩

/-- The burst at the boundary: as many requests as the limit at the instant
`a` a window opens and as many again at the instant `a + window` it expires
are all let through. -/
theorem boundary_burst (r : RateLimiter) (c : Ctx) (n a : Nat) (hn : 1 ≤ n)
    (hmax : r.maxRequests = n) (hW : 1 ≤ r.window) :
    (List.replicate n a ++ List.replicate n (a + expireSpan r.window)).Pairwise (· ≤ ·) ∧
    allowedIn a (a + expireSpan r.window)
      (serve r c (fun _ => none) (List.replicate n a ++ List.replicate n (a + expireSpan r.window))).1
      = 2 * n := by
  have hE : 1000 ≤ expireSpan r.window := (expireSpan_cases r.window).2.2.1 hW
  obtain ⟨m, rfl⟩ : ∃ m, n = m + 1 := ⟨n - 1, by omega⟩
  constructor
  · rw [List.pairwise_append]
    refine ⟨pairwise_replicate_le _ _, pairwise_replicate_le _ _, ?_⟩
    intro x hx y hy
    rw [List.eq_of_mem_replicate hx, List.eq_of_mem_replicate hy]
    omega
  · obtain ⟨h1, h2⟩ := serve_open_window r c (fun _ => none) a (List.replicate m a)
      (lookup_of_none rfl) (by simp [hmax]; omega)
      (fun x hx => by rw [List.eq_of_mem_replicate hx]; omega)
    rw [← List.replicate_succ] at h1 h2
    have hdead : CounterStore.lookup (serve r c (fun _ => none) (List.replicate (m + 1) a)).2
        (limitKey c) (a + expireSpan r.window) = none :=
      lookup_of_dead h2 (by simp [Counter.live])
    obtain ⟨h3, _⟩ := serve_open_window r c _ (a + expireSpan r.window) (List.replicate m (a + expireSpan r.window))
      hdead (by simp [hmax]; omega)
      (fun x hx => by rw [List.eq_of_mem_replicate hx]; omega)
    rw [← List.replicate_succ] at h3
    rw [serve_append]
    simp only [h1, h3, allowedIn_append]
    rw [allowedIn_all, allowedIn_all]
    · simp; omega
    · intro t ht; rw [List.eq_of_mem_replicate ht]; omega
    · intro t ht; rw [List.eq_of_mem_replicate ht]; omega

/-- C5, as the code has it. The key lives for E, the time to live `pipe.Expire`
gives it: the window W itself when W is a whole number of seconds, one second
for a positive W below one second, and otherwise W cut to whole seconds. With
limit n at least 1 and a positive window, for sequential requests of one
caller that each make both round trips to the store at one instant, starting
without a counter key: in every closed interval of the length
E at most 2n requests are let through; in every interval shorter than E fewer
than 2n are; and 2n is reached over an interval of exactly the length E, by n
requests at the instant a window opens and n more at the instant it expires. -/
theorem fixed_window_burst (r : RateLimiter) (c : Ctx) (n : Nat) (hn : 1 ≤ n)
    (hmax : r.maxRequests = n) (hW : 1 ≤ r.window) :
    (∀ (s : CounterStore) (ts : List Nat) (a : Nat), s (limitKey c) = none →
      ts.Pairwise (· ≤ ·) →
      allowedIn a (a + expireSpan r.window) (serve r c s ts).1 ≤ 2 * n) ∧
    (∀ (s : CounterStore) (ts : List Nat) (a b : Nat), s (limitKey c) = none →
      ts.Pairwise (· ≤ ·) → b < a + expireSpan r.window →
      allowedIn a b (serve r c s ts).1 < 2 * n) ∧
    (∃ (ts : List Nat) (a : Nat), ts.Pairwise (· ≤ ·) ∧
      allowedIn a (a + expireSpan r.window) (serve r c (fun _ => none) ts).1 = 2 * n) ∧
    (∀ k, r.window = 1000 * k → expireSpan r.window = r.window) ∧
    (r.window < 1000 → expireSpan r.window = 1000) ∧
    (1000 ≤ r.window → expireSpan r.window = 1000 * (r.window / 1000)) := by
  have hN : 1 ≤ r.maxRequests := by omega
  refine ⟨?_, ?_, ?_, fun k hk => by rw [hk, expireSpan_seconds],
    (expireSpan_cases r.window).1 (by omega), (expireSpan_cases r.window).2.1⟩
  · intro s ts a hs hsorted
    have := closed_interval_bound r c a hN hW ts hsorted s (Or.inl hs)
    omega
  · intro s ts a b hs hsorted hb
    have := short_interval_bound r c a b hN hb ts hsorted s (Or.inl hs)
    omega
  · exact ⟨_, 0, boundary_burst r c n 0 hn hmax hW⟩

/-- The bound of C5 at limit 2 and a window of one minute, on the schedule that
attains it: two requests at 100 and two at 60100. -/
theorem fixed_window_burst_witness :
    allowedIn 100 (100 + expireSpan 60000)
      (serve ⟨2, 60000⟩ demoCtx (fun _ => none) [100, 100, 60100, 60100]).1 ≤ 2 * 2 :=
  (fixed_window_burst ⟨2, 60000⟩ demoCtx 2 (by decide) rfl (by decide)).1
    (fun _ => none) [100, 100, 60100, 60100] 100 rfl (by decide)

/-- C5 as stated fails. With limit 2 and a window of one minute no schedule gets
4 requests through inside an interval shorter than the window, because the
first request of a window is let through a full window before the next window
can open. And with limit 2 and a window of 1500 milliseconds, whose key lives
one second, 5 requests are let through in the interval of length 1500 that
starts at 999. -/
theorem no_full_burst_in_short_interval :
    (¬ ∃ (ts : List Nat) (a b : Nat), ts.Pairwise (· ≤ ·) ∧ b < a + 60000 ∧
      allowedIn a b (serve ⟨2, 60000⟩ demoCtx (fun _ => none) ts).1 = 2 * 2) ∧
    allowedIn 999 (999 + 1500)
      (serve ⟨2, 1500⟩ demoCtx (fun _ => none) [0, 999, 1000, 1000, 2000, 2000]).1 = 5 := by
  constructor
  · rintro ⟨ts, a, b, hsorted, hb, h⟩
    have hspan : expireSpan (RateLimiter.mk 2 60000).window = 60000 := by decide
    have := short_interval_bound ⟨2, 60000⟩ demoCtx a b (by decide) (by rw [hspan]; exact hb)
      ts hsorted (fun _ => none) (Or.inl rfl)
    simp only at this
    omega
  · decide

/-! ## Destination resolution -/

theorem cache_lookup_update_same (cache : Cache) (key value : String) (t now : Nat)
    (h : now < t) :
    Cache.lookup (Function.update cache key (some ⟨value, some t⟩)) key now
      = some ⟨value, some t⟩ := by
  simp [Cache.lookup, h]

/-- C6. When `CreateLink` succeeds with its cache write going through, a
`GetDestination` of the returned code that follows within the hour of the cache
entry (in particular at once) returns exactly the normalised destination of
the request, without error, and leaves the world as it is. -/
theorem create_then_resolve (svc : LinkService) (x : Externals) (f g : Faults)
    (rand : Nat → Except String (Fin 62)) (now now' : Nat) (w w' : World)
    (req : CreateLinkRequest) (userID : Option Int) (resp : LinkResponse)
    (hcreate : svc.CreateLink x f rand now w req userID = (Except.ok resp, w'))
    (hset : f.cacheSetErr = false) (hget : g.cacheGetErr = false) (hnow : now' < now + Hour) :
    ∃ d, NormalizeURL x req.Destination = some d ∧
      svc.GetDestination g now' w' resp.ShortCode = (Except.ok d, w') := by
  unfold LinkService.CreateLink at hcreate
  cases hn : NormalizeURL x req.Destination with
  | none => simp [hn] at hcreate
  | some d =>
    refine ⟨d, rfl, ?_⟩
    simp only [hn] at hcreate
    cases hc : selectCode x f rand w.db req.CustomSlug with
    | error e => simp [hc] at hcreate
    | ok code =>
      simp only [hc] at hcreate
      cases hp : parseExpiry x req.ExpiresAt with
      | error e => simp [hp] at hcreate
      | ok expiresAt =>
        simp only [hp] at hcreate
        split at hcreate
        · simp at hcreate
        · rename_i stored db' hcr
          simp only [Prod.mk.injEq, Except.ok.injEq] at hcreate
          obtain ⟨hresp, hw⟩ := hcreate
          have hcode : resp.ShortCode = code := by
            simp only [LinkStore.Create] at hcr
            split_ifs at hcr
            simp only [Except.ok.injEq, Prod.mk.injEq] at hcr
            rw [← hresp, ← hcr.1]
            rfl
          subst hw
          simp [LinkService.GetDestination, cacheGet, hget, cacheSet, hset, hcode,
            cache_lookup_update_same _ _ _ _ _ hnow]

/-- C6 on the sample request: the slug `Promo1` is stored as `promo1` and
resolves at once to `https://example.com/a`. -/
theorem create_then_resolve_witness :
    ∃ d, NormalizeURL demoX demoCreate.Destination = some d ∧
      demoSvc.GetDestination noFaults 100
          (demoSvc.CreateLink demoX noFaults zeroRand 100 emptyWorld demoCreate (some 7)).2
          demoResp.ShortCode
        = (Except.ok d,
          (demoSvc.CreateLink demoX noFaults zeroRand 100 emptyWorld demoCreate (some 7)).2) :=
  create_then_resolve demoSvc demoX noFaults noFaults zeroRand 100 100 emptyWorld _ demoCreate
    (some 7) demoResp (Prod.ext (by rfl) rfl) rfl rfl (by decide)

/-- C7. Store path of `GetDestination`: for a code without a visible cache entry,
with the lookup and the cache write going through, the result is the error
`link not found` exactly when the store has no link with the code; for the
link found otherwise it is `link is inactive` exactly when `IsActive` is false,
else `link has expired` exactly when `ExpiresAt` is set and strictly before
`now`, else the stored destination, and then the cache entry of the code holds
that destination with an expiry one hour ahead; whenever the result is an
error the world, cache included, is unchanged. -/
theorem getDestination_store_path (svc : LinkService) (f : Faults) (now : Nat) (w : World)
    (code : String) (hmiss : w.cache.lookup (cacheKey code) now = none)
    (hfind : f.findErr = false) (hset : f.cacheSetErr = false) :
    ((svc.GetDestination f now w code).1 = Except.error "link not found" ↔
      ∀ l ∈ w.db.rows, l.ShortCode ≠ code) ∧
    (∀ l, w.db.rows.find? (fun l => decide (l.ShortCode = code)) = some l →
      ((svc.GetDestination f now w code).1 = Except.error "link is inactive" ↔
        l.IsActive = false) ∧
      (l.IsActive = true →
        ((svc.GetDestination f now w code).1 = Except.error "link has expired" ↔
          ∃ t, l.ExpiresAt = some t ∧ t < now) ∧
        ((¬ ∃ t, l.ExpiresAt = some t ∧ t < now) →
          (svc.GetDestination f now w code).1 = Except.ok l.Destination ∧
          (svc.GetDestination f now w code).2.db = w.db ∧
          (svc.GetDestination f now w code).2.cache
            = Function.update w.cache (cacheKey code)
                (some ⟨l.Destination, some (now + Hour)⟩)))) ∧
    (∀ e, (svc.GetDestination f now w code).1 = Except.error e →
      (svc.GetDestination f now w code).2 = w) := by
  have hget : cacheGet f w.cache (cacheKey code) now = none := by
    simp [cacheGet, hmiss]
  refine ⟨?_, ?_, ?_⟩
  · simp only [LinkService.GetDestination, hget, LinkStore.FindByShortCode, hfind]
    cases hfd : w.db.rows.find? (fun l => decide (l.ShortCode = code)) with
    | none =>
      simp only [Bool.false_eq_true, if_false, true_iff]
      intro l hl
      have := List.find?_eq_none.mp hfd l hl
      simpa using this
    | some l =>
      have hmem := List.mem_of_find?_eq_some hfd
      have hcode : l.ShortCode = code := by simpa using List.find?_some hfd
      have hne : ¬ ∀ l ∈ w.db.rows, l.ShortCode ≠ code := fun h => h l hmem hcode
      simp only [Bool.false_eq_true, if_false, hne, iff_false]
      split_ifs <;> simp
  · intro l hfd
    simp only [LinkService.GetDestination, hget, LinkStore.FindByShortCode, hfind, hfd,
      Bool.false_eq_true, if_false]
    cases hact : l.IsActive with
    | false => simp
    | true =>
      cases hexp : l.ExpiresAt with
      | none => simp [cacheSet, hset]
      | some t =>
        by_cases ht : t < now
        · simp [ht]
        · simp [ht, cacheSet, hset]
  · intro e he
    simp only [LinkService.GetDestination, hget, LinkStore.FindByShortCode, hfind] at he ⊢
    cases hfd : w.db.rows.find? (fun l => decide (l.ShortCode = code)) with
    | none => simp
    | some l =>
      simp only [hfd, Bool.false_eq_true, if_false] at he ⊢
      split_ifs at he ⊢ <;> simp_all

/-- C7 on the sample store: the active link without expiry resolves from the
store and its destination is cached for an hour. -/
theorem getDestination_store_path_witness :
    (demoSvc.GetDestination noFaults 100 liveWorld "abc123").1
        = Except.ok liveLink.Destination ∧
    (demoSvc.GetDestination noFaults 100 liveWorld "abc123").2.db = liveWorld.db ∧
    (demoSvc.GetDestination noFaults 100 liveWorld "abc123").2.cache
        = Function.update liveWorld.cache (cacheKey "abc123")
            (some ⟨liveLink.Destination, some (100 + Hour)⟩) :=
  ((getDestination_store_path demoSvc noFaults 100 liveWorld "abc123" rfl rfl rfl).2.1
    liveLink rfl).2 rfl |>.2 (by decide)

/-- C8. Cache-hit path of `GetDestination`: for a code with a visible cache entry
of value v and a cache read that goes through, the result is v without error
and the world is unchanged, and this is so whatever the store holds (the store
is not consulted); so a link that is cached and has since been deactivated or
has expired still resolves to the cached destination. -/
theorem getDestination_cache_hit (svc : LinkService) (f : Faults) (now : Nat) (w : World)
    (code : String) (e : CacheEntry) (hhit : w.cache.lookup (cacheKey code) now = some e)
    (hget : f.cacheGetErr = false) :
    svc.GetDestination f now w code = (Except.ok e.value, w) ∧
    (∀ db : LinkStore, svc.GetDestination f now { w with db := db } code
      = (Except.ok e.value, { w with db := db })) ∧
    (∀ l ∈ w.db.rows, l.ShortCode = code →
      (l.IsActive = false ∨ ∃ t, l.ExpiresAt = some t ∧ t < now) →
      (svc.GetDestination f now w code).1 = Except.ok e.value) := by
  have h1 : ∀ db : LinkStore, svc.GetDestination f now { w with db := db } code
      = (Except.ok e.value, { w with db := db }) := by
    intro db
    simp [LinkService.GetDestination, cacheGet, hget, hhit]
  have h0 : svc.GetDestination f now w code = (Except.ok e.value, w) := h1 w.db
  exact ⟨h0, h1, fun _ _ _ _ => by rw [h0]⟩

/-- C8 on the sample world: the link is inactive and expired at 100, its cache
entry lives until 3000, and it still resolves. -/
theorem getDestination_cache_hit_witness :
    demoSvc.GetDestination noFaults 100 staleWorld "abc123"
      = (Except.ok "https://old.example", staleWorld) :=
  (getDestination_cache_hit demoSvc noFaults 100 staleWorld "abc123"
    ⟨"https://old.example", some 3000⟩ rfl rfl).1

/-! ## Resolution after a mutation -/

/-- C9 as stated fails: on the sample world the update that sets a new
destination and deactivates the link succeeds, and the next resolution of the
code is the error `link is inactive`, not the new destination. -/
theorem update_with_deactivation_not_resolved :
    (demoSvc.UpdateLink demoX noFaults 100 liveWorld "abc123" 7 deactivatingUpdate).1
      = Except.ok () ∧
    NormalizeURL demoX "https://new.example" = some "https://new.example" ∧
    (demoSvc.GetDestination noFaults 101
        (demoSvc.UpdateLink demoX noFaults 100 liveWorld "abc123" 7 deactivatingUpdate).2
        "abc123").1 = Except.error "link is inactive" := by
  refine ⟨by rfl, by rfl, by rfl⟩

theorem find_map_keeps_code (g : ShortLink → ShortLink)
    (hg : ∀ l, (g l).ShortCode = l.ShortCode) (c : String) :
    ∀ rows : List ShortLink,
      (rows.map g).find? (fun l => decide (l.ShortCode = c))
        = (rows.find? (fun l => decide (l.ShortCode = c))).map g := by
  intro rows
  induction rows with
  | nil => rfl
  | cons r rows ih =>
    simp only [List.map_cons, List.find?_cons, hg]
    split <;> simp [ih]

theorem cache_lookup_update_none (cache : Cache) (key : String) (now : Nat) :
    Cache.lookup (Function.update cache key none) key now = none := by
  simp [Cache.lookup]

/-- C9, as the code has it. For a stored link with code c, cached or not, with
both stores answering every call: after `UpdateLink` succeeds with a new
destination d', the next `GetDestination` of c reads the updated row and never
the cache entry from before the update. Its answer is decided by the flag and
the expiry in force after the update (those of the request where it gives
them, else those of the stored link): `link is inactive` when the flag is
false, else `link has expired` when the expiry is before the time of the read,
else the normalised d'. After `DeleteLink` succeeds on a store with distinct
codes, the next `GetDestination` of c fails with `link not found`. -/
theorem resolve_after_mutation (svc : LinkService) (x : Externals) (now now' : Nat) (w : World)
    (c : String) (u : Int) (l : ShortLink)
    (hfind : w.db.rows.find? (fun l => decide (l.ShortCode = c)) = some l) :
    (∀ (req : UpdateLinkRequest) (d' : String), req.Destination = some d' →
      (svc.UpdateLink x noFaults now w c u req).1 = Except.ok () →
      ∃ nd p, NormalizeURL x d' = some nd ∧ parseExpiry x req.ExpiresAt = Except.ok p ∧
        (svc.GetDestination noFaults now' (svc.UpdateLink x noFaults now w c u req).2 c).1
          = (if req.IsActive.getD l.IsActive = false then Except.error "link is inactive"
             else if (match (p <|> l.ExpiresAt) with
                      | some t => decide (t < now')
                      | none => false) = true then Except.error "link has expired"
             else Except.ok nd)) ∧
    (w.db.codes.Nodup → (svc.DeleteLink noFaults w c u).1 = Except.ok () →
      (svc.GetDestination noFaults now' (svc.DeleteLink noFaults w c u).2 c).1
        = Except.error "link not found") := by
  constructor
  · intro req d' hd hupd
    simp only [LinkService.UpdateLink, LinkStore.FindByShortCode, noFaults, hfind, hd,
      updateDestination, Bool.false_eq_true, if_false] at hupd ⊢
    by_cases hown : l.UserID = some u
    · simp only [hown, ne_eq, not_true_eq_false, if_false] at hupd ⊢
      cases hn : NormalizeURL x d' with
      | none => simp [hn] at hupd
      | some nd =>
        simp only [hn] at hupd ⊢
        cases hp : parseExpiry x req.ExpiresAt with
        | error e => simp [hp] at hupd
        | ok p =>
          refine ⟨nd, p, rfl, rfl, ?_⟩
          simp only [hp] at hupd ⊢
          simp only [LinkStore.Update, Bool.false_eq_true, if_false] at hupd ⊢
          split_ifs at hupd with hany
          simp only [hany, if_true]
          simp only [LinkService.GetDestination, cacheGet, cacheDel, Bool.false_eq_true,
            if_false, cache_lookup_update_none, Option.map_none', LinkStore.FindByShortCode]
          rw [find_map_keeps_code _ (by intro r; split_ifs <;> rfl), hfind]
          simp only [Option.map_some', if_true]
          cases hact : req.IsActive with
          | some b =>
            cases b with
            | false => simp
            | true =>
              cases p with
              | some t => by_cases ht : t < now' <;> simp [cacheSet, ht]
              | none =>
                cases hle : l.ExpiresAt with
                | none => simp [cacheSet]
                | some t => by_cases ht : t < now' <;> simp [cacheSet, ht]
          | none =>
            cases hla : l.IsActive with
            | false => simp
            | true =>
              cases p with
              | some t => by_cases ht : t < now' <;> simp [cacheSet, ht]
              | none =>
                cases hle : l.ExpiresAt with
                | none => simp [cacheSet]
                | some t => by_cases ht : t < now' <;> simp [cacheSet, ht]
    · simp [hown] at hupd
  · intro hnodup hdel
    simp only [LinkService.DeleteLink, LinkStore.FindByShortCode, noFaults, hfind,
      Bool.false_eq_true, if_false] at hdel ⊢
    by_cases hown : l.UserID = some u
    · simp only [hown, ne_eq, not_true_eq_false, if_false, LinkStore.Delete,
        Bool.false_eq_true] at hdel ⊢
      split_ifs at hdel ⊢ with hany
      · simp only [LinkService.GetDestination, cacheGet, cacheDel, Bool.false_eq_true,
          if_false, cache_lookup_update_none, Option.map_none', LinkStore.FindByShortCode]
        have hgone : (w.db.rows.filter (fun r =>
            !(decide (r.ID = l.ID) && decide (r.UserID = some u)))).find?
              (fun r => decide (r.ShortCode = c)) = none := by
          rw [List.find?_eq_none]
          intro r hr hrc
          rw [List.mem_filter] at hr
          have hl := List.mem_of_find?_eq_some hfind
          have hlc : l.ShortCode = c := by simpa using List.find?_some hfind
          have hrc' : r.ShortCode = c := by simpa using hrc
          have heq : r = l :=
            List.inj_on_of_nodup_map hnodup hr.1 hl (by rw [hrc', hlc])
          subst heq
          simp [hown] at hr
        simp only [hgone]
    · simp [hown] at hdel

/-- C9 on the sample world: after the update that only retargets the link the
code resolves to the new destination, and after the deletion it is not found. -/
theorem resolve_after_mutation_witness :
    (demoSvc.GetDestination noFaults 101
        (demoSvc.UpdateLink demoX noFaults 100 liveWorld "abc123" 7 retargetingUpdate).2
        "abc123").1 = Except.ok "https://new.example" ∧
    (demoSvc.GetDestination noFaults 101
        (demoSvc.DeleteLink noFaults liveWorld "abc123" 7).2 "abc123").1
      = Except.error "link not found" := by
  have h := resolve_after_mutation demoSvc demoX 100 101 liveWorld "abc123" 7 liveLink rfl
  obtain ⟨nd, p, hnd, hp, hres⟩ := h.1 retargetingUpdate "https://new.example" rfl (by rfl)
  have h2 : NormalizeURL demoX "https://new.example" = some "https://new.example" := by rfl
  have hp' : parseExpiry demoX retargetingUpdate.ExpiresAt = Except.ok none := rfl
  rw [h2] at hnd
  rw [hp'] at hp
  cases hnd
  cases hp
  exact ⟨hres, h.2 (by decide) (by rfl)⟩

/-- The owner's retargeting of the deactivated, expired and still cached
`staleLink` succeeds, and the next resolution is `link is inactive`. -/
theorem retarget_of_inactive_link :
    (demoSvc.UpdateLink demoX noFaults 100 staleWorld "abc123" 7 retargetingUpdate).1
      = Except.ok () ∧
    (demoSvc.GetDestination noFaults 101
        (demoSvc.UpdateLink demoX noFaults 100 staleWorld "abc123" 7 retargetingUpdate).2
        "abc123").1 = Except.error "link is inactive" := by
  refine ⟨by rfl, by rfl⟩

/-! ## Uniqueness of short codes -/

theorem not_mem_codes_of_exists_false (db : LinkStore) (f : Faults) (i : Nat) (code : String)
    (hf : f.existsErr i = false) (h : (db.ShortCodeExists f i code).1 = false) :
    code ∉ db.codes := by
  simp only [LinkStore.ShortCodeExists, hf, Bool.false_eq_true, if_false] at h
  intro hmem
  simp only [LinkStore.codes, List.mem_map] at hmem
  obtain ⟨l, hl, hc⟩ := hmem
  have := List.any_eq_false.mp h l hl
  simp [hc] at this

/-- A code chosen by the retry loop whose checks succeed is absent from the
store, unless the loop ran out and returned the empty string. -/
theorem randomCode_free (f : Faults) (rand : Nat → Except String (Fin 62)) (db : LinkStore)
    (hf : ∀ i, f.existsErr i = false) :
    ∀ (fuel i : Nat) (code : String), randomCode f rand db i fuel = Except.ok code →
      code = "" ∨ code ∉ db.codes := by
  intro fuel
  induction fuel with
  | zero =>
    intro i code h
    simp only [randomCode, Except.ok.injEq] at h
    exact Or.inl h.symm
  | succ fuel ih =>
    intro i code h
    simp only [randomCode] at h
    cases hg : GenerateShortCode rand (6 * i) 6 with
    | error e => simp [hg] at h
    | ok cand =>
      simp only [hg] at h
      cases hex : (db.ShortCodeExists f i cand).1 with
      | false =>
        simp only [hex, Bool.not_false, if_true, Except.ok.injEq] at h
        subst h
        exact Or.inr (not_mem_codes_of_exists_false db f i cand (hf i) hex)
      | true =>
        simp only [hex, Bool.not_true, Bool.false_eq_true, if_false] at h
        exact ih (i + 1) code h

/-- The code selected by `CreateLink` is absent from the store when the
existence checks succeed. -/
theorem selectCode_free (x : Externals) (f : Faults) (rand : Nat → Except String (Fin 62))
    (db : LinkStore) (slug : Option String) (code : String)
    (hf : ∀ i, f.existsErr i = false) (h : selectCode x f rand db slug = Except.ok code) :
    code ∉ db.codes := by
  have hrandom : (match randomCode f rand db 0 5 with
      | Except.error e => Except.error e
      | Except.ok shortCode =>
        if shortCode = "" then Except.error "failed to generate unique short code"
        else Except.ok shortCode) = Except.ok code → code ∉ db.codes := by
    intro h
    cases hr : randomCode f rand db 0 5 with
    | error e => simp [hr] at h
    | ok sc =>
      simp only [hr] at h
      split_ifs at h with hempty
      simp only [Except.ok.injEq] at h
      subst h
      rcases randomCode_free f rand db hf 5 0 sc hr with h0 | h0
      · exact absurd h0 hempty
      · exact h0
  cases slug with
  | none => exact hrandom h
  | some s =>
    simp only [selectCode] at h
    split_ifs at h with hne hvalid hexists
    · simp only [Except.ok.injEq] at h
      subst h
      exact not_mem_codes_of_exists_false db f 0 _ (hf 0) (by simpa using hexists)
    · exact hrandom h

/-- What `CreateLink` does to the list of stored codes: nothing, or it appends
the code of its response. -/
theorem createLink_codes (svc : LinkService) (x : Externals) (f : Faults)
    (rand : Nat → Except String (Fin 62)) (now : Nat) (w : World) (req : CreateLinkRequest)
    (userID : Option Int) (hf : ∀ i, f.existsErr i = false) :
    (∀ e, (svc.CreateLink x f rand now w req userID).1 = Except.error e →
      (svc.CreateLink x f rand now w req userID).2 = w) ∧
    (∀ resp, (svc.CreateLink x f rand now w req userID).1 = Except.ok resp →
      resp.ShortCode ∉ w.db.codes ∧
      (svc.CreateLink x f rand now w req userID).2.db.codes = w.db.codes ++ [resp.ShortCode]) := by
  unfold LinkService.CreateLink
  cases hn : NormalizeURL x req.Destination with
  | none => simp
  | some d =>
    cases hc : selectCode x f rand w.db req.CustomSlug with
    | error e => simp
    | ok code =>
      have hfree := selectCode_free x f rand w.db req.CustomSlug code hf hc
      cases hp : parseExpiry x req.ExpiresAt with
      | error e => simp
      | ok expiresAt =>
        simp only [LinkStore.Create]
        split_ifs
        · simp
        · simp
        · have hfree' : ∀ l ∈ w.db.rows, ¬ l.ShortCode = code := by
            intro l hl hcode
            exact hfree (by simpa [LinkStore.codes] using ⟨l, hl, hcode⟩)
          simpa [ShortLink.ToResponse, LinkStore.codes] using hfree'

/-- The method `UpdateLink` leaves the list of stored codes as it is. -/
theorem updateLink_codes (svc : LinkService) (x : Externals) (f : Faults) (now : Nat)
    (w : World) (c : String) (u : Int) (req : UpdateLinkRequest) :
    (svc.UpdateLink x f now w c u req).2.db.codes = w.db.codes := by
  unfold LinkService.UpdateLink
  cases w.db.FindByShortCode f c with
  | error e => rfl
  | ok link =>
    simp only
    split_ifs
    · rfl
    · cases updateDestination x f w.cache c link.Destination req.Destination with
      | error e => rfl
      | ok r =>
        cases parseExpiry x req.ExpiresAt with
        | error e => rfl
        | ok parsed =>
          simp only [LinkStore.Update]
          split_ifs
          · rfl
          · simp only [LinkStore.codes, List.map_map]
            congr 1
            funext l
            simp only [Function.comp]
            split_ifs <;> rfl
          · rfl

/-- The method `DeleteLink` only removes codes from the list of stored codes. -/
theorem deleteLink_codes (svc : LinkService) (f : Faults) (w : World) (c : String) (u : Int) :
    (svc.DeleteLink f w c u).2.db.codes.Sublist w.db.codes := by
  unfold LinkService.DeleteLink
  cases w.db.FindByShortCode f c with
  | error e => exact List.Sublist.refl _
  | ok link =>
    simp only
    split_ifs
    · exact List.Sublist.refl _
    · simp only [LinkStore.Delete]
      split_ifs
      · exact List.Sublist.refl _
      · exact List.Sublist.map _ (List.filter_sublist _)
      · exact List.Sublist.refl _

/-- Every call whose existence checks succeed keeps the stored codes distinct. -/
theorem run_keeps_codes_distinct (svc : LinkService) (x : Externals) (op : LinkOp) (w : World)
    (hop : op.checksSucceed) (h : w.db.codes.Nodup) : (op.run svc x w).db.codes.Nodup := by
  cases op with
  | create f rand now req userID =>
    simp only [LinkOp.run]
    obtain ⟨herr, hok⟩ := createLink_codes svc x f rand now w req userID hop
    cases hres : (svc.CreateLink x f rand now w req userID).1 with
    | error e => rw [herr e hres]; exact h
    | ok resp =>
      obtain ⟨hfree, hcodes⟩ := hok resp hres
      rw [hcodes]
      exact List.Nodup.append h (List.nodup_singleton _) (by simpa using hfree)
  | update f now c u req =>
    simp only [LinkOp.run, updateLink_codes]
    exact h
  | delete f c u =>
    simp only [LinkOp.run]
    exact List.Nodup.sublist (deleteLink_codes svc f w c u) h

/-- C10. Uniqueness of short codes is an invariant of the link store: from a
store whose codes are pairwise distinct, any sequence of `CreateLink`,
`UpdateLink` and `DeleteLink` calls whose existence checks succeed leads to a
store whose codes are pairwise distinct, whether or not the schema declares
the column unique; a successful `CreateLink` returns a code the store did not
contain and appends exactly that code, and `UpdateLink` leaves the codes as
they are. -/
theorem short_codes_stay_unique (svc : LinkService) (x : Externals) :
    (∀ (ops : List LinkOp) (w : World), (∀ op ∈ ops, op.checksSucceed) → w.db.codes.Nodup →
      (runOps svc x ops w).db.codes.Nodup) ∧
    (∀ (f : Faults) (rand : Nat → Except String (Fin 62)) (now : Nat) (w w' : World)
      (req : CreateLinkRequest) (userID : Option Int) (resp : LinkResponse),
      (∀ i, f.existsErr i = false) →
      svc.CreateLink x f rand now w req userID = (Except.ok resp, w') →
      resp.ShortCode ∉ w.db.codes ∧ w'.db.codes = w.db.codes ++ [resp.ShortCode]) ∧
    (∀ (f : Faults) (now : Nat) (w : World) (c : String) (u : Int) (req : UpdateLinkRequest),
      (svc.UpdateLink x f now w c u req).2.db.codes = w.db.codes) := by
  refine ⟨?_, ?_, ?_⟩
  · intro ops
    induction ops with
    | nil => intro w _ h; exact h
    | cons op ops ih =>
      intro w hops h
      simp only [runOps, List.foldl_cons]
      exact ih _ (fun o ho => hops o (List.mem_cons_of_mem op ho))
        (run_keeps_codes_distinct svc x op w (hops op (List.mem_cons_self op ops)) h)
  · intro f rand now w w' req userID resp hf hcreate
    have h := (createLink_codes svc x f rand now w req userID hf).2 resp (by rw [hcreate])
    rw [hcreate] at h
    exact h
  · intro f now w c u req
    exact updateLink_codes svc x f now w c u req

/-! ## The limiter in the chain of `main` -/

theorem runChain_counted (r : RateLimiter) (validate : String → Option JWTClaims) (now : Nat) :
    ∀ (hs : List Handler) (st : ChainState), Handler.rateLimit ∉ hs →
      (runChain r validate now hs st).counted = st.counted := by
  intro hs
  induction hs with
  | nil => intro st _; rfl
  | cons h hs ih =>
    intro st hmem
    have hh : h ≠ Handler.rateLimit := fun e => hmem (by simp [e])
    have hrest : Handler.rateLimit ∉ hs := fun e => hmem (List.mem_cons_of_mem h e)
    have hstep : (runHandler r validate now h st).counted = st.counted := by
      cases h <;> simp_all [runHandler]
    simp only [runChain]
    split
    · exact hstep
    · rw [ih _ hrest, hstep]

/-- On every route of the group `/api/v1` the limiter runs on the fresh
context, before any authentication handler, so the request is counted under
the key of its origin whatever credentials it carries. -/
theorem apiRoutes_counted_under_ip (r : RateLimiter) (validate : String → Option JWTClaims)
    (now : Nat) (s : CounterStore) (route : Route) (hr : route ∈ apiRoutes)
    (clientIP authHeader : String) :
    (serveRoute r validate now s route clientIP authHeader).counted
      = some ("ratelimit:" ++ clientIP) := by
  have key : ∀ rest : List Handler, Handler.rateLimit ∉ rest →
      (runChain r validate now (apiChain ++ rest)
        { ctx := newContext clientIP authHeader route.path, store := s, counted := none,
          reached := none, aborted := none }).counted = some ("ratelimit:" ++ clientIP) := by
    intro rest hrest
    have hchain : apiChain ++ rest
        = Handler.recovery :: Handler.logger :: Handler.cors :: Handler.rateLimit :: rest := rfl
    rw [hchain]
    simp only [runChain, runHandler]
    split
    · simp [RateLimiter.Limit, countRequest, countRequestAt, limitKey, identifier, newContext]
      split_ifs <;> rfl
    · rw [runChain_counted r validate now rest _ hrest]
      simp [RateLimiter.Limit, countRequest, countRequestAt, limitKey, identifier, newContext]
      split_ifs <;> rfl
  simp only [apiRoutes, List.mem_cons, List.mem_singleton, List.not_mem_nil, or_false] at hr
  rcases hr with h | h | h | h | h | h | h | h | h | h <;> subst h <;>
    exact key _ (by decide)

/-- C4, the failing input. A `PUT /api/v1/links/:shortCode` from 203.0.113.9
carrying the valid bearer token of user 7 passes `RequireAuth` and reaches the
endpoint as user 7, yet the limiter has counted it under `ratelimit:203.0.113.9`
and not under `ratelimit:user:7`, the key `Limit` builds once `user_id` is set:
the limiter of the group runs before the route's authentication handler. -/
theorem token_request_counted_under_ip :
    (serveRoute mainRateLimiter demoValidate 0 (fun _ => none) putLinkRoute
        "203.0.113.9" "Bearer tok7").counted = some "ratelimit:203.0.113.9" ∧
    (serveRoute mainRateLimiter demoValidate 0 (fun _ => none) putLinkRoute
        "203.0.113.9" "Bearer tok7").ctx.userID = some 7 ∧
    (serveRoute mainRateLimiter demoValidate 0 (fun _ => none) putLinkRoute
        "203.0.113.9" "Bearer tok7").reached = some "UpdateLink" ∧
    putLinkRoute ∈ apiRoutes ∧
    limitKey { newContext "203.0.113.9" "Bearer tok7" putLinkRoute.path with userID := some 7 }
      = "ratelimit:user:7" := by
  refine ⟨?_, ?_, ?_, ?_, ?_⟩
  · exact apiRoutes_counted_under_ip _ _ _ _ _ (by decide) _ _
  · decide
  · decide
  · decide
  · decide

/-! ## Slugs and generated codes -/

theorem isAlphanumeric_iff (ch : Char) :
    isAlphanumeric ch = true ↔
      (97 ≤ ch.toNat ∧ ch.toNat ≤ 122) ∨ (65 ≤ ch.toNat ∧ ch.toNat ≤ 90) ∨
      (48 ≤ ch.toNat ∧ ch.toNat ≤ 57) := by
  simp only [isAlphanumeric, Bool.or_eq_true, Bool.and_eq_true, decide_eq_true_eq, Char.le_def,
    Char.toNat, UInt32.le_def, or_assoc]
  rfl

theorem utf8Size_of_ascii (ch : Char) (h : ch.toNat < 128) : ch.utf8Size = 1 := by
  have hle : ch.val ≤ 127 := by
    show ch.toNat ≤ 127
    omega
  simp only [Char.utf8Size]
  exact if_pos hle

theorem ascii_of_alnum (ch : Char) (h : isAlphanumeric ch = true) : ch.toNat < 128 := by
  rw [isAlphanumeric_iff] at h
  omega

theorem byteSize_go_of_ascii :
    ∀ cs : List Char, (∀ ch ∈ cs, ch.toNat < 128) → String.utf8ByteSize.go cs = cs.length := by
  intro cs
  induction cs with
  | nil => intro _; rfl
  | cons c cs ih =>
    intro h
    simp only [String.utf8ByteSize.go, List.length_cons]
    rw [ih (fun ch hch => h ch (List.mem_cons_of_mem c hch)),
      utf8Size_of_ascii c (h c (List.mem_cons_self c cs))]

/-- A string of ASCII characters has as many bytes as characters. -/
theorem byteSize_of_ascii (s : String) (h : ∀ ch ∈ s.toList, ch.toNat < 128) :
    s.utf8ByteSize = s.length := by
  cases s with
  | mk cs => exact byteSize_go_of_ascii cs h

/-- The function `IsValidCustomSlug` accepts exactly the strings of 3 to 20
characters that are all ASCII letters or digits. -/
theorem isValidCustomSlug_iff (s : String) :
    IsValidCustomSlug s = true ↔
      3 ≤ s.length ∧ s.length ≤ 20 ∧ ∀ ch ∈ s.toList, isAlphanumeric ch = true := by
  simp only [IsValidCustomSlug]
  constructor
  · intro h
    split_ifs at h with hsize
    have hall : ∀ ch ∈ s.toList, isAlphanumeric ch = true := by simpa using h
    have hlen := byteSize_of_ascii s (fun ch hch => ascii_of_alnum ch (hall ch hch))
    simp only [Bool.or_eq_true, decide_eq_true_eq, not_or, not_lt] at hsize
    exact ⟨by omega, by omega, hall⟩
  · rintro ⟨h3, h20, hall⟩
    have hlen := byteSize_of_ascii s (fun ch hch => ascii_of_alnum ch (hall ch hch))
    have hsize : ¬ ((decide (s.utf8ByteSize < 3) || decide (s.utf8ByteSize > 20)) = true) := by
      simp only [Bool.or_eq_true, decide_eq_true_eq, not_or, not_lt]
      omega
    rw [if_neg hsize]
    simpa using hall

/-- C11 as stated fails: the request has a non-empty custom slug that
`IsValidCustomSlug` rejects, yet `CreateLink` fails with `invalid URL format`,
because the destination is normalised before the slug is looked at. -/
theorem invalid_slug_behind_invalid_url :
    badCreate.CustomSlug = some "a!" ∧ IsValidCustomSlug "a!" = false ∧
    (demoSvc.CreateLink strictX noFaults zeroRand 100 emptyWorld badCreate none).1
      = Except.error "invalid URL format" := by
  refine ⟨rfl, by rfl, by rfl⟩

/-- C11, as the code has it. `IsValidCustomSlug` is true exactly for the strings
of 3 to 20 characters (equally: bytes) that are all ASCII letters or digits;
and `CreateLink` with a non-empty custom slug that `IsValidCustomSlug` rejects
fails, leaving the stores as they are, with the invalid-slug error when the
destination normalises and with `invalid URL format` when it does not. -/
theorem custom_slug_validation (svc : LinkService) (x : Externals) (f : Faults)
    (rand : Nat → Except String (Fin 62)) (now : Nat) (w : World) (req : CreateLinkRequest)
    (userID : Option Int) (slug : String) :
    (∀ s : String, IsValidCustomSlug s = true ↔
      3 ≤ s.length ∧ s.length ≤ 20 ∧
      ∀ ch ∈ s.toList, (97 ≤ ch.toNat ∧ ch.toNat ≤ 122) ∨ (65 ≤ ch.toNat ∧ ch.toNat ≤ 90) ∨
        (48 ≤ ch.toNat ∧ ch.toNat ≤ 57)) ∧
    (∀ s : String, IsValidCustomSlug s = true → s.utf8ByteSize = s.length) ∧
    (req.CustomSlug = some slug → slug ≠ "" → IsValidCustomSlug slug = false →
      (svc.CreateLink x f rand now w req userID).2 = w ∧
      (svc.CreateLink x f rand now w req userID).1
        = match NormalizeURL x req.Destination with
          | some _ => Except.error "invalid custom slug: must be 3-20 alphanumeric characters"
          | none => Except.error "invalid URL format") := by
  refine ⟨?_, ?_, ?_⟩
  · intro s
    rw [isValidCustomSlug_iff]
    simp only [isAlphanumeric_iff]
  · intro s hs
    rw [isValidCustomSlug_iff] at hs
    exact byteSize_of_ascii s (fun ch hch => ascii_of_alnum ch (hs.2.2 ch hch))
  · intro hslug hne hinvalid
    unfold LinkService.CreateLink
    cases hn : NormalizeURL x req.Destination with
    | none => exact ⟨rfl, rfl⟩
    | some d => simp [selectCode, hslug, hne, hinvalid]

theorem char_eq_ofNat (ch : Char) : ch = Char.ofNat ch.toNat := (Char.ofNat_toNat ch).symm

/-- Lower-casing an ASCII string maps every character through `Char.toLower`. -/
theorem toLower_of_ascii (x : Externals) (s : String) (h : ∀ ch ∈ s.toList, ch.toNat < 128) :
    ToLower x s = String.mk (s.toList.map Char.toLower) := by
  simp only [ToLower]
  congr 1
  apply List.map_congr_left
  intro ch hch
  simp [h ch hch]

theorem shortCodeExists_iff_mem (db : LinkStore) (f : Faults) (i : Nat) (code : String)
    (hf : f.existsErr i = false) :
    (db.ShortCodeExists f i code).1 = true ↔ code ∈ db.codes := by
  simp only [LinkStore.ShortCodeExists, hf, Bool.false_eq_true, if_false, List.any_eq_true,
    decide_eq_true_eq, LinkStore.codes, List.mem_map]

theorem valid_slug_ne_empty (s : String) (hs : IsValidCustomSlug s = true) : s ≠ "" := by
  intro h
  rw [h] at hs
  exact absurd hs (by decide)

theorem charset_length : charset.length = 62 := by rfl

theorem charset_nodup : charset.toList.Nodup := by decide

theorem charsetAt_mem : ∀ k : Fin 62, charsetAt k ∈ charset.toList := by decide

theorem charset_alnum : ∀ ch ∈ charset.toList, isAlphanumeric ch = true := by decide

theorem alnum_mem_charset (ch : Char) (h : isAlphanumeric ch = true) :
    ch ∈ charset.toList := by
  rw [isAlphanumeric_iff] at h
  rw [char_eq_ofNat ch]
  generalize ch.toNat = n at h
  rcases h with ⟨h1, h2⟩ | ⟨h1, h2⟩ | ⟨h1, h2⟩ <;> interval_cases n <;> decide

/-- The loop of `GenerateShortCode` returns as many characters as asked for, all
of the alphabet, when the draws it makes do not fail. -/
theorem drawChars_ok (rand : Nat → Except String (Fin 62)) :
    ∀ (n pos : Nat), (∀ i, pos ≤ i → i < pos + n → ∃ k, rand i = Except.ok k) →
      ∃ cs, drawChars rand n pos = Except.ok cs ∧ cs.length = n ∧
        ∀ ch ∈ cs, ch ∈ charset.toList := by
  intro n
  induction n with
  | zero => intro pos _; exact ⟨[], rfl, rfl, fun _ h => absurd h (List.not_mem_nil _)⟩
  | succ n ih =>
    intro pos h
    obtain ⟨k, hk⟩ := h pos (le_refl _) (by omega)
    obtain ⟨cs, hcs, hlen, hmem⟩ := ih (pos + 1) (fun i h1 h2 => h i (by omega) (by omega))
    refine ⟨charsetAt k :: cs, ?_, by simp [hlen], ?_⟩
    · simp [drawChars, hk, hcs]
    · intro ch hch
      rcases List.mem_cons.mp hch with rfl | hch
      · exact charsetAt_mem k
      · exact hmem ch hch

/-- C13. When the draws it makes do not fail, `GenerateShortCode n` returns a
string of exactly n characters for n above 0 and of exactly 6 characters
otherwise, all of them from the alphabet; the alphabet holds exactly the
ASCII letters and digits, 62 distinct characters; and a generated code of 3
to 20 characters satisfies `IsValidCustomSlug`. -/
theorem generateShortCode_spec (rand : Nat → Except String (Fin 62)) (pos : Nat) (n : Int)
    (hrand : ∀ i, pos ≤ i → i < pos + (if n ≤ 0 then 6 else n.toNat) →
      ∃ k, rand i = Except.ok k) :
    (∃ code, GenerateShortCode rand pos n = Except.ok code ∧
      (code.length : Int) = (if n ≤ 0 then 6 else n) ∧
      (∀ ch ∈ code.toList, ch ∈ charset.toList) ∧
      (3 ≤ code.length → code.length ≤ 20 → IsValidCustomSlug code = true)) ∧
    charset.length = 62 ∧ charset.toList.Nodup ∧
    (∀ ch : Char, ch ∈ charset.toList ↔
      (97 ≤ ch.toNat ∧ ch.toNat ≤ 122) ∨ (65 ≤ ch.toNat ∧ ch.toNat ≤ 90) ∨
        (48 ≤ ch.toNat ∧ ch.toNat ≤ 57)) := by
  refine ⟨?_, charset_length, charset_nodup, ?_⟩
  · have hlen : (if n ≤ 0 then DefaultShortCodeLength else n).toNat
        = (if n ≤ 0 then 6 else n.toNat) := by
      split_ifs <;> rfl
    obtain ⟨cs, hcs, hl, hmem⟩ := drawChars_ok rand
      (if n ≤ 0 then DefaultShortCodeLength else n).toNat pos (by rw [hlen]; exact hrand)
    refine ⟨String.mk cs, ?_, ?_, hmem, ?_⟩
    · simp [GenerateShortCode, hcs]
    · show ((cs.length : Nat) : Int) = _
      rw [hl, hlen]
      split_ifs with h0
      · rfl
      · omega
    · intro h3 h20
      rw [isValidCustomSlug_iff]
      exact ⟨h3, h20, fun ch hch => charset_alnum ch (hmem ch hch)⟩
  · intro ch
    rw [← isAlphanumeric_iff]
    exact ⟨charset_alnum ch, alnum_mem_charset ch⟩

/-- C13 with the source that always draws index 0: the default length gives
the code `aaaaaa`. -/
theorem generateShortCode_spec_witness :
    ∃ code, GenerateShortCode zeroRand 0 0 = Except.ok code ∧
      (code.length : Int) = (if (0 : Int) ≤ 0 then 6 else 0) ∧
      (∀ ch ∈ code.toList, ch ∈ charset.toList) ∧
      (3 ≤ code.length → code.length ≤ 20 → IsValidCustomSlug code = true) :=
  (generateShortCode_spec zeroRand 0 0 (fun _ _ _ => ⟨0, rfl⟩)).1

/-! ## The retry loop of the random allocation -/

theorem drawChars_length (rand : Nat → Except String (Fin 62)) :
    ∀ (n pos : Nat) (cs : List Char), drawChars rand n pos = Except.ok cs → cs.length = n := by
  intro n
  induction n with
  | zero =>
    intro pos cs h
    simp only [drawChars, Except.ok.injEq] at h
    rw [← h]; rfl
  | succ n ih =>
    intro pos cs h
    simp only [drawChars] at h
    cases hr : rand pos with
    | error e => simp [hr] at h
    | ok k =>
      simp only [hr] at h
      cases hd : drawChars rand n (pos + 1) with
      | error e => simp [hd] at h
      | ok rest =>
        simp only [hd, Except.ok.injEq] at h
        rw [← h, List.length_cons, ih (pos + 1) rest hd]

theorem drawChars_error (rand : Nat → Except String (Fin 62)) :
    ∀ (n pos : Nat) (e : String), drawChars rand n pos = Except.error e →
      ∃ i, rand i = Except.error e := by
  intro n
  induction n with
  | zero => intro pos e h; simp [drawChars] at h
  | succ n ih =>
    intro pos e h
    simp only [drawChars] at h
    cases hr : rand pos with
    | error e' =>
      simp only [hr, Except.error.injEq] at h
      exact ⟨pos, by rw [hr, h]⟩
    | ok k =>
      simp only [hr] at h
      cases hd : drawChars rand n (pos + 1) with
      | error e' =>
        simp only [hd, Except.error.injEq] at h
        exact ih (pos + 1) e (by rw [hd, h])
      | ok rest => simp [hd] at h

/-- A code generated at the length `CreateLink` asks for is not empty. -/
theorem generated_ne_empty (rand : Nat → Except String (Fin 62)) (pos : Nat) (c : String)
    (h : GenerateShortCode rand pos 6 = Except.ok c) : c ≠ "" := by
  have h6 : (if (6 : Int) ≤ 0 then DefaultShortCodeLength else 6).toNat = 6 := by decide
  simp only [GenerateShortCode, h6] at h
  cases hd : drawChars rand 6 pos with
  | error e => simp [hd] at h
  | ok cs =>
    simp only [hd, Except.ok.injEq] at h
    have hlen := drawChars_length rand _ pos cs hd
    intro hc
    rw [← h] at hc
    have : cs = [] := by simpa using congrArg String.data hc
    rw [this] at hlen
    simp at hlen

theorem generate_error (rand : Nat → Except String (Fin 62)) (pos : Nat) (n : Int) (e : String)
    (h : GenerateShortCode rand pos n = Except.error e) : ∃ i, rand i = Except.error e := by
  simp only [GenerateShortCode] at h
  cases hd : drawChars rand (if n ≤ 0 then DefaultShortCodeLength else n).toNat pos with
  | error e' =>
    simp only [hd, Except.error.injEq] at h
    exact drawChars_error rand _ pos e (by rw [hd, h])
  | ok cs => simp [hd] at h

/-- The loop ends with an empty `shortCode` exactly when every attempt produced
a candidate that the store reported as existing. -/
theorem randomCode_exhausted (f : Faults) (rand : Nat → Except String (Fin 62))
    (db : LinkStore) :
    ∀ (fuel i : Nat), randomCode f rand db i fuel = Except.ok "" ↔
      ∀ j, j < fuel → ∃ c, GenerateShortCode rand (6 * (i + j)) 6 = Except.ok c ∧
        (db.ShortCodeExists f (i + j) c).1 = true := by
  intro fuel
  induction fuel with
  | zero => intro i; simp [randomCode]
  | succ fuel ih =>
    intro i
    simp only [randomCode]
    cases hg : GenerateShortCode rand (6 * i) 6 with
    | error e =>
      simp only [false_iff, not_forall, reduceCtorEq]
      exact ⟨0, by omega, by simp [hg]⟩
    | ok c =>
      cases hex : (db.ShortCodeExists f i c).1 with
      | false =>
        simp only [hex, Bool.not_false, if_true, Except.ok.injEq]
        constructor
        · intro h; exact absurd h (generated_ne_empty rand _ c hg)
        · intro h
          obtain ⟨c', hc', hex'⟩ := h 0 (by omega)
          simp only [Nat.add_zero, hg, Except.ok.injEq] at hc'
          subst hc'
          simp [hex] at hex'
      | true =>
        simp only [hex, Bool.not_true, Bool.false_eq_true, if_false]
        rw [ih (i + 1)]
        constructor
        · intro h j hj
          cases j with
          | zero => exact ⟨c, by simpa using hg, by simpa using hex⟩
          | succ j =>
            have := h j (by omega)
            rwa [show i + 1 + j = i + (j + 1) by omega] at this
        · intro h j hj
          have := h (j + 1) (by omega)
          rwa [show i + (j + 1) = i + 1 + j by omega] at this

/-- The loop stops at the first candidate the store reports as absent and
returns it; it has then made one attempt and one check per candidate. -/
theorem randomCode_first_free (f : Faults) (rand : Nat → Except String (Fin 62))
    (db : LinkStore) :
    ∀ (fuel i j : Nat) (c : String), j < fuel →
      (∀ t, t < j → ∃ c', GenerateShortCode rand (6 * (i + t)) 6 = Except.ok c' ∧
        (db.ShortCodeExists f (i + t) c').1 = true) →
      GenerateShortCode rand (6 * (i + j)) 6 = Except.ok c →
      (db.ShortCodeExists f (i + j) c).1 = false →
      randomCode f rand db i fuel = Except.ok c ∧ randomAttempts f rand db i fuel = j + 1 ∧
        randomChecks f rand db i fuel = j + 1 := by
  intro fuel
  induction fuel with
  | zero => intro i j c hj; omega
  | succ fuel ih =>
    intro i j c hj hbefore hgen hfree
    cases j with
    | zero =>
      simp only [Nat.add_zero] at hgen hfree
      simp [randomCode, randomAttempts, randomChecks, hgen, hfree]
    | succ j =>
      obtain ⟨c0, hc0, hex0⟩ := hbefore 0 (by omega)
      simp only [Nat.add_zero] at hc0 hex0
      have hrec := ih (i + 1) j c (by omega)
        (fun t ht => by
          have := hbefore (t + 1) (by omega)
          rwa [show i + (t + 1) = i + 1 + t by omega] at this)
        (by rwa [show i + (j + 1) = i + 1 + j by omega] at hgen)
        (by rwa [show i + (j + 1) = i + 1 + j by omega] at hfree)
      obtain ⟨hr1, hr2, hr3⟩ := hrec
      simp only [randomCode, randomAttempts, randomChecks, hc0, hex0, Bool.not_true,
        Bool.false_eq_true, if_false, hr1, hr2, hr3, true_and]
      omega

theorem randomAttempts_le (f : Faults) (rand : Nat → Except String (Fin 62)) (db : LinkStore) :
    ∀ (fuel i : Nat), randomAttempts f rand db i fuel ≤ fuel ∧
      randomChecks f rand db i fuel ≤ randomAttempts f rand db i fuel := by
  intro fuel
  induction fuel with
  | zero => intro i; simp [randomAttempts, randomChecks]
  | succ fuel ih =>
    intro i
    simp only [randomAttempts, randomChecks]
    cases GenerateShortCode rand (6 * i) 6 with
    | error e => simp
    | ok c =>
      simp only
      obtain ⟨h1, h2⟩ := ih (i + 1)
      split_ifs
      · exact ⟨by omega, le_refl _⟩
      · exact ⟨by rw [Nat.add_comm]; exact Nat.succ_le_succ h1, Nat.add_le_add_left h2 1⟩

theorem randomCode_error (f : Faults) (rand : Nat → Except String (Fin 62)) (db : LinkStore) :
    ∀ (fuel i : Nat) (e : String), randomCode f rand db i fuel = Except.error e →
      ∃ k, rand k = Except.error e := by
  intro fuel
  induction fuel with
  | zero => intro i e h; simp [randomCode] at h
  | succ fuel ih =>
    intro i e h
    simp only [randomCode] at h
    cases hg : GenerateShortCode rand (6 * i) 6 with
    | error e' =>
      simp only [hg, Except.error.injEq] at h
      exact generate_error rand _ 6 e (by rw [hg, h])
    | ok c =>
      simp only [hg] at h
      split_ifs at h
      exact ih (i + 1) e h

theorem parseExpiry_error (x : Externals) (expiresAt : Option String) (e : String)
    (h : parseExpiry x expiresAt = Except.error e) : e = "invalid expiry date format" := by
  cases expiresAt with
  | none => simp [parseExpiry] at h
  | some str =>
    simp only [parseExpiry] at h
    split_ifs at h
    · cases hp : x.timeParse str with
      | none =>
        simp only [hp, Except.error.injEq] at h
        exact h.symm
      | some t => simp [hp] at h

theorem selectCode_random (x : Externals) (f : Faults) (rand : Nat → Except String (Fin 62))
    (db : LinkStore) (slug : Option String) (hslug : slug = none ∨ slug = some "") :
    selectCode x f rand db slug
      = match randomCode f rand db 0 5 with
        | Except.error e => Except.error e
        | Except.ok shortCode =>
          if shortCode = "" then Except.error "failed to generate unique short code"
          else Except.ok shortCode := by
  rcases hslug with rfl | rfl
  · rfl
  · simp [selectCode]

/-- The random allocation fails with the exhaustion error exactly when all five
attempts produced a candidate that the store reported as existing. -/
theorem selectCode_exhausted_iff (x : Externals) (f : Faults)
    (rand : Nat → Except String (Fin 62)) (db : LinkStore) (slug : Option String)
    (hslug : slug = none ∨ slug = some "")
    (hrand : ∀ i e, rand i = Except.error e → e ≠ "failed to generate unique short code") :
    selectCode x f rand db slug = Except.error "failed to generate unique short code" ↔
      ∀ j, j < 5 → ∃ c, GenerateShortCode rand (6 * j) 6 = Except.ok c ∧
        (db.ShortCodeExists f j c).1 = true := by
  rw [selectCode_random x f rand db slug hslug]
  have hex := randomCode_exhausted f rand db 5 0
  simp only [Nat.zero_add] at hex
  rw [← hex]
  cases hr : randomCode f rand db 0 5 with
  | error e =>
    simp only [Except.error.injEq, reduceCtorEq, iff_false]
    intro he
    obtain ⟨k, hk⟩ := randomCode_error f rand db 5 0 e hr
    exact hrand k e hk he
  | ok sc =>
    simp only [Except.ok.injEq]
    split_ifs with h0
    · simp [h0]
    · simp [h0]

/-- C14. The random allocation of `CreateLink` (no custom slug, or an empty one)
makes at most 5 generate-and-check attempts; it selects the first candidate
the store reports as absent and stops there, after as many attempts as
candidates; and, the random source not failing under the name of that
error, it fails with `failed to generate unique short code` exactly when all
5 candidates were reported as existing, which with succeeding checks means
that all 5 are stored codes. `CreateLink` as a whole returns that error exactly
when its destination normalises and the allocation fails so. -/
theorem random_allocation (x : Externals) (f : Faults) (rand : Nat → Except String (Fin 62))
    (db : LinkStore) (slug : Option String) (hslug : slug = none ∨ slug = some "") :
    (randomAttempts f rand db 0 5 ≤ 5 ∧ existenceChecks f rand db slug ≤ 5) ∧
    (∀ (j : Nat) (c : String), j < 5 →
      (∀ t, t < j → ∃ c', GenerateShortCode rand (6 * t) 6 = Except.ok c' ∧
        (db.ShortCodeExists f t c').1 = true) →
      GenerateShortCode rand (6 * j) 6 = Except.ok c →
      (db.ShortCodeExists f j c).1 = false →
      selectCode x f rand db slug = Except.ok c ∧ randomAttempts f rand db 0 5 = j + 1) ∧
    ((∀ i e, rand i = Except.error e → e ≠ "failed to generate unique short code") →
      (selectCode x f rand db slug = Except.error "failed to generate unique short code" ↔
        ∀ j, j < 5 → ∃ c, GenerateShortCode rand (6 * j) 6 = Except.ok c ∧
          (db.ShortCodeExists f j c).1 = true) ∧
      ((∀ i, f.existsErr i = false) →
        (selectCode x f rand db slug = Except.error "failed to generate unique short code" ↔
          ∀ j, j < 5 → ∃ c, GenerateShortCode rand (6 * j) 6 = Except.ok c ∧
            c ∈ db.codes)) ∧
      (∀ (svc : LinkService) (now : Nat) (w : World) (req : CreateLinkRequest)
        (userID : Option Int), w.db = db → req.CustomSlug = slug →
        ((svc.CreateLink x f rand now w req userID).1
            = Except.error "failed to generate unique short code" ↔
          (∃ d, NormalizeURL x req.Destination = some d) ∧
          ∀ j, j < 5 → ∃ c, GenerateShortCode rand (6 * j) 6 = Except.ok c ∧
            (db.ShortCodeExists f j c).1 = true))) := by
  refine ⟨⟨(randomAttempts_le f rand db 5 0).1, ?_⟩, ?_, ?_⟩
  · have h := randomAttempts_le f rand db 5 0
    have hc : existenceChecks f rand db slug = randomChecks f rand db 0 5 := by
      rcases hslug with rfl | rfl
      · rfl
      · simp [existenceChecks]
    rw [hc]
    exact le_trans h.2 h.1
  · intro j c hj hbefore hgen hfree
    obtain ⟨h1, h2, _⟩ := randomCode_first_free f rand db 5 0 j c hj
      (fun t ht => by simpa using hbefore t ht) (by simpa using hgen) (by simpa using hfree)
    refine ⟨?_, h2⟩
    rw [selectCode_random x f rand db slug hslug, h1]
    simp [generated_ne_empty rand _ c hgen]
  · intro hrand
    have hiff := selectCode_exhausted_iff x f rand db slug hslug hrand
    refine ⟨hiff, ?_, ?_⟩
    · intro hchecks
      rw [hiff]
      constructor
      · intro h j hj
        obtain ⟨c, hc, hex⟩ := h j hj
        exact ⟨c, hc, (shortCodeExists_iff_mem db f j c (hchecks j)).mp hex⟩
      · intro h j hj
        obtain ⟨c, hc, hmem⟩ := h j hj
        exact ⟨c, hc, (shortCodeExists_iff_mem db f j c (hchecks j)).mpr hmem⟩
    · intro svc now w req userID hdb hreq
      rw [← hiff]
      subst hdb hreq
      unfold LinkService.CreateLink
      cases hn : NormalizeURL x req.Destination with
      | none => simp
      | some d =>
        simp only [Option.some.injEq, exists_eq', true_and]
        cases hc : selectCode x f rand w.db req.CustomSlug with
        | error e => simp
        | ok code =>
          simp only [reduceCtorEq, iff_false]
          cases hp : parseExpiry x req.ExpiresAt with
          | error e =>
            have he := parseExpiry_error x req.ExpiresAt e hp
            simp [he]
          | ok t =>
            simp only
            split <;> simp

/-- C14 on the store that holds `aaaaaa` with the source that always draws
index 0: all five candidates collide and the allocation fails. -/
theorem random_allocation_witness :
    selectCode demoX noFaults zeroRand collidingWorld.db none
      = Except.error "failed to generate unique short code" :=
  ((random_allocation demoX noFaults zeroRand collidingWorld.db none (Or.inl rfl)).2.2
    (fun i e h => by simp [zeroRand] at h)).1.mpr
    (fun j _ => ⟨"aaaaaa", by rfl, by rfl⟩)

/-- A failing `GetDestination` leaves the world as it is. -/
theorem getDestination_error_world (svc : LinkService) (f : Faults) (now : Nat)
    (w : World) (code : String) (e : String)
    (he : (svc.GetDestination f now w code).1 = Except.error e) :
    (svc.GetDestination f now w code).2 = w := by
  simp only [LinkService.GetDestination] at he ⊢
  split
  · rename_i h; simp [h] at he
  · split
    · rfl
    · rename_i h1 _ link h2
      simp only [h1, h2] at he
      split_ifs at he ⊢
      · rfl
      · rfl

/-! ## Failures of `CreateLink`, the redirect and the recorder -/

/-- C15. Whenever `CreateLink` returns an error, in particular one raised before
the insert (invalid URL, invalid custom slug, custom slug taken, allocation
exhausted, invalid expiry format), the link store and the destination cache
are exactly as before the call; each of those checks, when it fails, ends the
call with its error. -/
theorem createLink_error_leaves_stores (svc : LinkService) (x : Externals) (f : Faults)
    (rand : Nat → Except String (Fin 62)) (now : Nat) (w : World) (req : CreateLinkRequest)
    (userID : Option Int) :
    (∀ e, (svc.CreateLink x f rand now w req userID).1 = Except.error e →
      (svc.CreateLink x f rand now w req userID).2 = w) ∧
    (NormalizeURL x req.Destination = none →
      svc.CreateLink x f rand now w req userID = (Except.error "invalid URL format", w)) ∧
    (∀ d e, NormalizeURL x req.Destination = some d →
      selectCode x f rand w.db req.CustomSlug = Except.error e →
      svc.CreateLink x f rand now w req userID = (Except.error e, w)) ∧
    (∀ d code e, NormalizeURL x req.Destination = some d →
      selectCode x f rand w.db req.CustomSlug = Except.ok code →
      parseExpiry x req.ExpiresAt = Except.error e →
      svc.CreateLink x f rand now w req userID
        = (Except.error "invalid expiry date format", w)) := by
  refine ⟨?_, ?_, ?_, ?_⟩
  · intro e
    unfold LinkService.CreateLink
    cases NormalizeURL x req.Destination with
    | none => simp
    | some d =>
      cases selectCode x f rand w.db req.CustomSlug with
      | error e' => simp
      | ok code =>
        cases parseExpiry x req.ExpiresAt with
        | error e' => simp
        | ok t =>
          simp only
          split <;> simp
  · intro hn
    simp [LinkService.CreateLink, hn]
  · intro d e hn hc
    simp [LinkService.CreateLink, hn, hc]
  · intro d code e hn hc hp
    have he := parseExpiry_error x req.ExpiresAt e hp
    subst he
    simp [LinkService.CreateLink, hn, hc, hp]

/-- C16. Whichever error `GetDestination` returns (and it returns no other than
`link not found`, `link is inactive` and `link has expired`), `Redirect` answers
with the same 404 `Link not found or expired`, starts no click recording, logs
nothing and leaves the analytics side untouched. -/
theorem redirect_failure_uniform (svc : LinkService) (parseUserAgent : String → DeviceInfo)
    (f g : Faults) (panic : Option String) (now : Nat) (w : World) (a : Analytics)
    (req : RedirectRequest) :
    (∀ e, (svc.GetDestination f now w req.shortCode).1 = Except.error e →
      (Redirect svc parseUserAgent f g panic now w a req).response
        = Response.message 404 "Link not found or expired" ∧
      (Redirect svc parseUserAgent f g panic now w a req).recording = none ∧
      (Redirect svc parseUserAgent f g panic now w a req).logs = [] ∧
      (Redirect svc parseUserAgent f g panic now w a req).analytics = a ∧
      (Redirect svc parseUserAgent f g panic now w a req).world = w) ∧
    (∀ e, (svc.GetDestination f now w req.shortCode).1 = Except.error e →
      e = "link not found" ∨ e = "link is inactive" ∨ e = "link has expired") := by
  constructor
  · intro e he
    unfold Redirect
    cases hgd : svc.GetDestination f now w req.shortCode with
    | mk res w1 =>
      rw [hgd] at he
      simp only at he
      subst he
      have hw : w1 = w := by
        have := (getDestination_error_world svc f now w req.shortCode e
          (by rw [hgd]))
        rw [hgd] at this
        exact this
      simp [hw]
  · intro e he
    simp only [LinkService.GetDestination] at he
    split at he
    · simp at he
    · split at he
      · simp only [Except.error.injEq] at he
        exact Or.inl he.symm
      · split_ifs at he
        · simp only [Except.error.injEq] at he
          exact Or.inr (Or.inl he.symm)
        · simp only [Except.error.injEq] at he
          exact Or.inr (Or.inr he.symm)

/-- C17. When `GetDestination` returns destination d, `Redirect` answers 302 to d
whatever happens to the recording: `RecordClick` succeeding, returning an
error under any faults, or panicking. The error or the panic only shows up
as a logged line; the response does not depend on it. -/
theorem redirect_unaffected_by_recording (svc : LinkService)
    (parseUserAgent : String → DeviceInfo) (f g : Faults) (panic : Option String) (now : Nat)
    (w : World) (a : Analytics) (req : RedirectRequest) (d : String)
    (hd : (svc.GetDestination f now w req.shortCode).1 = Except.ok d) :
    (Redirect svc parseUserAgent f g panic now w a req).response = Response.redirect 302 d ∧
    (∀ (g' : Faults) (panic' : Option String),
      (Redirect svc parseUserAgent f g' panic' now w a req).response
        = (Redirect svc parseUserAgent f g panic now w a req).response) ∧
    (∀ v, panic = some v →
      (Redirect svc parseUserAgent f g panic now w a req).logs
        = ["Panic in analytics logging: " ++ v]) ∧
    (∀ e, panic = none →
      (svc.RecordClick g now (svc.GetDestination f now w req.shortCode).2 a req.shortCode
        (buildClick (parseUserAgent req.userAgent) req)).result = Except.error e →
      (Redirect svc parseUserAgent f g panic now w a req).logs
        = ["Failed to record click for " ++ req.shortCode ++ ": " ++ e]) := by
  have hresp : ∀ (g' : Faults) (panic' : Option String),
      (Redirect svc parseUserAgent f g' panic' now w a req).response
        = Response.redirect 302 d := by
    intro g' panic'
    unfold Redirect
    cases hgd : svc.GetDestination f now w req.shortCode with
    | mk res w1 =>
      rw [hgd] at hd
      simp only at hd
      subst hd
      rfl
  refine ⟨hresp g panic, fun g' panic' => by rw [hresp g' panic', hresp g panic], ?_, ?_⟩
  · intro v hv
    unfold Redirect
    cases hgd : svc.GetDestination f now w req.shortCode with
    | mk res w1 =>
      rw [hgd] at hd
      simp only at hd
      subst hd hv
      rfl
  · intro e hp he
    unfold Redirect
    cases hgd : svc.GetDestination f now w req.shortCode with
    | mk res w1 =>
      rw [hgd] at hd he
      simp only at hd he
      subst hd hp
      simp [recordTask, he]

/-- C17 on the sample world: the insert of the click row fails, the failure is
logged, and the response is still the 302 to the stored destination. -/
theorem redirect_unaffected_by_recording_witness :
    (Redirect demoSvc demoParse noFaults clickInsertFails none 100 liveWorld emptyAnalytics
        demoRedirect).response = Response.redirect 302 "https://old.example" ∧
    (Redirect demoSvc demoParse noFaults clickInsertFails none 100 liveWorld emptyAnalytics
        demoRedirect).logs = ["Failed to record click for abc123: driver: bad connection"] :=
  ⟨(redirect_unaffected_by_recording demoSvc demoParse noFaults clickInsertFails none 100
      liveWorld emptyAnalytics demoRedirect "https://old.example" (by rfl)).1,
   (redirect_unaffected_by_recording demoSvc demoParse noFaults clickInsertFails none 100
      liveWorld emptyAnalytics demoRedirect "https://old.example" (by rfl)).2.2.2
      "driver: bad connection" rfl (by rfl)⟩

/-- C18 as stated fails: on the sample world the link exists, the insert of the
click row fails, and `RecordClick` returns that error after two store calls;
neither the increment of the persisted counter nor that of the ephemeral
counter is attempted, and both counters are as before. -/
theorem failed_click_insert_skips_increment :
    (demoSvc.RecordClick clickInsertFails 100 liveWorld emptyAnalytics "abc123" demoClick).result
      = Except.error "driver: bad connection" ∧
    (demoSvc.RecordClick clickInsertFails 100 liveWorld emptyAnalytics "abc123" demoClick).steps
      = [RecordStep.findLink, RecordStep.insertClick] ∧
    (demoSvc.RecordClick clickInsertFails 100 liveWorld emptyAnalytics "abc123"
      demoClick).world.db = liveWorld.db ∧
    (demoSvc.RecordClick clickInsertFails 100 liveWorld emptyAnalytics "abc123"
      demoClick).analytics.counters (clicksKey "abc123") = none := by
  refine ⟨by rfl, by rfl, by rfl, by rfl⟩

/-- C18, as the code has it. For a short code whose link is found: when the
insert of the click row fails, `RecordClick` returns that error at once, having
attempted neither increment and changed nothing; when the insert succeeds,
both increments are attempted and `RecordClick` returns no error, and the
increment of the ephemeral counter is attempted also when that of the
persisted counter fails. -/
theorem recordClick_steps (svc : LinkService) (f : Faults) (now : Nat) (w : World)
    (a : Analytics) (code : String) (click : Click) (l : ShortLink)
    (hfind : w.db.FindByShortCode f code = Except.ok l) :
    (f.clickInsertErr = true →
      (svc.RecordClick f now w a code click).steps
        = [RecordStep.findLink, RecordStep.insertClick] ∧
      (∃ e, (svc.RecordClick f now w a code click).result = Except.error e) ∧
      (svc.RecordClick f now w a code click).world = w ∧
      (svc.RecordClick f now w a code click).analytics = a) ∧
    (f.clickInsertErr = false →
      (svc.RecordClick f now w a code click).steps
        = [RecordStep.findLink, RecordStep.insertClick, RecordStep.incrementCount,
            RecordStep.incrementCounter] ∧
      (svc.RecordClick f now w a code click).result = Except.ok () ∧
      (f.counterErr = false →
        (svc.RecordClick f now w a code click).analytics.counters
          = redisIncr a.counters (clicksKey code) now)) := by
  constructor
  · intro hins
    simp [LinkService.RecordClick, hfind, ClickStore.Create, hins]
  · intro hins
    simp only [LinkService.RecordClick, hfind, ClickStore.Create, hins, Bool.false_eq_true,
      if_false, true_and]
    intro hc
    simp [hc]

/-- C18 on the sample world with both stores answering: all four store calls
are made. -/
theorem recordClick_steps_witness :
    (demoSvc.RecordClick noFaults 100 liveWorld emptyAnalytics "abc123" demoClick).steps
      = [RecordStep.findLink, RecordStep.insertClick, RecordStep.incrementCount,
          RecordStep.incrementCounter] :=
  ((recordClick_steps demoSvc noFaults 100 liveWorld emptyAnalytics "abc123" demoClick liveLink
    (by rfl)).2 rfl).1

/-- C20. For an existing link and a user who is not its owner (a link without
owner has none), with the lookup going through, `UpdateLink` and `DeleteLink`
fail with their `unauthorized ...` errors, which differ from the `link not found`
of an absent code, and leave the link store and the cache as they are. -/
theorem ownership_enforced (svc : LinkService) (x : Externals) (f : Faults) (now : Nat)
    (w : World) (c : String) (u : Int) (req : UpdateLinkRequest) (l : ShortLink)
    (hf : f.findErr = false)
    (hfind : w.db.rows.find? (fun l => decide (l.ShortCode = c)) = some l)
    (hown : l.UserID ≠ some u) :
    svc.UpdateLink x f now w c u req = (Except.error "unauthorized to update this link", w) ∧
    svc.DeleteLink f w c u = (Except.error "unauthorized to delete this link", w) ∧
    "unauthorized to update this link" ≠ "link not found" ∧
    "unauthorized to delete this link" ≠ "link not found" ∧
    (∀ c' : String, (∀ l' ∈ w.db.rows, l'.ShortCode ≠ c') →
      svc.UpdateLink x f now w c' u req = (Except.error "link not found", w) ∧
      svc.DeleteLink f w c' u = (Except.error "link not found", w)) := by
  refine ⟨?_, ?_, by decide, by decide, ?_⟩
  · simp [LinkService.UpdateLink, LinkStore.FindByShortCode, hf, hfind, hown]
  · simp [LinkService.DeleteLink, LinkStore.FindByShortCode, hf, hfind, hown]
  · intro c' habsent
    have hnone : w.db.rows.find? (fun l => decide (l.ShortCode = c')) = none := by
      rw [List.find?_eq_none]
      intro l' hl'
      simpa using habsent l' hl'
    simp [LinkService.UpdateLink, LinkService.DeleteLink, LinkStore.FindByShortCode, hf, hnone]

/-- C20 on the sample world: user 8 may neither update nor delete the link of
user 7. -/
theorem ownership_enforced_witness :
    demoSvc.UpdateLink demoX noFaults 100 liveWorld "abc123" 8 retargetingUpdate
      = (Except.error "unauthorized to update this link", liveWorld) ∧
    demoSvc.DeleteLink noFaults liveWorld "abc123" 8
      = (Except.error "unauthorized to delete this link", liveWorld) :=
  ⟨(ownership_enforced demoSvc demoX noFaults 100 liveWorld "abc123" 8 retargetingUpdate
      liveLink rfl rfl (by decide)).1,
   (ownership_enforced demoSvc demoX noFaults 100 liveWorld "abc123" 8 retargetingUpdate
      liveLink rfl rfl (by decide)).2.1⟩

/-! ## The click counter -/

theorem countsRelated_refl (rel : Int → Int → Prop) (hrefl : ∀ n, rel n n) (db : LinkStore) :
    LinkStore.countsRelated rel db db :=
  ⟨le_refl _, fun l' hl' _ => ⟨l', hl', rfl, hrefl _⟩⟩

theorem countsRelated_of_eq (db db' : LinkStore) (h : LinkStore.countsRelated (· = ·) db db') :
    LinkStore.countsRelated (· ≤ ·) db db' :=
  ⟨h.1, fun l' hl' hlt => by
    obtain ⟨l, hl, hid, hc⟩ := h.2 l' hl' hlt
    exact ⟨l, hl, hid, le_of_eq hc⟩⟩

theorem countsRelated_trans (db db' db'' : LinkStore)
    (h1 : LinkStore.countsRelated (· ≤ ·) db db')
    (h2 : LinkStore.countsRelated (· ≤ ·) db' db'') :
    LinkStore.countsRelated (· ≤ ·) db db'' := by
  refine ⟨le_trans h1.1 h2.1, ?_⟩
  intro l'' hl'' hlt
  obtain ⟨l', hl', hid', hc'⟩ := h2.2 l'' hl'' (lt_of_lt_of_le hlt h1.1)
  obtain ⟨l, hl, hid, hc⟩ := h1.2 l' hl' (by rw [hid']; exact hlt)
  exact ⟨l, hl, by rw [hid, hid'], le_trans hc hc'⟩

/-- Rows rewritten in place, ids kept: the counters are related as the rewrite
relates them, and well-formedness is kept. -/
theorem countsRelated_of_map (rel : Int → Int → Prop) (db db' : LinkStore)
    (g : ShortLink → ShortLink) (hg : ∀ l, (g l).ID = l.ID ∧ rel l.ClickCount (g l).ClickCount)
    (hrows : db'.rows = db.rows.map g) (hnext : db'.nextID = db.nextID) :
    LinkStore.countsRelated rel db db' ∧ (db.WF → db'.WF) := by
  refine ⟨⟨le_of_eq hnext.symm, ?_⟩, ?_⟩
  · intro l' hl' _
    rw [hrows, List.mem_map] at hl'
    obtain ⟨l, hl, rfl⟩ := hl'
    exact ⟨l, hl, (hg l).1.symm, (hg l).2⟩
  · rintro ⟨hnodup, hlt⟩
    refine ⟨?_, ?_⟩
    · rw [hrows, List.map_map]
      have : ((fun l => l.ID) ∘ g) = (fun l : ShortLink => l.ID) := by
        funext l
        exact (hg l).1
      rw [this]
      exact hnodup
    · intro l' hl'
      rw [hrows, List.mem_map] at hl'
      obtain ⟨l, hl, rfl⟩ := hl'
      rw [(hg l).1, hnext]
      exact hlt l hl

/-- Rows removed: the counters of the remaining rows are the same, and
well-formedness is kept. -/
theorem countsRelated_of_sublist (db db' : LinkStore) (hrows : db'.rows.Sublist db.rows)
    (hnext : db'.nextID = db.nextID) :
    LinkStore.countsRelated (· = ·) db db' ∧ (db.WF → db'.WF) := by
  refine ⟨⟨le_of_eq hnext.symm, fun l' hl' _ => ⟨l', hrows.subset hl', rfl, rfl⟩⟩, ?_⟩
  rintro ⟨hnodup, hlt⟩
  exact ⟨List.Nodup.sublist (List.Sublist.map _ hrows) hnodup,
    fun l' hl' => by rw [hnext]; exact hlt l' (hrows.subset hl')⟩

/-- A row appended under the next id: the counters of the old rows are the
same, and well-formedness is kept. -/
theorem countsRelated_of_append (db db' : LinkStore) (stored : ShortLink)
    (hid : stored.ID = db.nextID) (hrows : db'.rows = db.rows ++ [stored])
    (hnext : db'.nextID = db.nextID + 1) :
    LinkStore.countsRelated (· = ·) db db' ∧ (db.WF → db'.WF) := by
  refine ⟨⟨by rw [hnext]; omega, ?_⟩, ?_⟩
  · intro l' hl' hlt
    rw [hrows, List.mem_append, List.mem_singleton] at hl'
    rcases hl' with hl' | rfl
    · exact ⟨l', hl', rfl, rfl⟩
    · omega
  · rintro ⟨hnodup, hlt⟩
    refine ⟨?_, ?_⟩
    · rw [hrows, List.map_append, List.map_singleton]
      refine List.Nodup.append hnodup (List.nodup_singleton _) ?_
      rw [List.disjoint_singleton]
      intro hmem
      rw [List.mem_map] at hmem
      obtain ⟨l, hl, hl2⟩ := hmem
      have := hlt l hl
      omega
    · intro l' hl'
      rw [hrows, List.mem_append, List.mem_singleton] at hl'
      rw [hnext]
      rcases hl' with hl' | rfl
      · have := hlt l' hl'; omega
      · omega

theorem createLink_counts (svc : LinkService) (x : Externals) (f : Faults)
    (rand : Nat → Except String (Fin 62)) (now : Nat) (w : World) (req : CreateLinkRequest)
    (userID : Option Int) :
    LinkStore.countsRelated (· = ·) w.db (svc.CreateLink x f rand now w req userID).2.db ∧
    (w.db.WF → (svc.CreateLink x f rand now w req userID).2.db.WF) := by
  have hsame : LinkStore.countsRelated (· = ·) w.db w.db ∧ (w.db.WF → w.db.WF) :=
    ⟨countsRelated_refl _ (fun _ => rfl) _, id⟩
  unfold LinkService.CreateLink
  cases NormalizeURL x req.Destination with
  | none => exact hsame
  | some d =>
    cases selectCode x f rand w.db req.CustomSlug with
    | error e => exact hsame
    | ok code =>
      cases parseExpiry x req.ExpiresAt with
      | error e => exact hsame
      | ok t =>
        simp only [LinkStore.Create]
        split_ifs
        · exact hsame
        · exact hsame
        · exact countsRelated_of_append _ _ _ rfl rfl rfl

theorem updateLink_counts (svc : LinkService) (x : Externals) (f : Faults) (now : Nat)
    (w : World) (c : String) (u : Int) (req : UpdateLinkRequest) :
    LinkStore.countsRelated (· = ·) w.db (svc.UpdateLink x f now w c u req).2.db ∧
    (w.db.WF → (svc.UpdateLink x f now w c u req).2.db.WF) := by
  have hsame : LinkStore.countsRelated (· = ·) w.db w.db ∧ (w.db.WF → w.db.WF) :=
    ⟨countsRelated_refl _ (fun _ => rfl) _, id⟩
  unfold LinkService.UpdateLink
  cases w.db.FindByShortCode f c with
  | error e => exact hsame
  | ok link =>
    simp only
    split_ifs
    · exact hsame
    · cases updateDestination x f w.cache c link.Destination req.Destination with
      | error e => exact hsame
      | ok r =>
        cases parseExpiry x req.ExpiresAt with
        | error e => exact hsame
        | ok parsed =>
          simp only [LinkStore.Update]
          split_ifs
          · exact hsame
          · refine countsRelated_of_map _ _ _ _ ?_ rfl rfl
            intro l
            split_ifs <;> exact ⟨rfl, rfl⟩
          · exact hsame

theorem deleteLink_counts (svc : LinkService) (f : Faults) (w : World) (c : String) (u : Int) :
    LinkStore.countsRelated (· = ·) w.db (svc.DeleteLink f w c u).2.db ∧
    (w.db.WF → (svc.DeleteLink f w c u).2.db.WF) := by
  have hsame : LinkStore.countsRelated (· = ·) w.db w.db ∧ (w.db.WF → w.db.WF) :=
    ⟨countsRelated_refl _ (fun _ => rfl) _, id⟩
  unfold LinkService.DeleteLink
  cases w.db.FindByShortCode f c with
  | error e => exact hsame
  | ok link =>
    simp only
    split_ifs
    · exact hsame
    · simp only [LinkStore.Delete]
      split_ifs
      · exact hsame
      · exact countsRelated_of_sublist _ _ (List.filter_sublist _) rfl
      · exact hsame

theorem getDestination_db (svc : LinkService) (f : Faults) (now : Nat) (w : World)
    (code : String) : (svc.GetDestination f now w code).2.db = w.db := by
  simp only [LinkService.GetDestination]
  split
  · rfl
  · split
    · rfl
    · split_ifs <;> rfl

theorem recordClick_counts (svc : LinkService) (f : Faults) (now : Nat) (w : World)
    (a : Analytics) (code : String) (click : Click) :
    LinkStore.countsRelated (· ≤ ·) w.db (svc.RecordClick f now w a code click).world.db ∧
    (w.db.WF → (svc.RecordClick f now w a code click).world.db.WF) := by
  have hsame : LinkStore.countsRelated (· ≤ ·) w.db w.db ∧ (w.db.WF → w.db.WF) :=
    ⟨countsRelated_refl _ (fun _ => le_refl _) _, id⟩
  unfold LinkService.RecordClick
  cases w.db.FindByShortCode f code with
  | error e => exact hsame
  | ok link =>
    simp only [ClickStore.Create, LinkStore.IncrementClickCount]
    cases hins : f.clickInsertErr with
    | true => exact hsame
    | false =>
      cases hincr : f.incrErr with
      | true => exact hsame
      | false =>
        refine countsRelated_of_map _ _ _ _ ?_ rfl rfl
        intro l
        split_ifs
        · exact ⟨rfl, by simp⟩
        · exact ⟨rfl, le_refl _⟩

/-- Every call of the service keeps the ids well-formed and lets no counter of
a stored link fall. -/
theorem serviceOp_counts (svc : LinkService) (x : Externals) (op : ServiceOp)
    (s : World × Analytics) :
    LinkStore.countsRelated (· ≤ ·) s.1.db (op.run svc x s).1.db ∧
    (s.1.db.WF → (op.run svc x s).1.db.WF) := by
  cases op with
  | mutate op =>
    cases op with
    | create f rand now req userID =>
      have h := createLink_counts svc x f rand now s.1 req userID
      exact ⟨countsRelated_of_eq _ _ h.1, h.2⟩
    | update f now c u req =>
      have h := updateLink_counts svc x f now s.1 c u req
      exact ⟨countsRelated_of_eq _ _ h.1, h.2⟩
    | delete f c u =>
      have h := deleteLink_counts svc f s.1 c u
      exact ⟨countsRelated_of_eq _ _ h.1, h.2⟩
  | resolve f now code =>
    simp only [ServiceOp.run, getDestination_db]
    exact ⟨countsRelated_refl _ (fun _ => le_refl _) _, id⟩
  | record f now code click => exact recordClick_counts svc f now s.1 s.2 code click

theorem runService_counts (svc : LinkService) (x : Externals) :
    ∀ (ops : List ServiceOp) (s : World × Analytics), s.1.db.WF →
      LinkStore.countsRelated (· ≤ ·) s.1.db (runService svc x ops s).1.db := by
  intro ops
  induction ops with
  | nil => intro s _; exact countsRelated_refl _ (fun _ => le_refl _) _
  | cons op ops ih =>
    intro s hwf
    have hstep := serviceOp_counts svc x op s
    simp only [runService, List.foldl_cons]
    exact countsRelated_trans _ _ _ hstep.1 (ih _ (hstep.2 hwf))

/-- In a well-formed store, related counters are related id by id. -/
theorem countOf_related (rel : Int → Int → Prop) (db db' : LinkStore) (hwf : db.WF)
    (h : LinkStore.countsRelated rel db db') (id n n' : Int)
    (hn : db.countOf id = some n) (hn' : db'.countOf id = some n') : rel n n' := by
  simp only [LinkStore.countOf, Option.map_eq_some'] at hn hn'
  obtain ⟨l0, hl0, hc0⟩ := hn
  obtain ⟨l', hl', hc'⟩ := hn'
  have hid0 : l0.ID = id := by simpa using List.find?_some hl0
  have hid' : l'.ID = id := by simpa using List.find?_some hl'
  have hmem0 := List.mem_of_find?_eq_some hl0
  have hmem' := List.mem_of_find?_eq_some hl'
  obtain ⟨l, hl, hid, hc⟩ := h.2 l' hmem' (by rw [hid', ← hid0]; exact hwf.2 l0 hmem0)
  have heq : l = l0 := List.inj_on_of_nodup_map hwf.1 hl hmem0 (by rw [hid, hid', hid0])
  rw [heq, hc0, hc'] at hc
  exact hc

theorem find_map_keeps_id (g : ShortLink → ShortLink) (hg : ∀ l, (g l).ID = l.ID) (id : Int) :
    ∀ rows : List ShortLink,
      (rows.map g).find? (fun l => decide (l.ID = id))
        = (rows.find? (fun l => decide (l.ID = id))).map g := by
  intro rows
  induction rows with
  | nil => rfl
  | cons r rows ih =>
    simp only [List.map_cons, List.find?_cons, hg]
    split <;> simp [ih]

/-- C19 as stated fails: the update of the click counter fails, `RecordClick`
discards that error and returns nil, the click carries the id of the link,
and the counter of the link is still 0. -/
theorem recorded_click_not_counted :
    (demoSvc.RecordClick { noFaults with incrErr := true } 100 liveWorld emptyAnalytics
      "abc123" demoClick).result = Except.ok () ∧
    (demoSvc.RecordClick { noFaults with incrErr := true } 100 liveWorld emptyAnalytics
      "abc123" demoClick).click.LinkID = liveLink.ID ∧
    liveWorld.db.countOf liveLink.ID = some 0 ∧
    (demoSvc.RecordClick { noFaults with incrErr := true } 100 liveWorld emptyAnalytics
      "abc123" demoClick).world.db.countOf liveLink.ID = some 0 := by
  refine ⟨by rfl, by rfl, by rfl, by rfl⟩

/-- C19, as the code has it. Over the link store, for every sequence of
`CreateLink`, `UpdateLink`, `DeleteLink`, `GetDestination` and `RecordClick` calls (under
any faults) from a store with distinct ids: the click counter of a link stored
before and after has not decreased; a single call other than `RecordClick`
leaves the counter of every link it keeps exactly as it was; and a successful
`RecordClick` of code c sets the `LinkID` of the click to the id of the link with
code c, leaves the counter of every other link unchanged, and raises the
counter of that link by exactly 1 when the store applies the update and by 0
when the update fails, an error that `RecordClick` discards. -/
theorem click_counter_invariant (svc : LinkService) (x : Externals) :
    (∀ (ops : List ServiceOp) (s : World × Analytics), s.1.db.WF →
      ∀ id n n', s.1.db.countOf id = some n →
        (runService svc x ops s).1.db.countOf id = some n' → n ≤ n') ∧
    (∀ (op : LinkOp) (w : World), w.db.WF →
      ∀ id n n', w.db.countOf id = some n → (op.run svc x w).db.countOf id = some n' →
        n' = n) ∧
    (∀ (f : Faults) (now : Nat) (w : World) (code : String),
      (svc.GetDestination f now w code).2.db = w.db) ∧
    (∀ (f : Faults) (now : Nat) (w : World) (a : Analytics) (code : String) (click : Click)
      (l : ShortLink), w.db.WF →
      w.db.rows.find? (fun l => decide (l.ShortCode = code)) = some l →
      (svc.RecordClick f now w a code click).result = Except.ok () →
      (svc.RecordClick f now w a code click).click.LinkID = l.ID ∧
      (svc.RecordClick f now w a code click).world.db.countOf l.ID
        = some (l.ClickCount + (if f.incrErr = true then 0 else 1)) ∧
      ∀ id, id ≠ l.ID →
        (svc.RecordClick f now w a code click).world.db.countOf id = w.db.countOf id) := by
  refine ⟨?_, ?_, ?_, ?_⟩
  · intro ops s hwf id n n' hn hn'
    exact countOf_related _ _ _ hwf (runService_counts svc x ops s hwf) id n n' hn hn'
  · intro op w hwf id n n' hn hn'
    have hrel : LinkStore.countsRelated (· = ·) w.db (op.run svc x w).db := by
      cases op with
      | create f rand now req userID => exact (createLink_counts svc x f rand now w req userID).1
      | update f now c u req => exact (updateLink_counts svc x f now w c u req).1
      | delete f c u => exact (deleteLink_counts svc f w c u).1
    exact (countOf_related _ _ _ hwf hrel id n n' hn hn').symm
  · intro f now w code
    exact getDestination_db svc f now w code
  · intro f now w a code click l hwf hfind hres
    have hmem := List.mem_of_find?_eq_some hfind
    have hinc : ∀ r : ShortLink,
        (if r.ID = l.ID then { r with ClickCount := r.ClickCount + 1 } else r).ID = r.ID := by
      intro r; split_ifs <;> rfl
    have hfl : w.db.rows.find? (fun r => decide (r.ID = l.ID)) = some l := by
      cases hf : w.db.rows.find? (fun r => decide (r.ID = l.ID)) with
      | none =>
        have := List.find?_eq_none.mp hf l hmem
        simp at this
      | some l0 =>
        have hid0 : l0.ID = l.ID := by simpa using List.find?_some hf
        rw [List.inj_on_of_nodup_map hwf.1 (List.mem_of_find?_eq_some hf) hmem hid0]
    cases hfe : f.findErr with
    | true => simp [LinkService.RecordClick, LinkStore.FindByShortCode, hfe] at hres
    | false =>
      cases hins : f.clickInsertErr with
      | true =>
        simp [LinkService.RecordClick, LinkStore.FindByShortCode, hfe, hfind, ClickStore.Create,
          hins] at hres
      | false =>
        cases hincr : f.incrErr with
        | true =>
          simp only [LinkService.RecordClick, LinkStore.FindByShortCode, hfe, hfind,
            ClickStore.Create, hins, LinkStore.IncrementClickCount, hincr, Bool.false_eq_true,
            if_false, if_true, LinkStore.countOf, true_and]
          refine ⟨by rw [hfl]; simp, fun _ _ => trivial⟩
        | false =>
          simp only [LinkService.RecordClick, LinkStore.FindByShortCode, hfe, hfind,
            ClickStore.Create, hins, LinkStore.IncrementClickCount, hincr, Bool.false_eq_true,
            if_false, LinkStore.countOf, true_and]
          constructor
          · rw [find_map_keeps_id _ hinc, hfl]
            simp
          · intro id hid
            rw [find_map_keeps_id _ hinc]
            cases hf : w.db.rows.find? (fun r => decide (r.ID = id)) with
            | none => rfl
            | some r =>
              have hrid : r.ID = id := by simpa using List.find?_some hf
              have hne : ¬ r.ID = l.ID := by rw [hrid]; exact hid
              simp [hne]

/-- C19 on the sample world: one recorded click raises the counter of the
link from 0 to 1. -/
theorem click_counter_invariant_witness :
    (demoSvc.RecordClick noFaults 100 liveWorld emptyAnalytics "abc123" demoClick).click.LinkID
      = liveLink.ID ∧
    (demoSvc.RecordClick noFaults 100 liveWorld emptyAnalytics "abc123"
      demoClick).world.db.countOf liveLink.ID = some (liveLink.ClickCount + 1) :=
  ⟨((click_counter_invariant demoSvc demoX).2.2.2 noFaults 100 liveWorld emptyAnalytics "abc123"
      demoClick liveLink ⟨by decide, by decide⟩ rfl (by rfl)).1,
   ((click_counter_invariant demoSvc demoX).2.2.2 noFaults 100 liveWorld emptyAnalytics "abc123"
      demoClick liveLink ⟨by decide, by decide⟩ rfl (by rfl)).2.1⟩

/-! ## Classification of user agents -/

theorem containsChars_iff (sub : List Char) :
    ∀ l : List Char, containsChars sub l = true ↔ sub <:+: l := by
  intro l
  induction l with
  | nil => simp [containsChars]
  | cons c cs ih =>
    simp only [containsChars, Bool.or_eq_true, ih, List.isPrefixOf_iff_prefix]
    exact List.infix_cons_iff.symm

theorem contains_iff (s sub : String) : Contains s sub = true ↔ sub.toList <:+: s.toList :=
  containsChars_iff sub.toList s.toList

/-- A substring of a substring is a substring. -/
theorem contains_trans (s b a : String) (h1 : Contains s b = true) (h2 : Contains b a = true) :
    Contains s a = true := by
  rw [contains_iff] at *
  exact List.IsInfix.trans h2 h1

/-- Lower-casing keeps substrings: what occurs in a string occurs lower-cased
in the lower-cased string. -/
theorem contains_toLower (x : Externals) (s sub : String) (h : Contains s sub = true) :
    Contains (ToLower x s) (ToLower x sub) = true := by
  rw [contains_iff] at *
  exact List.IsInfix.map _ h

theorem not_contains_of_part (s b a : String) (h1 : Contains s a = false)
    (h2 : Contains b a = true) : Contains s b = false := by
  cases hb : Contains s b with
  | false => rfl
  | true => rw [contains_trans s b a hb h2] at h1; exact absurd h1 (by decide)

/-- With `chrome/` and `safari/` the only signatures present, a traversal of
any part of the table ends on `Chrome`, or on `Unknown` when it met neither. -/
theorem scan_chrome_safari (ua : String) (hc : Contains ua "chrome/" = true)
    (hs : Contains ua "safari/" = true) (h1 : Contains ua "edg/" = false)
    (h2 : Contains ua "firefox/" = false) (h3 : Contains ua "opera/" = false)
    (h4 : Contains ua "opr/" = false) (h5 : Contains ua "trident/" = false) :
    ∀ l : List (String × String), (∀ e ∈ l, e ∈ browsers) →
      scanBrowsers ua l = "Chrome" ∨
      (scanBrowsers ua l = "Unknown" ∧ ("chrome/", "Chrome") ∉ l) := by
  intro l
  induction l with
  | nil => intro _; exact Or.inr ⟨rfl, List.not_mem_nil _⟩
  | cons e rest ih =>
    intro hmem
    have he := hmem e (List.mem_cons_self e rest)
    have hrest := ih (fun e' he' => hmem e' (List.mem_cons_of_mem e he'))
    simp only [browsers, List.mem_cons, List.mem_singleton, List.not_mem_nil, or_false] at he
    rcases he with rfl | rfl | rfl | rfl | rfl | rfl | rfl
    · simp only [scanBrowsers, h1, Bool.false_eq_true, if_false]
      rcases hrest with h | ⟨h, hn⟩
      · exact Or.inl h
      · exact Or.inr ⟨h, by simpa using hn⟩
    · left; simp [scanBrowsers, hc]
    · left; simp [scanBrowsers, hs, hc]
    · simp only [scanBrowsers, h2, Bool.false_eq_true, if_false]
      rcases hrest with h | ⟨h, hn⟩
      · exact Or.inl h
      · exact Or.inr ⟨h, by simpa using hn⟩
    · simp only [scanBrowsers, h3, Bool.false_eq_true, if_false]
      rcases hrest with h | ⟨h, hn⟩
      · exact Or.inl h
      · exact Or.inr ⟨h, by simpa using hn⟩
    · simp only [scanBrowsers, h4, Bool.false_eq_true, if_false]
      rcases hrest with h | ⟨h, hn⟩
      · exact Or.inl h
      · exact Or.inr ⟨h, by simpa using hn⟩
    · simp only [scanBrowsers, h5, Bool.false_eq_true, if_false]
      rcases hrest with h | ⟨h, hn⟩
      · exact Or.inl h
      · exact Or.inr ⟨h, by simpa using hn⟩

/-- C21. For a user agent whose lower-cased form contains `chrome/` and `safari/`
and none of `edg/`, `firefox/`, `opera/`, `opr/`, `trident/`, `detectBrowser` returns
`Chrome` for every order in which the table is traversed; and when such a
string is a Chrome-on-Android one (it contains `android` and neither `windows`
nor `mac os x`), `ParseUserAgent` gives device type `mobile`, browser `Chrome`
and OS `Android`. -/
theorem chrome_before_safari (x : Externals) (order : List (String × String))
    (userAgent : String) (horder : order.Perm browsers)
    (hc : Contains (ToLower x userAgent) "chrome/" = true)
    (hs : Contains (ToLower x userAgent) "safari/" = true)
    (h1 : Contains (ToLower x userAgent) "edg/" = false)
    (h2 : Contains (ToLower x userAgent) "firefox/" = false)
    (h3 : Contains (ToLower x userAgent) "opera/" = false)
    (h4 : Contains (ToLower x userAgent) "opr/" = false)
    (h5 : Contains (ToLower x userAgent) "trident/" = false) :
    detectBrowser x order userAgent = "Chrome" ∧
    (Contains (ToLower x userAgent) "android" = true →
      Contains (ToLower x userAgent) "windows" = false →
      Contains (ToLower x userAgent) "mac os x" = false →
      ParseUserAgent x order userAgent
        = { DeviceType := "mobile", Browser := "Chrome", OS := "Android" }) := by
  have hb : detectBrowser x order userAgent = "Chrome" := by
    rcases scan_chrome_safari _ hc hs h1 h2 h3 h4 h5 order
      (fun e he => (horder.mem_iff).mp he) with h | ⟨_, hn⟩
    · exact h
    · exact absurd ((horder.mem_iff).mpr (by decide)) hn
  refine ⟨hb, ?_⟩
  intro ha hw hm
  have hw10 := not_contains_of_part _ "windows nt 10.0" "windows" hw (by rfl)
  have hw63 := not_contains_of_part _ "windows nt 6.3" "windows" hw (by rfl)
  have hw62 := not_contains_of_part _ "windows nt 6.2" "windows" hw (by rfl)
  have hw61 := not_contains_of_part _ "windows nt 6.1" "windows" hw (by rfl)
  simp [ParseUserAgent, hb, detectDeviceType, detectOS, ha, hw, hm, hw10, hw63, hw62, hw61]

/-- C21 on the user agent of Chrome 120 on an Android phone, with the table
traversed in the order of its literal. -/
theorem chrome_before_safari_witness :
    detectBrowser demoX browsers chromeAndroidUA = "Chrome" ∧
    ParseUserAgent demoX browsers chromeAndroidUA
      = { DeviceType := "mobile", Browser := "Chrome", OS := "Android" } :=
  ⟨(chrome_before_safari demoX browsers chromeAndroidUA (List.Perm.refl _) (by rfl) (by rfl)
      (by rfl) (by rfl) (by rfl) (by rfl) (by rfl)).1,
   (chrome_before_safari demoX browsers chromeAndroidUA (List.Perm.refl _) (by rfl) (by rfl)
      (by rfl) (by rfl) (by rfl) (by rfl) (by rfl)).2 (by rfl) (by rfl) (by rfl)⟩

/-- C27, the failing input. The user agent of Edge on Windows contains `edg/`,
`chrome/` and `safari/`; traversed in the order of the literal the table
gives `Edge`, traversed with `chrome/` first it gives `Chrome`, and both orders
are orders of the same map. -/
theorem browser_depends_on_map_order :
    chromeFirst.Perm browsers ∧
    detectBrowser demoX browsers edgeUA = "Edge" ∧
    detectBrowser demoX chromeFirst edgeUA = "Chrome" := by
  refine ⟨by decide, by rfl, by rfl⟩

/-- Without any signature of the table in the user agent, every traversal
ends on `Unknown`. -/
theorem scan_unknown (ua : String) (h0 : Contains ua "chrome/" = false)
    (hs : Contains ua "safari/" = false) (h1 : Contains ua "edg/" = false)
    (h2 : Contains ua "firefox/" = false) (h3 : Contains ua "opera/" = false)
    (h4 : Contains ua "opr/" = false) (h5 : Contains ua "trident/" = false) :
    ∀ l : List (String × String), (∀ e ∈ l, e ∈ browsers) → scanBrowsers ua l = "Unknown" := by
  intro l
  induction l with
  | nil => intro _; rfl
  | cons e rest ih =>
    intro hmem
    have he := hmem e (List.mem_cons_self e rest)
    have hrest := ih (fun e' he' => hmem e' (List.mem_cons_of_mem e he'))
    simp only [browsers, List.mem_cons, List.mem_singleton, List.not_mem_nil, or_false] at he
    rcases he with rfl | rfl | rfl | rfl | rfl | rfl | rfl <;>
      simp [scanBrowsers, h0, hs, h1, h2, h3, h4, h5, hrest]

/-- With `safari/` the only signature present, a traversal of any part of the
table ends on `Safari`, or on `Unknown` when it did not meet `safari/`. -/
theorem scan_safari (ua : String) (h0 : Contains ua "chrome/" = false)
    (hs : Contains ua "safari/" = true) (h1 : Contains ua "edg/" = false)
    (h2 : Contains ua "firefox/" = false) (h3 : Contains ua "opera/" = false)
    (h4 : Contains ua "opr/" = false) (h5 : Contains ua "trident/" = false) :
    ∀ l : List (String × String), (∀ e ∈ l, e ∈ browsers) →
      scanBrowsers ua l = "Safari" ∨
      (scanBrowsers ua l = "Unknown" ∧ ("safari/", "Safari") ∉ l) := by
  intro l
  induction l with
  | nil => intro _; exact Or.inr ⟨rfl, List.not_mem_nil _⟩
  | cons e rest ih =>
    intro hmem
    have he := hmem e (List.mem_cons_self e rest)
    have hrest := ih (fun e' he' => hmem e' (List.mem_cons_of_mem e he'))
    simp only [browsers, List.mem_cons, List.mem_singleton, List.not_mem_nil, or_false] at he
    rcases he with rfl | rfl | rfl | rfl | rfl | rfl | rfl
    · simp only [scanBrowsers, h1, Bool.false_eq_true, if_false]
      rcases hrest with h | ⟨h, hn⟩
      · exact Or.inl h
      · exact Or.inr ⟨h, by simpa using hn⟩
    · simp only [scanBrowsers, h0, Bool.false_eq_true, if_false]
      rcases hrest with h | ⟨h, hn⟩
      · exact Or.inl h
      · exact Or.inr ⟨h, by simpa using hn⟩
    · left; simp [scanBrowsers, hs, h0]
    · simp only [scanBrowsers, h2, Bool.false_eq_true, if_false]
      rcases hrest with h | ⟨h, hn⟩
      · exact Or.inl h
      · exact Or.inr ⟨h, by simpa using hn⟩
    · simp only [scanBrowsers, h3, Bool.false_eq_true, if_false]
      rcases hrest with h | ⟨h, hn⟩
      · exact Or.inl h
      · exact Or.inr ⟨h, by simpa using hn⟩
    · simp only [scanBrowsers, h4, Bool.false_eq_true, if_false]
      rcases hrest with h | ⟨h, hn⟩
      · exact Or.inl h
      · exact Or.inr ⟨h, by simpa using hn⟩
    · simp only [scanBrowsers, h5, Bool.false_eq_true, if_false]
      rcases hrest with h | ⟨h, hn⟩
      · exact Or.inl h
      · exact Or.inr ⟨h, by simpa using hn⟩

/-- C22 as stated fails: the user agent contains `Mobile Safari` and no `Chrome`,
but `Safari` is not followed by the slash of the signature `safari/`, and for
every traversal order the browser comes out as `Unknown`. -/
theorem bare_mobile_safari_unknown :
    Contains bareMobileSafariUA "Mobile Safari" = true ∧
    Contains bareMobileSafariUA "Chrome" = false ∧
    (ParseUserAgent demoX browsers bareMobileSafariUA).Browser = "Unknown" ∧
    ∀ order : List (String × String), order.Perm browsers →
      (ParseUserAgent demoX order bareMobileSafariUA).Browser = "Unknown" := by
  refine ⟨by rfl, by rfl, by rfl, ?_⟩
  intro order horder
  exact scan_unknown _ (by rfl) (by rfl) (by rfl) (by rfl) (by rfl) (by rfl) (by rfl) order
    (fun e he => (horder.mem_iff).mp he)

theorem toLower_mobile_safari (x : Externals) :
    ToLower x "Mobile Safari/" = "mobile safari/" := by
  rw [toLower_of_ascii x _ (by decide)]
  rfl

/-- C22, as the code has it. For every user agent that contains `Mobile Safari/`
and whose lower-cased form contains none of `chrome/`, `edg/`, `firefox/`, `opera/`,
`opr/`, `trident/`, `ParseUserAgent` returns the browser `Safari` and the device type
`mobile`, for every order in which the table is traversed. -/
theorem mobile_safari_classification (x : Externals) (order : List (String × String))
    (userAgent : String) (horder : order.Perm browsers)
    (hms : Contains userAgent "Mobile Safari/" = true)
    (h0 : Contains (ToLower x userAgent) "chrome/" = false)
    (h1 : Contains (ToLower x userAgent) "edg/" = false)
    (h2 : Contains (ToLower x userAgent) "firefox/" = false)
    (h3 : Contains (ToLower x userAgent) "opera/" = false)
    (h4 : Contains (ToLower x userAgent) "opr/" = false)
    (h5 : Contains (ToLower x userAgent) "trident/" = false) :
    (ParseUserAgent x order userAgent).Browser = "Safari" ∧
    (ParseUserAgent x order userAgent).DeviceType = "mobile" := by
  have hlow := contains_toLower x userAgent "Mobile Safari/" hms
  rw [toLower_mobile_safari] at hlow
  have hs : Contains (ToLower x userAgent) "safari/" = true :=
    contains_trans _ "mobile safari/" "safari/" hlow (by rfl)
  have hm : Contains (ToLower x userAgent) "mobile" = true :=
    contains_trans _ "mobile safari/" "mobile" hlow (by rfl)
  constructor
  · show scanBrowsers (ToLower x userAgent) order = "Safari"
    rcases scan_safari _ h0 hs h1 h2 h3 h4 h5 order
      (fun e he => (horder.mem_iff).mp he) with h | ⟨_, hn⟩
    · exact h
    · exact absurd ((horder.mem_iff).mpr (by decide)) hn
  · simp [ParseUserAgent, detectDeviceType, hm]

/-- C22 on the user agent of the stock browser of Android 4. -/
theorem mobile_safari_classification_witness :
    (ParseUserAgent demoX browsers androidBrowserUA).Browser = "Safari" ∧
    (ParseUserAgent demoX browsers androidBrowserUA).DeviceType = "mobile" :=
  mobile_safari_classification demoX browsers androidBrowserUA (List.Perm.refl _) (by rfl)
    (by rfl) (by rfl) (by rfl) (by rfl) (by rfl) (by rfl)


/-- C29. On the lower-cased user agent `detectOS` applies the fixed precedence
Windows, macOS, Android, iOS, Linux: a Windows signature wins, with the
versions `windows nt 10.0`, `6.3`, `6.2`, `6.1` tried in that order before plain
`Windows`; then `mac os x` gives `macOS`; then `android` gives `Android` (rather
than `Linux`); `iOS` is returned exactly when `iphone`, `ipad` or `ipod` occurs and
none of `windows`, `mac os x`, `android`; `Linux` exactly when `linux` occurs and
none of the others; and `Unknown` exactly when no signature occurs. -/
theorem detectOS_precedence (x : Externals) (userAgent : String) :
    (Contains (ToLower x userAgent) "windows nt 10.0" = true →
      detectOS x userAgent = "Windows 10") ∧
    (Contains (ToLower x userAgent) "windows nt 10.0" = false →
      Contains (ToLower x userAgent) "windows nt 6.3" = true →
      detectOS x userAgent = "Windows 8.1") ∧
    (Contains (ToLower x userAgent) "windows nt 10.0" = false →
      Contains (ToLower x userAgent) "windows nt 6.3" = false →
      Contains (ToLower x userAgent) "windows nt 6.2" = true →
      detectOS x userAgent = "Windows 8") ∧
    (Contains (ToLower x userAgent) "windows nt 10.0" = false →
      Contains (ToLower x userAgent) "windows nt 6.3" = false →
      Contains (ToLower x userAgent) "windows nt 6.2" = false →
      Contains (ToLower x userAgent) "windows nt 6.1" = true →
      detectOS x userAgent = "Windows 7") ∧
    (Contains (ToLower x userAgent) "windows nt 10.0" = false →
      Contains (ToLower x userAgent) "windows nt 6.3" = false →
      Contains (ToLower x userAgent) "windows nt 6.2" = false →
      Contains (ToLower x userAgent) "windows nt 6.1" = false →
      Contains (ToLower x userAgent) "windows" = true →
      detectOS x userAgent = "Windows") ∧
    (Contains (ToLower x userAgent) "windows" = false →
      Contains (ToLower x userAgent) "mac os x" = true →
      detectOS x userAgent = "macOS") ∧
    (Contains (ToLower x userAgent) "windows" = false →
      Contains (ToLower x userAgent) "mac os x" = false →
      Contains (ToLower x userAgent) "android" = true →
      detectOS x userAgent = "Android") ∧
    (detectOS x userAgent = "iOS" ↔
      (Contains (ToLower x userAgent) "iphone" = true ∨
        Contains (ToLower x userAgent) "ipad" = true ∨
        Contains (ToLower x userAgent) "ipod" = true) ∧
      Contains (ToLower x userAgent) "windows" = false ∧
      Contains (ToLower x userAgent) "mac os x" = false ∧
      Contains (ToLower x userAgent) "android" = false) ∧
    (detectOS x userAgent = "Linux" ↔
      Contains (ToLower x userAgent) "linux" = true ∧
      Contains (ToLower x userAgent) "windows" = false ∧
      Contains (ToLower x userAgent) "mac os x" = false ∧
      Contains (ToLower x userAgent) "android" = false ∧
      Contains (ToLower x userAgent) "iphone" = false ∧
      Contains (ToLower x userAgent) "ipad" = false ∧
      Contains (ToLower x userAgent) "ipod" = false) ∧
    (detectOS x userAgent = "Unknown" ↔
      Contains (ToLower x userAgent) "windows" = false ∧
      Contains (ToLower x userAgent) "mac os x" = false ∧
      Contains (ToLower x userAgent) "android" = false ∧
      Contains (ToLower x userAgent) "iphone" = false ∧
      Contains (ToLower x userAgent) "ipad" = false ∧
      Contains (ToLower x userAgent) "ipod" = false ∧
      Contains (ToLower x userAgent) "linux" = false) := by
  have hw10 : Contains (ToLower x userAgent) "windows nt 10.0" = true →
      Contains (ToLower x userAgent) "windows" = true :=
    fun h => contains_trans _ _ _ h (by rfl)
  have hw63 : Contains (ToLower x userAgent) "windows nt 6.3" = true →
      Contains (ToLower x userAgent) "windows" = true :=
    fun h => contains_trans _ _ _ h (by rfl)
  have hw62 : Contains (ToLower x userAgent) "windows nt 6.2" = true →
      Contains (ToLower x userAgent) "windows" = true :=
    fun h => contains_trans _ _ _ h (by rfl)
  have hw61 : Contains (ToLower x userAgent) "windows nt 6.1" = true →
      Contains (ToLower x userAgent) "windows" = true :=
    fun h => contains_trans _ _ _ h (by rfl)
  simp only [detectOS]
  generalize Contains (ToLower x userAgent) "windows nt 10.0" = a10 at *
  generalize Contains (ToLower x userAgent) "windows nt 6.3" = a63 at *
  generalize Contains (ToLower x userAgent) "windows nt 6.2" = a62 at *
  generalize Contains (ToLower x userAgent) "windows nt 6.1" = a61 at *
  generalize Contains (ToLower x userAgent) "windows" = aw at *
  generalize Contains (ToLower x userAgent) "mac os x" = am at *
  generalize Contains (ToLower x userAgent) "android" = aa at *
  generalize Contains (ToLower x userAgent) "iphone" = ai at *
  generalize Contains (ToLower x userAgent) "ipad" = ap at *
  generalize Contains (ToLower x userAgent) "ipod" = ao at *
  generalize Contains (ToLower x userAgent) "linux" = al at *
  split_ifs <;> simp_all
  cases ai <;> cases ap <;> cases ao <;> simp_all

/-- C29 on the sample user agents: Edge on Windows 10, Chrome on Android. -/
theorem detectOS_samples :
    detectOS demoX edgeUA = "Windows 10" ∧ detectOS demoX chromeAndroidUA = "Android" := by
  refine ⟨by rfl, by rfl⟩

/-! ## Week-over-week growth -/

/-- C23. In exact arithmetic, for every count `thisWeek` and every count
`lastWeek` at least 0, the growth step of `GetDashboardStats` yields 0 when
`lastWeek` is 0 and `(thisWeek - lastWeek) / lastWeek * 100` otherwise, and it
never divides by zero; last week 0 and this week 5 give 0, last week 10 and this
week 15 give 50. -/
theorem visitsGrowth_exact (thisWeek lastWeek : Int) (hl : 0 ≤ lastWeek) :
    visitsGrowth thisWeek lastWeek
      = some (if lastWeek = 0 then 0 else ((thisWeek : ℚ) - lastWeek) / lastWeek * 100) ∧
    visitsGrowth thisWeek lastWeek ≠ none ∧
    visitsGrowth 5 0 = some 0 ∧ visitsGrowth 15 10 = some 50 := by
  have hmain : visitsGrowth thisWeek lastWeek
      = some (if lastWeek = 0 then 0 else ((thisWeek : ℚ) - lastWeek) / lastWeek * 100) := by
    by_cases h0 : lastWeek = 0
    · simp [visitsGrowth, h0]
    · have hpos : lastWeek > 0 := lt_of_le_of_ne hl (Ne.symm h0)
      have hq : (lastWeek : ℚ) ≠ 0 := by exact_mod_cast h0
      simp [visitsGrowth, checkedDiv, hpos, hq, h0]
  refine ⟨hmain, ?_, ?_, ?_⟩
  · rw [hmain]; simp
  · simp [visitsGrowth]
  · simp [visitsGrowth, checkedDiv]; norm_num

/-- The growth of C23 from 10 visits to 15 is 50 percent. -/
theorem visitsGrowth_exact_witness :
    visitsGrowth 15 10
      = some (if (10 : Int) = 0 then 0 else (((15 : Int) : ℚ) - (10 : Int)) / (10 : Int) * 100) ∧
    visitsGrowth 15 10 ≠ none ∧
    visitsGrowth 5 0 = some 0 ∧ visitsGrowth 15 10 = some 50 :=
  visitsGrowth_exact 15 10 (by decide)

/-! ## The expiry of a window -/

/-- Inside an open window the expiry of the key does not move, whatever the
requests that follow are answered. -/
theorem serve_keeps_expiry (r : RateLimiter) (c : Ctx) (e : Nat) :
    ∀ (ts : List Nat) (k : Int) (s : CounterStore),
      s (limitKey c) = some ⟨k, some e⟩ → 1 ≤ k → (∀ t ∈ ts, t < e) →
      ∃ k', k ≤ k' ∧ (serve r c s ts).2 (limitKey c) = some ⟨k', some e⟩ := by
  intro ts
  induction ts with
  | nil => intro k s hs _ _; exact ⟨k, le_refl _, by simp [serve, hs]⟩
  | cons t ts ih =>
    intro k s hs hk hlt
    have ht : t < e := hlt t (List.mem_cons_self t ts)
    have hrest : ∀ x ∈ ts, x < e := fun x hx => hlt x (List.mem_cons_of_mem t hx)
    rw [serve_cons]
    by_cases hfull : r.maxRequests ≤ k
    · have hst := (limit_full r c s t k e hs ht hfull).2
      rw [hst]
      exact ih k s hs hk hrest
    · obtain ⟨k', hk', hfin⟩ := ih (k + 1) _ (limit_below r c s t k e hs ht hk (by omega)).2
        (by omega) hrest
      exact ⟨k', by omega, hfin⟩

/-- With the store answering every command and both round trips at one instant,
a request through `Limit` that reads a count below the limit is let through;
the store it leaves is the old one after `INCR`, followed by `EXPIRE` exactly
when the count read was 0. So the key then holds the count read plus 1; its
expiry is `now` plus the whole seconds of the window when the count read was 0
and is the expiry it had before when the count read was not 0. A window opened
at `now` therefore keeps its expiry through all the requests that follow
inside it. -/
theorem limit_store_effect (r : RateLimiter) (c : Ctx) (s : CounterStore) (now : Nat)
    (hallowed : s.countAt (limitKey c) now < r.maxRequests) :
    (r.Limit noRedisFaults now s c).outcome = Outcome.next ∧
    (r.Limit noRedisFaults now s c).store
      = (if s.countAt (limitKey c) now = 0
          then redisExpire (redisIncr s (limitKey c) now) (limitKey c) r.window now
          else redisIncr s (limitKey c) now) ∧
    (∃ e', (r.Limit noRedisFaults now s c).store (limitKey c) = some e' ∧
      e'.count = s.countAt (limitKey c) now + 1 ∧
      (s.countAt (limitKey c) now = 0 → e'.expiry = some (now + expireSpan r.window)) ∧
      (s.countAt (limitKey c) now ≠ 0 →
        ∃ e, s (limitKey c) = some e ∧ e'.expiry = e.expiry)) ∧
    (s.lookup (limitKey c) now = none →
      ∀ ts : List Nat, (∀ t ∈ ts, t < now + expireSpan r.window) →
      ∃ k, (serve r c s (now :: ts)).2 (limitKey c)
        = some ⟨k, some (now + expireSpan r.window)⟩) := by
  have hlive1 : ∀ (e : Counter), Counter.live ⟨e.count + 1, e.expiry⟩ now = e.live now :=
    fun e => rfl
  have hstore : (r.Limit noRedisFaults now s c).outcome = Outcome.next ∧
      (r.Limit noRedisFaults now s c).store
        = (if s.countAt (limitKey c) now = 0
            then redisExpire (redisIncr s (limitKey c) now) (limitKey c) r.window now
            else redisIncr s (limitKey c) now) := by
    have hnot : ¬ s.countAt (limitKey c) now ≥ r.maxRequests := by omega
    have hcases : ∀ o, s.lookup (limitKey c) now = o →
        (r.Limit noRedisFaults now s c).outcome = Outcome.next ∧
        (r.Limit noRedisFaults now s c).store
          = (if s.countAt (limitKey c) now = 0
              then redisExpire (redisIncr s (limitKey c) now) (limitKey c) r.window now
              else redisIncr s (limitKey c) now) := by
      intro o ho
      cases o with
      | none =>
        simp only [CounterStore.countAt, ho] at hnot ⊢
        simp [RateLimiter.Limit, countRequest, countRequestAt, redisGetInt, noRedisFaults, ho, hnot, runPipeline]
      | some e =>
        simp only [CounterStore.countAt, ho] at hnot ⊢
        simp [RateLimiter.Limit, countRequest, countRequestAt, redisGetInt, noRedisFaults, ho, hnot, runPipeline]
    exact hcases _ rfl
  refine ⟨hstore.1, hstore.2, ?_, ?_⟩
  · rw [hstore.2]
    have hcases : ∀ o, s.lookup (limitKey c) now = o →
        ∃ e', (if s.countAt (limitKey c) now = 0
            then redisExpire (redisIncr s (limitKey c) now) (limitKey c) r.window now
            else redisIncr s (limitKey c) now) (limitKey c) = some e' ∧
          e'.count = s.countAt (limitKey c) now + 1 ∧
          (s.countAt (limitKey c) now = 0 → e'.expiry = some (now + expireSpan r.window)) ∧
          (s.countAt (limitKey c) now ≠ 0 →
            ∃ e, s (limitKey c) = some e ∧ e'.expiry = e.expiry) := by
      intro o hl
      cases o with
      | none =>
        have hc : s.countAt (limitKey c) now = 0 := by simp [CounterStore.countAt, hl]
        have h1 : CounterStore.lookup (Function.update s (limitKey c) (some (Counter.mk 1 none)))
            (limitKey c) now = some (Counter.mk 1 none) :=
          lookup_of_live (by simp) rfl
        rw [hc, if_pos rfl]
        refine ⟨⟨1, some (now + expireSpan r.window)⟩, ?_, by simp, by simp, by simp⟩
        simp [redisIncr, redisExpire, hl, h1]
      | some e =>
        have hc : s.countAt (limitKey c) now = e.count := by simp [CounterStore.countAt, hl]
        have hse : s (limitKey c) = some e := by
          simp only [CounterStore.lookup] at hl
          cases hs : s (limitKey c) with
          | none => simp [hs] at hl
          | some e0 =>
            simp only [hs] at hl
            split_ifs at hl
            simpa using hl
        have hlive : e.live now = true := by
          simp only [CounterStore.lookup, hse] at hl
          split_ifs at hl with h
          exact h
        have h1 : CounterStore.lookup
            (Function.update s (limitKey c) (some (Counter.mk (e.count + 1) e.expiry)))
            (limitKey c) now = some (Counter.mk (e.count + 1) e.expiry) :=
          lookup_of_live (by simp) (by rw [hlive1 e, hlive])
        have hincr : redisIncr s (limitKey c) now
            = Function.update s (limitKey c) (some (Counter.mk (e.count + 1) e.expiry)) := by
          simp [redisIncr, hl]
        rw [hc, hincr]
        by_cases h0 : e.count = 0
        · rw [if_pos h0]
          refine ⟨⟨e.count + 1, some (now + expireSpan r.window)⟩, ?_, rfl, fun _ => rfl,
            fun h => absurd h0 h⟩
          simp only [redisExpire, h1]
          simp
        · rw [if_neg h0]
          exact ⟨⟨e.count + 1, e.expiry⟩, by simp, rfl, fun h => absurd h h0,
            fun _ => ⟨e, hse, rfl⟩⟩
    exact hcases _ rfl
  · intro hnone ts hts
    have hfresh := (limit_fresh r c s now (by
      have hcount : s.countAt (limitKey c) now = 0 := by simp [CounterStore.countAt, hnone]
      omega) hnone).2
    obtain ⟨k, _, hk⟩ := serve_keeps_expiry r c (now + expireSpan r.window) ts 1 _ hfresh
      (le_refl _) hts
    rw [serve_cons]
    exact ⟨k, hk⟩

/-- A request that is let through although the read of the counter failed is
not counted: the store stays as it was. -/
theorem limit_fail_open_not_counted (r : RateLimiter) (f : RedisFaults) (now later : Nat)
    (s : CounterStore) (c : Ctx) (hget : f.getErr = true) :
    (r.LimitAt f now later s c).outcome = Outcome.next ∧
    (r.LimitAt f now later s c).store = s := by
  simp [RateLimiter.LimitAt, countRequestAt, redisGetInt, hget]

/-- A key without expiry takes requests at any instants until the limit is
reached, and still has no expiry. -/
theorem serve_fill_forever (r : RateLimiter) (c : Ctx) :
    ∀ (ts : List Nat) (k : Int) (s : CounterStore),
      s (limitKey c) = some ⟨k, none⟩ → 1 ≤ k → k + ts.length ≤ r.maxRequests →
      (serve r c s ts).1 = ts.map (fun t => (t, Outcome.next)) ∧
      (serve r c s ts).2 (limitKey c) = some ⟨k + ts.length, none⟩ := by
  intro ts
  induction ts with
  | nil => intro k s hs _ _; simp [serve, hs]
  | cons t ts ih =>
    intro k s hs hk hle
    have hlook : s.lookup (limitKey c) t = some ⟨k, none⟩ := lookup_of_live hs rfl
    have hlen : ((t :: ts).length : Int) = (ts.length : Int) + 1 := by simp
    obtain ⟨ho, hst⟩ := countRequest_below r.maxRequests r.window limitMessage (limitKey c) t s
      ⟨k, none⟩ hlook (by simp only; omega) (by simp only; omega)
    have hnext : (r.Limit noRedisFaults t s c).store (limitKey c) = some ⟨k + 1, none⟩ := by
      simp [RateLimiter.Limit, hst]
    obtain ⟨h1, h2⟩ := ih (k + 1) (r.Limit noRedisFaults t s c).store hnext (by omega)
      (by omega)
    rw [serve_cons]
    refine ⟨?_, ?_⟩
    · simp only [List.map_cons, h1]
      simp [RateLimiter.Limit, ho]
    · simp only [h2, hlen]
      congr 2
      omega

/-- A key without expiry that has reached the limit rejects every request,
whenever it is made. -/
theorem serve_locked (r : RateLimiter) (c : Ctx) (k : Int) (s : CounterStore)
    (hs : s (limitKey c) = some ⟨k, none⟩) (hk : r.maxRequests ≤ k) :
    ∀ ts : List Nat,
      (serve r c s ts).1 = ts.map (fun t => (t, Outcome.abort 429 limitMessage)) ∧
      (serve r c s ts).2 = s := by
  intro ts
  induction ts with
  | nil => simp [serve]
  | cons t ts ih =>
    have hlook : s.lookup (limitKey c) t = some ⟨k, none⟩ := lookup_of_live hs rfl
    obtain ⟨ho, hst⟩ := countRequest_full r.maxRequests r.window limitMessage (limitKey c) t s
      ⟨k, none⟩ hlook hk
    have ho' : (r.Limit noRedisFaults t s c).outcome = Outcome.abort 429 limitMessage := ho
    have hst' : (r.Limit noRedisFaults t s c).store = s := hst
    rw [serve_cons, ho', hst']
    exact ⟨by simp [ih.1], ih.2⟩

/-- C26 fails in the code. With limit 3 and a window of one minute the request at
0 opens the window: the key holds 1 and expires at 60000. The next request
has its `GET` answered at 59999, which reads the count 1, and its pipeline run
at 60000, when the key has expired: `INCR` creates the key anew with the count 1
and no expiry, and `EXPIRE` is not sent because the count read was not 0. The
request is let through, the counter is 1 instead of 2, and the key never
expires: two more requests are let through and every request after them,
whenever it is made, is answered 429. -/
theorem key_recreated_without_expiry :
    openedStore (limitKey demoCtx) = some ⟨1, some 60000⟩ ∧
    (redisGetInt noRedisFaults openedStore (limitKey demoCtx) 59999).1 = 1 ∧
    (RateLimiter.LimitAt ⟨3, 60000⟩ noRedisFaults 59999 60000 openedStore demoCtx).outcome
      = Outcome.next ∧
    racedStore (limitKey demoCtx) = some ⟨1, none⟩ ∧
    ∀ (t1 t2 : Nat) (ts : List Nat),
      (serve ⟨3, 60000⟩ demoCtx racedStore (t1 :: t2 :: ts)).1
        = (t1, Outcome.next) :: (t2, Outcome.next)
            :: ts.map (fun t => (t, Outcome.abort 429 limitMessage)) := by
  have hraced : racedStore (limitKey demoCtx) = some ⟨1, none⟩ := by decide
  refine ⟨by decide, by decide, by decide, hraced, ?_⟩
  intro t1 t2 ts
  obtain ⟨h1, h2⟩ := serve_fill_forever ⟨3, 60000⟩ demoCtx [t1, t2] 1 racedStore hraced
    (by decide) (by simp only [List.length_cons, List.length_nil]; decide)
  obtain ⟨h3, _⟩ := serve_locked ⟨3, 60000⟩ demoCtx _ _ h2
    (by simp only [List.length_cons, List.length_nil]; decide) ts
  have happ := serve_append ⟨3, 60000⟩ demoCtx [t1, t2] ts racedStore
  have hsplit : t1 :: t2 :: ts = [t1, t2] ++ ts := rfl
  rw [hsplit, happ, h1, h3]
  rfl

/-- With both round trips of the second request at 59999 the key keeps its
expiry and holds 2. -/
theorem second_request_in_time :
    (RateLimiter.Limit ⟨3, 60000⟩ noRedisFaults 59999 openedStore demoCtx).store
      (limitKey demoCtx) = some ⟨2, some 60000⟩ := by
  decide

/-! ## Failing existence checks -/

/-- C30. A failing `ShortCodeExists` reports the code as absent, and `CreateLink`
goes on as if it were: with a valid custom slug whose check fails the code
selection returns the normalised slug, and `CreateLink` hands it to the insert,
whose answer decides the result; in the random path a candidate whose check
fails ends the loop and is the code selected, the first candidate when the
first check fails. A custom slug whose check fails is never answered
`custom slug already taken`, and the loop ends without a code only when each
of the five checks succeeded and reported its candidate as stored. -/
theorem failed_check_counts_as_free (svc : LinkService) (x : Externals) (f : Faults)
    (rand : Nat → Except String (Fin 62)) (now : Nat) (w : World) :
    (∀ (i : Nat) (code : String), f.existsErr i = true →
      w.db.ShortCodeExists f i code = (false, true)) ∧
    (∀ slug : String, IsValidCustomSlug slug = true → f.existsErr 0 = true →
      selectCode x f rand w.db (some slug) = Except.ok (SanitizeCustomSlug x slug)) ∧
    (∀ (req : CreateLinkRequest) (userID : Option Int) (slug destination : String)
        (expiresAt : Option Nat),
      req.CustomSlug = some slug → IsValidCustomSlug slug = true → f.existsErr 0 = true →
      NormalizeURL x req.Destination = some destination →
      parseExpiry x req.ExpiresAt = Except.ok expiresAt →
      svc.CreateLink x f rand now w req userID
        = match w.db.Create f now
            { ID := 0, ShortCode := SanitizeCustomSlug x slug, Destination := destination,
              UserID := userID, Title := req.Title, Description := req.Description,
              IsActive := true, ClickCount := 0, CreatedAt := 0, UpdatedAt := 0,
              ExpiresAt := expiresAt } with
          | Except.error _ => (Except.error "failed to create link", w)
          | Except.ok (stored, db') =>
            (Except.ok (stored.ToResponse svc.baseURL),
              { db := db',
                cache := cacheSet f w.cache (cacheKey (SanitizeCustomSlug x slug)) destination
                  Hour now })) ∧
    (∀ (slug : Option String) (code : String), slug = none ∨ slug = some "" →
      GenerateShortCode rand 0 6 = Except.ok code → f.existsErr 0 = true →
      selectCode x f rand w.db slug = Except.ok code) ∧
    (∀ (i fuel : Nat) (code : String), GenerateShortCode rand (6 * i) 6 = Except.ok code →
      f.existsErr i = true → randomCode f rand w.db i (fuel + 1) = Except.ok code) ∧
    (∀ slug : String, slug ≠ "" → f.existsErr 0 = true →
      selectCode x f rand w.db (some slug) ≠ Except.error "custom slug already taken") ∧
    (randomCode f rand w.db 0 5 = Except.ok "" →
      ∀ i, i < 5 → f.existsErr i = false ∧
        ∃ c, GenerateShortCode rand (6 * i) 6 = Except.ok c ∧ c ∈ w.db.codes) := by
  have hcheck : ∀ (i : Nat) (code : String), f.existsErr i = true →
      w.db.ShortCodeExists f i code = (false, true) := by
    intro i code hi
    simp [LinkStore.ShortCodeExists, hi]
  have hcustom : ∀ slug : String, IsValidCustomSlug slug = true → f.existsErr 0 = true →
      selectCode x f rand w.db (some slug) = Except.ok (SanitizeCustomSlug x slug) := by
    intro slug hv h0
    have hne := valid_slug_ne_empty slug hv
    simp [selectCode, hne, hv, hcheck 0 _ h0]
  have hloop : ∀ (i fuel : Nat) (code : String),
      GenerateShortCode rand (6 * i) 6 = Except.ok code →
      f.existsErr i = true → randomCode f rand w.db i (fuel + 1) = Except.ok code := by
    intro i fuel code hg hi
    simp [randomCode, hg, hcheck i _ hi]
  refine ⟨hcheck, hcustom, ?_, ?_, hloop, ?_, ?_⟩
  · intro req userID slug destination expiresAt hslug hv h0 hn hp
    have hsel := hcustom slug hv h0
    simp only [LinkService.CreateLink, hn, hslug, hsel, hp]
  · intro slug code hslug hg h0
    have hg0 : GenerateShortCode rand (6 * 0) 6 = Except.ok code := by simpa using hg
    rw [selectCode_random x f rand w.db slug hslug, hloop 0 4 code hg0 h0]
    simp [generated_ne_empty rand 0 code hg]
  · intro slug hne h0 hsel
    by_cases hv : IsValidCustomSlug slug = true
    · rw [hcustom slug hv h0] at hsel
      exact absurd hsel (by simp)
    · simp [selectCode, hne, hv] at hsel
  · intro hex i hi
    obtain ⟨c, hg, hc⟩ := (randomCode_exhausted f rand w.db 5 0).mp hex i hi
    simp only [Nat.zero_add] at hg hc
    have hf : f.existsErr i = false := by
      cases hfi : f.existsErr i with
      | false => rfl
      | true => rw [hcheck i c hfi] at hc; exact absurd hc (by simp)
    exact ⟨hf, c, hg, (shortCodeExists_iff_mem w.db f i c hf).mp hc⟩

/-- C30 on a sample: the store already holds `aaaaaa` and every existence check
fails; the custom slug `aaaaaa` reaches the insert, which the unique index
refuses, and the random path selects the stored code `aaaaaa`. -/
theorem failed_check_sample :
    selectCode demoX { noFaults with existsErr := fun _ => true } zeroRand collidingWorld.db
      (some "aaaaaa") = Except.ok "aaaaaa" ∧
    (demoSvc.CreateLink demoX { noFaults with existsErr := fun _ => true } zeroRand 100
      collidingWorld { demoCreate with CustomSlug := some "aaaaaa" } (some 7)).1
      = Except.error "failed to create link" ∧
    selectCode demoX { noFaults with existsErr := fun _ => true } zeroRand collidingWorld.db
      none = Except.ok "aaaaaa" := by
  refine ⟨by rfl, by rfl, by rfl⟩

/-! ## The cache entry under `UpdateLink` -/

/-- C28 as stated fails: user 8 asks for a new destination of the link of user
7; the destination normalises, yet the call is refused before the destination
step and the cache entry of the code stays. -/
theorem foreign_update_keeps_cache_entry :
    retargetingUpdate.Destination = some "https://new.example" ∧
    NormalizeURL demoX "https://new.example" = some "https://new.example" ∧
    (demoSvc.UpdateLink demoX noFaults 100 cachedWorld "abc123" 8 retargetingUpdate).1
      = Except.error "unauthorized to update this link" ∧
    cachedWorld.cache (cacheKey "abc123") = some ⟨"https://old.example", some 3000⟩ ∧
    (demoSvc.UpdateLink demoX noFaults 100 cachedWorld "abc123" 8 retargetingUpdate).2.cache
      (cacheKey "abc123") = some ⟨"https://old.example", some 3000⟩ := by
  refine ⟨rfl, by rfl, by rfl, by rfl, by rfl⟩

/-- C28, amended. For an update by the owner of a stored link, with the read of
the row and the cache delete not failing: when the request supplies a
destination that normalises, the cache afterwards is the old one with the entry
of the code removed, whether or not the expiry parse and the store update that
follow succeed; otherwise the cache is unchanged. So an entry that was present
is gone afterwards exactly when the request supplied a destination that
normalises, and after an update without destination a resolution that was
answered from the cache is still answered with the same cached destination. -/
theorem updateLink_cache_effect (svc : LinkService) (x : Externals) (f : Faults) (now : Nat)
    (w : World) (shortCode : String) (userID : Int) (req : UpdateLinkRequest) (link : ShortLink)
    (hfind : w.db.FindByShortCode f shortCode = Except.ok link)
    (howner : link.UserID = some userID) (hdel : f.cacheDelErr = false) :
    ((∃ d destination, req.Destination = some d ∧ NormalizeURL x d = some destination) →
      (svc.UpdateLink x f now w shortCode userID req).2.cache
        = Function.update w.cache (cacheKey shortCode) none) ∧
    ((¬ ∃ d destination, req.Destination = some d ∧ NormalizeURL x d = some destination) →
      (svc.UpdateLink x f now w shortCode userID req).2.cache = w.cache) ∧
    (w.cache (cacheKey shortCode) ≠ none →
      ((svc.UpdateLink x f now w shortCode userID req).2.cache (cacheKey shortCode) = none ↔
        ∃ d destination, req.Destination = some d ∧ NormalizeURL x d = some destination)) ∧
    (req.Destination = none → ∀ (g : Faults) (later : Nat) (cached : String),
      cacheGet g w.cache (cacheKey shortCode) later = some cached →
      (svc.GetDestination g later (svc.UpdateLink x f now w shortCode userID req).2 shortCode).1
        = Except.ok cached) := by
  have hyes : (∃ d destination, req.Destination = some d ∧ NormalizeURL x d = some destination) →
      (svc.UpdateLink x f now w shortCode userID req).2.cache
        = Function.update w.cache (cacheKey shortCode) none := by
    rintro ⟨d, destination, hd, hn⟩
    simp only [LinkService.UpdateLink, hfind, howner, ne_eq, not_true_eq_false, if_false,
      updateDestination, hd, hn, cacheDel, hdel, Bool.false_eq_true]
    cases parseExpiry x req.ExpiresAt with
    | error e => rfl
    | ok parsed =>
      simp only []
      generalize w.db.Update f now _ = res
      cases res with
      | error e => rfl
      | ok db' => rfl
  have hno : (¬ ∃ d destination, req.Destination = some d ∧ NormalizeURL x d = some destination) →
      (svc.UpdateLink x f now w shortCode userID req).2.cache = w.cache := by
    intro hnot
    cases hd : req.Destination with
    | none =>
      simp only [LinkService.UpdateLink, hfind, howner, ne_eq, not_true_eq_false, if_false,
        updateDestination, hd]
      cases parseExpiry x req.ExpiresAt with
      | error e => rfl
      | ok parsed =>
        simp only []
        generalize w.db.Update f now _ = res
        cases res with
        | error e => rfl
        | ok db' => rfl
    | some d =>
      cases hn : NormalizeURL x d with
      | none =>
        simp only [LinkService.UpdateLink, hfind, howner, ne_eq, not_true_eq_false, if_false,
          updateDestination, hd, hn]
      | some destination => exact absurd ⟨d, destination, hd, hn⟩ hnot
  refine ⟨hyes, hno, ?_, ?_⟩
  · intro hpresent
    constructor
    · intro hgone
      by_contra hnot
      rw [hno hnot] at hgone
      exact hpresent hgone
    · intro hex
      rw [hyes hex]
      simp
  · intro hd g later cached hget
    have hcache := hno (by rintro ⟨d, _, hd', _⟩; rw [hd] at hd'; exact absurd hd' (by simp))
    have hget2 : cacheGet g (svc.UpdateLink x f now w shortCode userID req).2.cache
        (cacheKey shortCode) later = some cached := by rw [hcache]; exact hget
    simp only [LinkService.GetDestination, hget2]

/-- C28 on the cached live link: the owner's new destination removes the entry,
also when the store update then fails; the owner's deactivation succeeds and
leaves the entry, so the code still resolves to the cached destination. -/
theorem updateLink_cache_effect_witness :
    ((∃ d destination, retargetingUpdate.Destination = some d ∧
        NormalizeURL demoX d = some destination) →
      (demoSvc.UpdateLink demoX noFaults 100 cachedWorld "abc123" 7 retargetingUpdate).2.cache
        = Function.update cachedWorld.cache (cacheKey "abc123") none) ∧
    ((¬ ∃ d destination, retargetingUpdate.Destination = some d ∧
        NormalizeURL demoX d = some destination) →
      (demoSvc.UpdateLink demoX noFaults 100 cachedWorld "abc123" 7 retargetingUpdate).2.cache
        = cachedWorld.cache) ∧
    (cachedWorld.cache (cacheKey "abc123") ≠ none →
      ((demoSvc.UpdateLink demoX noFaults 100 cachedWorld "abc123" 7 retargetingUpdate).2.cache
          (cacheKey "abc123") = none ↔
        ∃ d destination, retargetingUpdate.Destination = some d ∧
          NormalizeURL demoX d = some destination)) ∧
    (retargetingUpdate.Destination = none → ∀ (g : Faults) (later : Nat) (cached : String),
      cacheGet g cachedWorld.cache (cacheKey "abc123") later = some cached →
      (demoSvc.GetDestination g later
        (demoSvc.UpdateLink demoX noFaults 100 cachedWorld "abc123" 7 retargetingUpdate).2
        "abc123").1 = Except.ok cached) :=
  updateLink_cache_effect demoSvc demoX noFaults 100 cachedWorld "abc123" 7 retargetingUpdate
    liveLink (by rfl) (by rfl) (by rfl)

/-- The two halves of C28 evaluated: a retargeting whose store update fails has
already removed the entry; a deactivation succeeds, the row is inactive, and
the code still resolves to the cached destination. -/
theorem updateLink_cache_samples :
    (demoSvc.UpdateLink demoX { noFaults with updateErr := true } 100 cachedWorld "abc123" 7
      retargetingUpdate).1 = Except.error "failed to update link" ∧
    (demoSvc.UpdateLink demoX { noFaults with updateErr := true } 100 cachedWorld "abc123" 7
      retargetingUpdate).2.cache (cacheKey "abc123") = none ∧
    (demoSvc.UpdateLink demoX noFaults 100 cachedWorld "abc123" 7 switchOffUpdate).1
      = Except.ok () ∧
    (demoSvc.UpdateLink demoX noFaults 100 cachedWorld "abc123" 7 switchOffUpdate).2.db.rows
      = [{ liveLink with IsActive := false, UpdatedAt := 100 }] ∧
    (demoSvc.GetDestination noFaults 200
      (demoSvc.UpdateLink demoX noFaults 100 cachedWorld "abc123" 7 switchOffUpdate).2
      "abc123").1 = Except.ok "https://old.example" := by
  refine ⟨by rfl, by rfl, by rfl, by rfl, by rfl⟩

/-! ## Calls that run at the same time -/

/-- Stepped without interruption, the steps of `UpdateLink` are the method. -/
theorem updateStep_sequential (svc : LinkService) (x : Externals) (f : Faults) (now : Nat)
    (w : World) (shortCode : String) (userID : Int) (req : UpdateLinkRequest) :
    (runUpdateRace x f now shortCode userID req w
        [RaceTurn.update, RaceTurn.update, RaceTurn.update]).update.result
      = some (svc.UpdateLink x f now w shortCode userID req).1 ∧
    (runUpdateRace x f now shortCode userID req w
        [RaceTurn.update, RaceTurn.update, RaceTurn.update]).world
      = (svc.UpdateLink x f now w shortCode userID req).2 := by
  simp only [runUpdateRace, List.foldl, UpdateRace.step, LinkService.UpdateLink]
  cases hfind : w.db.FindByShortCode f shortCode with
  | error e => simp [updateStep, hfind, UpdatePC.result]
  | ok link =>
    by_cases howner : link.UserID = some userID
    · obtain ⟨id, code, dest, owner, title, descr, active, clicks, created, updated, expires⟩ := link
      simp only at howner
      subst howner
      cases hd : updateDestination x f w.cache shortCode dest req.Destination with
      | error e => simp [updateStep, hfind, hd, UpdatePC.result]
      | ok p =>
        obtain ⟨destination, cache1⟩ := p
        cases hp : parseExpiry x req.ExpiresAt with
        | error e => simp [updateStep, hfind, hd, hp, UpdatePC.result]
        | ok parsed =>
          have hrow : ∀ row : ShortLink,
              ((match w.db.Update f now row with
                | Except.error _ =>
                  (UpdatePC.done (Except.error "failed to update link"),
                    ({ db := w.db, cache := cache1 } : World))
                | Except.ok db' =>
                  (UpdatePC.done (Except.ok ()), { db := db', cache := cache1 })).1.result
                = some (match w.db.Update f now row with
                  | Except.error _ =>
                    ((Except.error "failed to update link" : Except String Unit),
                      ({ db := w.db, cache := cache1 } : World))
                  | Except.ok db' => (Except.ok (), { db := db', cache := cache1 })).1) ∧
              ((match w.db.Update f now row with
                | Except.error _ =>
                  (UpdatePC.done (Except.error "failed to update link"),
                    ({ db := w.db, cache := cache1 } : World))
                | Except.ok db' =>
                  (UpdatePC.done (Except.ok ()), { db := db', cache := cache1 })).2
                = (match w.db.Update f now row with
                  | Except.error _ =>
                    ((Except.error "failed to update link" : Except String Unit),
                      ({ db := w.db, cache := cache1 } : World))
                  | Except.ok db' => (Except.ok (), { db := db', cache := cache1 })).2) := by
            intro row
            cases w.db.Update f now row with
            | error e => exact ⟨rfl, rfl⟩
            | ok db' => exact ⟨rfl, rfl⟩
          simp only [updateStep, hfind, hd, hp, ne_eq, not_true_eq_false, if_false]
          exact hrow _
    · simp [updateStep, hfind, howner, UpdatePC.result]

/-- Stepped without interruption, the steps of `GetDestination` are the method. -/
theorem readStep_sequential (svc : LinkService) (x : Externals) (f : Faults) (now : Nat)
    (w : World) (shortCode : String) (userID : Int) (req : UpdateLinkRequest) :
    (runUpdateRace x f now shortCode userID req w
        [RaceTurn.read, RaceTurn.read, RaceTurn.read]).read.result
      = some (svc.GetDestination f now w shortCode).1 ∧
    (runUpdateRace x f now shortCode userID req w
        [RaceTurn.read, RaceTurn.read, RaceTurn.read]).world
      = (svc.GetDestination f now w shortCode).2 := by
  simp only [runUpdateRace, List.foldl, UpdateRace.step, LinkService.GetDestination]
  cases hget : cacheGet f w.cache (cacheKey shortCode) now with
  | some cached => simp [readStep, hget, ReadPC.result]
  | none =>
    cases hfind : w.db.FindByShortCode f shortCode with
    | error e => simp [readStep, hget, hfind, ReadPC.result]
    | ok link =>
      cases hact : link.IsActive with
      | false => simp [readStep, hget, hfind, hact, ReadPC.result]
      | true =>
        cases hexp : link.ExpiresAt with
        | none => simp [readStep, hget, hfind, hact, hexp, ReadPC.result]
        | some t =>
          by_cases ht : t < now <;> simp [readStep, hget, hfind, hact, hexp, ht, ReadPC.result]

/-- Stepped without interruption, the steps of `CreateLink` are the method. -/
theorem createStep_sequential (svc : LinkService) (x : Externals) (f : Faults)
    (rand : Nat → Except String (Fin 62)) (now : Nat) (w : World) (req : CreateLinkRequest)
    (user1 user2 : Option Int) :
    (runCreateRace svc x f rand now req user1 user2 w
        [CreateTurn.first, CreateTurn.first, CreateTurn.first]).first.result
      = some (svc.CreateLink x f rand now w req user1).1 ∧
    (runCreateRace svc x f rand now req user1 user2 w
        [CreateTurn.first, CreateTurn.first, CreateTurn.first]).world
      = (svc.CreateLink x f rand now w req user1).2 := by
  simp only [runCreateRace, List.foldl, CreateRace.step, LinkService.CreateLink]
  cases hn : NormalizeURL x req.Destination with
  | none => simp [createStep, hn, CreatePC.result]
  | some destination =>
    cases hsel : selectCode x f rand w.db req.CustomSlug with
    | error e => simp [createStep, hn, hsel, CreatePC.result]
    | ok shortCode =>
      cases hp : parseExpiry x req.ExpiresAt with
      | error e => simp [createStep, hn, hsel, hp, CreatePC.result]
      | ok expiresAt =>
        simp only [createStep, hn, hsel, hp]
        generalize w.db.Create f now _ = res
        cases res with
        | error e => exact ⟨rfl, rfl⟩
        | ok p => exact ⟨rfl, rfl⟩

/-- C24 fails in the code. The owner's `UpdateLink` of `abc123` to
`https://new.example` reads the row and deletes the cache entry; a `GetDestination`
of `abc123` then misses the cache, reads the row that still has the old
destination and caches it; the update then writes the row and returns
successfully. The store holds the new destination, and a `GetDestination` made
afterwards is answered from the cache with the old one. -/
theorem racing_read_caches_old_destination :
    staleSchedule ∈ interleavings RaceTurn.update RaceTurn.read ∧
    NormalizeURL demoX "https://new.example" = some "https://new.example" ∧
    (runUpdateRace demoX noFaults 100 "abc123" 7 retargetingUpdate liveWorld
      staleSchedule).update.result = some (Except.ok ()) ∧
    (runUpdateRace demoX noFaults 100 "abc123" 7 retargetingUpdate liveWorld
      staleSchedule).read.result = some (Except.ok "https://old.example") ∧
    (runUpdateRace demoX noFaults 100 "abc123" 7 retargetingUpdate liveWorld
      staleSchedule).world.db.rows
      = [{ liveLink with Destination := "https://new.example", UpdatedAt := 100 }] ∧
    (demoSvc.GetDestination noFaults 200
      (runUpdateRace demoX noFaults 100 "abc123" 7 retargetingUpdate liveWorld
        staleSchedule).world "abc123").1 = Except.ok "https://old.example" := by
  refine ⟨by decide, by rfl, by rfl, by rfl, by rfl, by rfl⟩

/-- Without the race the same update is followed by the new destination. -/
theorem update_then_read_in_sequence :
    (demoSvc.GetDestination noFaults 200
      (runUpdateRace demoX noFaults 100 "abc123" 7 retargetingUpdate liveWorld
        [RaceTurn.update, RaceTurn.update, RaceTurn.update, RaceTurn.read, RaceTurn.read,
          RaceTurn.read]).world "abc123").1 = Except.ok "https://new.example" := by
  rfl

/-- C25 fails in the code. Two `CreateLink` calls for the valid slug `Promo1` on an
empty store with a unique index: both check the slug before either inserts, so
both find it free; the first insert succeeds, the second is refused by the
index, and the second call returns `failed to create link`, not the conflict
`custom slug already taken` that the same call returns when it runs after the
first. -/
theorem racing_create_loses_without_conflict :
    IsValidCustomSlug "Promo1" = true ∧ emptyWorld.db.uniqueCodes = true ∧
    doubleCheckSchedule ∈ interleavings CreateTurn.first CreateTurn.second ∧
    (runCreateRace demoSvc demoX noFaults zeroRand 100 demoCreate (some 7) (some 8) emptyWorld
      doubleCheckSchedule).first.result = some (Except.ok demoResp) ∧
    (runCreateRace demoSvc demoX noFaults zeroRand 100 demoCreate (some 7) (some 8) emptyWorld
      doubleCheckSchedule).second.result = some (Except.error "failed to create link") ∧
    (demoSvc.CreateLink demoX noFaults zeroRand 100
      (demoSvc.CreateLink demoX noFaults zeroRand 100 emptyWorld demoCreate (some 7)).2
      demoCreate (some 8)).1 = Except.error "custom slug already taken" := by
  refine ⟨by decide, by rfl, by decide, by rfl, by rfl, by rfl⟩

/-- In each of the twenty interleavings of the two calls of C25 exactly one call
succeeds; the other one fails with the conflict when its check comes after the
insert of the winner, and with `failed to create link` in the twelve
interleavings in which both checks come before both inserts. -/
theorem create_race_outcomes :
    (interleavings CreateTurn.first CreateTurn.second).map (fun sch =>
      ((runCreateRace demoSvc demoX noFaults zeroRand 100 demoCreate (some 7) (some 8)
          emptyWorld sch).first.result.map failureOf,
        (runCreateRace demoSvc demoX noFaults zeroRand 100 demoCreate (some 7) (some 8)
          emptyWorld sch).second.result.map failureOf))
      = [(some none, some (some "custom slug already taken")),
          (some none, some (some "custom slug already taken")),
          (some none, some (some "custom slug already taken")),
          (some none, some (some "custom slug already taken")),
          (some none, some (some "failed to create link")),
          (some none, some (some "failed to create link")),
          (some none, some (some "failed to create link")),
          (some (some "failed to create link"), some none),
          (some (some "failed to create link"), some none),
          (some (some "failed to create link"), some none),
          (some none, some (some "failed to create link")),
          (some none, some (some "failed to create link")),
          (some none, some (some "failed to create link")),
          (some (some "failed to create link"), some none),
          (some (some "failed to create link"), some none),
          (some (some "failed to create link"), some none),
          (some (some "custom slug already taken"), some none),
          (some (some "custom slug already taken"), some none),
          (some (some "custom slug already taken"), some none),
          (some (some "custom slug already taken"), some none)] := by
  rfl

end Koda
